import Mathlib

/-!
# Oscillation features of the segmentation clock (`feats.cpp`)

A shallow embedding of the critical point detector (`get_peaks_and_troughs1`,
`get_peaks_and_troughs2`), of `avg_amp`, `ant_sync`, `pearson_correlation` and
`test_compl`, of the cell loop of `osc_features_ant` for one gene (the period
and amplitude samples, the oscillation quality test and the population averages),
of the wave counters `wave_testing`, `wave_testing_her1` and `wave_testing_mesp`,
and of `osc_features_post` for one gene.

Conventions of the embedding:
* a C `int` is an `Int` (no overflow is modelled), a C `double` is an exact
  rational `ℚ` (no rounding, no NaN); the rounding of `double` arithmetic is
  modelled for `pearson_correlation` only, by `pearson_correlation_rounded`, where
  the exact result of every operation is rounded to the nearest binary64 number;
* a C array is a total function of its index, so a read at any index has a value;
* a `growin_array` is an unbounded array of `int` indexed by `Nat`;
* the `for` loops whose bound involves a `double` or a data dependent exit are
  recursions on a fuel that is provably never exhausted before the loop
  condition fails; the counted loops are folds over `List.range`, and a counted
  loop with a `break` is a fold whose state carries a flag: once the flag is set,
  the remaining iterations leave the state as it is;
* the square root of the C library is a parameter `sqrt` of the functions that
  use it, and `pearson_correlation` is stated over any ordered field, so that its
  algebraic properties can be proved over `ℝ` with `Real.sqrt`.
-/

namespace Feats

/-! ## Macros, conversions and data -/

/-- Modelled from the spec: the `MAX` macro of the missing macro header, the
larger of its two arguments (used to clamp the window to the segment bounds). -/
def MAX (x y : ℚ) : ℚ := if x > y then x else y

/-- Modelled from the spec: the `MIN` macro of the missing macro header, the
smaller of its two arguments (used to clamp the window to the segment bounds). -/
def MIN (x y : ℚ) : ℚ := if x < y then x else y

/-- The C conversion of a `double` to an `int`: truncation toward zero. -/
def double_to_int (x : ℚ) : Int := Int.tdiv x.num (x.den : Int)

/-- Modelled from the spec: the simulation parameters read by the functions
below (`sim_data` is declared in a header that is not part of the sources). -/
structure sim_data where
  height : Int
  width_total : Int
  time_end : Int
  step_size : ℚ
  big_gran : Int
  steps_split : Int
  width_initial : Int
  width_current : Int

/-- Modelled from the spec: the concentration store `cons[species][time][cell]`
and the active start record (`con_levels` is declared in a missing header). -/
structure con_levels where
  cons : Int → Int → Int → ℚ
  active_start_record : Int → Int

/-- Modelled from the spec: a growable buffer of `int`, here an unbounded array. -/
abbrev growin_array := Nat → Int

/-- The assignment `a[i] = v`. -/
def growin_array.write (a : growin_array) (i : Nat) (v : Int) : growin_array :=
  fun k => if k = i then v else a k

/-- A zeroed buffer. -/
def zero_array : growin_array := fun _ => 0

/-- The three output buffers of the detector and its counter `num_points`. -/
structure crit_state where
  crit_points : growin_array
  type : growin_array
  position : growin_array
  num_points : Nat

/-- The three assignments and the increment made when a critical point is recorded. -/
def crit_state.record (s : crit_state) (j kind pos : Int) : crit_state :=
  { crit_points := s.crit_points.write s.num_points j
    type := s.type.write s.num_points kind
    position := s.position.write s.num_points pos
    num_points := s.num_points + 1 }

/-- The rows written at indices `0 .. num_points - 1`: (time, kind, position). -/
def crit_state.rows (s : crit_state) : List (Int × Int × Int) :=
  (List.range s.num_points).map (fun i => (s.crit_points i, s.type i, s.position i))

/-! ## The critical point detector -/

/-- The window half width `2 / sd.step_size / sd.big_gran` (a `double`). -/
def half_width (sd : sim_data) : ℚ := 2 / sd.step_size / (sd.big_gran : ℚ)

/-- The initial value of `k` in the window loops:
`int k = MAX(j - (2 / sd.step_size / sd.big_gran), time_start)`. -/
def window_first (sd : sim_data) (time_start j : Int) : Int :=
  double_to_int (MAX ((j : ℚ) - half_width sd) (time_start : ℚ))

/-- The bound of the window loops: `MIN(j + 2 / sd.step_size / sd.big_gran, bound)`,
where `bound` is `sd.time_end` in the first detector and `sd.time_end - 1` in the second. -/
def window_bound (sd : sim_data) (j bound : Int) : ℚ :=
  MIN ((j : ℚ) + half_width sd) (bound : ℚ)

/-- The peak loop: `for (...; k <= hi; k++) if (conc[j] <= conc[k] && j != k) is_peak = false;`. -/
def peak_loop (conc : Int → ℚ) (j : Int) (hi : ℚ) : Nat → Int → Bool → Bool
  | 0, _, is_peak => is_peak
  | fuel + 1, k, is_peak =>
    if (k : ℚ) ≤ hi then
      peak_loop conc j hi fuel (k + 1) (if conc j ≤ conc k ∧ j ≠ k then false else is_peak)
    else is_peak

/-- The trough loop: `for (...; k <= hi; k++) if (conc[j] >= conc[k] && j != k) is_trough = false;`. -/
def trough_loop (conc : Int → ℚ) (j : Int) (hi : ℚ) : Nat → Int → Bool → Bool
  | 0, _, is_trough => is_trough
  | fuel + 1, k, is_trough =>
    if (k : ℚ) ≤ hi then
      trough_loop conc j hi fuel (k + 1) (if conc j ≥ conc k ∧ j ≠ k then false else is_trough)
    else is_trough

/-- The position of the cell at step `j` (lines 63-68 and 128-133);
`col` is `actual_cell % sd.width_total`. -/
def cell_pos (sd : sim_data) (cl : con_levels) (col j : Int) : Int :=
  if cl.active_start_record j ≥ col then
    cl.active_start_record j - col
  else
    cl.active_start_record j + sd.width_total - col

/-- The value of `is_peak` after the peak loop at step `j`; the loop runs on the
steps from `window_first` up to the bound, which is at most `bound`. -/
def is_peak_at (sd : sim_data) (conc : Int → ℚ) (time_start bound j : Int) : Bool :=
  peak_loop conc j (window_bound sd j bound)
    (bound + 1 - window_first sd time_start j).toNat (window_first sd time_start j) true

/-- The value of `is_trough` after the trough loop at step `j`. -/
def is_trough_at (sd : sim_data) (conc : Int → ℚ) (time_start bound j : Int) : Bool :=
  trough_loop conc j (window_bound sd j bound)
    (bound + 1 - window_first sd time_start j).toNat (window_first sd time_start j) true

/-- The body of the `j` loop of both detectors, lines 63-98 (and 128-162). -/
def detect_body (sd : sim_data) (cl : con_levels) (actual_cell time_start mr bound j : Int)
    (s : crit_state) : crit_state :=
  let col := Int.tmod actual_cell sd.width_total
  let conc : Int → ℚ := fun t => cl.cons mr t actual_cell
  let pos := cell_pos sd cl col j
  let s1 := if is_peak_at sd conc time_start bound j then s.record j 1 pos else s
  if is_trough_at sd conc time_start bound j then s1.record j (-1) pos else s1

/-- The loop condition of both detectors (lines 60 and 121). -/
def alive_cond (BIRTH : Int) (sd : sim_data) (cl : con_levels) (actual_cell j : Int) : Prop :=
  j < sd.time_end - 1 ∧ cl.cons BIRTH j actual_cell = cl.cons BIRTH (j - 1) actual_cell
    ∧ cl.cons BIRTH j actual_cell = cl.cons BIRTH (j + 1) actual_cell

instance (BIRTH : Int) (sd : sim_data) (cl : con_levels) (actual_cell j : Int) :
    Decidable (alive_cond BIRTH sd cl actual_cell j) :=
  inferInstanceAs (Decidable (_ ∧ _ ∧ _))

/-- The `j` loop of `get_peaks_and_troughs1` (line 60). -/
def gpt1_loop (BIRTH : Int) (sd : sim_data) (cl : con_levels) (actual_cell time_start mr : Int) :
    Nat → Int → crit_state → crit_state
  | 0, _, s => s
  | fuel + 1, j, s =>
    if alive_cond BIRTH sd cl actual_cell j then
      gpt1_loop BIRTH sd cl actual_cell time_start mr fuel (j + 1)
        (detect_body sd cl actual_cell time_start mr sd.time_end j s)
    else s

/-- The function `get_peaks_and_troughs1` (lines 48-102): the final buffers and
the returned `num_points`. `BIRTH` is the index of the birth time channel. -/
def get_peaks_and_troughs1 (BIRTH : Int) (sd : sim_data) (cl : con_levels)
    (actual_cell time_start : Int) (crit_points type position : growin_array) (mr : Int) :
    crit_state :=
  gpt1_loop BIRTH sd cl actual_cell time_start mr (sd.time_end - 1 - (time_start + 1)).toNat
    (time_start + 1)
    { crit_points := crit_points, type := type, position := position, num_points := 0 }

/-- The buffers `mh1_comp`, `mespa_comp`, `mespb_comp` of the second detector
(arrays of `double`) and its counter `compl_count`. -/
structure compl_state where
  mh1_comp : Nat → ℚ
  mespa_comp : Nat → ℚ
  mespb_comp : Nat → ℚ
  compl_count : Nat

/-- Lines 123-126: the three concentrations of step `j` are stored at `compl_count`. -/
def compl_state.record (CMH1 CMMESPA CMMESPB : Int) (cl : con_levels) (actual_cell j : Int)
    (c : compl_state) : compl_state :=
  { mh1_comp := fun i => if i = c.compl_count then cl.cons CMH1 j actual_cell else c.mh1_comp i
    mespa_comp :=
      fun i => if i = c.compl_count then cl.cons CMMESPA j actual_cell else c.mespa_comp i
    mespb_comp :=
      fun i => if i = c.compl_count then cl.cons CMMESPB j actual_cell else c.mespb_comp i
    compl_count := c.compl_count + 1 }

/-- The `j` loop of `get_peaks_and_troughs2` (line 121); its window loops are
bounded by `sd.time_end - 1` (lines 137 and 152). -/
def gpt2_loop (BIRTH CMH1 CMMESPA CMMESPB : Int) (sd : sim_data) (cl : con_levels)
    (actual_cell time_start mr : Int) :
    Nat → Int → crit_state × compl_state → crit_state × compl_state
  | 0, _, s => s
  | fuel + 1, j, s =>
    if alive_cond BIRTH sd cl actual_cell j then
      gpt2_loop BIRTH CMH1 CMMESPA CMMESPB sd cl actual_cell time_start mr fuel (j + 1)
        (detect_body sd cl actual_cell time_start mr (sd.time_end - 1) j s.1,
          s.2.record CMH1 CMMESPA CMMESPB cl actual_cell j)
    else s

/-- The function `get_peaks_and_troughs2` (lines 111-166): the final buffers, the
returned `num_points`, and the recorded concentrations of the three genes. -/
def get_peaks_and_troughs2 (BIRTH CMH1 CMMESPA CMMESPB : Int) (sd : sim_data) (cl : con_levels)
    (actual_cell time_start : Int) (crit_points type position : growin_array) (mr : Int)
    (mh1_comp mespa_comp mespb_comp : Nat → ℚ) : crit_state × compl_state :=
  gpt2_loop BIRTH CMH1 CMMESPA CMMESPB sd cl actual_cell time_start mr
    (sd.time_end - 1 - (time_start + 1)).toNat (time_start + 1)
    ({ crit_points := crit_points, type := type, position := position, num_points := 0 },
      { mh1_comp := mh1_comp, mespa_comp := mespa_comp, mespb_comp := mespb_comp,
        compl_count := 0 })

/-! ## Column addressing of `avg_amp` and `ant_sync` -/

/-- The value given to `pos_cur` (and `pos_first`) at offset `y`
(lines 850-854, 875-879 and 888-892). -/
def doubled_offset (sd : sim_data) (pos_start y : Int) : Int :=
  if pos_start - y < 0 then pos_start - 2 * y + sd.width_total else pos_start - 2 * y

/-- The cell read by `avg_amp` in row `x` at offset `y` (line 855). -/
def avg_amp_cell (sd : sim_data) (cl : con_levels) (time x y : Int) : Int :=
  x * sd.width_total + y + doubled_offset sd (cl.active_start_record time) y

/-- The function `avg_amp` (lines 843-860). -/
def avg_amp (sd : sim_data) (cl : con_levels) (con time start end_ : Int) : ℚ :=
  let conslevel :=
    (List.range sd.height.toNat).foldl
      (fun acc (x : Nat) =>
        (List.range (end_ - start).toNat).foldl
          (fun acc2 (i : Nat) =>
            acc2 + cl.cons con time (avg_amp_cell sd cl time (x : Int) (start + (i : Int))))
          acc)
      (0 : ℚ)
  conslevel / ((sd.height * (end_ - start) : Int) : ℚ)

/-- The value of `pos_first` (line 881) and of `pos_cur` (line 894) of `ant_sync`
at offset `y`: both start at 0 and are assigned only for the genes 3 and 4. -/
def ant_sync_offset (sd : sim_data) (con pos_start y : Int) : Int :=
  if con = 3 ∨ con = 4 then doubled_offset sd pos_start y else 0

/-- The cell read by `ant_sync` in row `x` at offset `y` (lines 881 and 894). -/
def ant_sync_cell (sd : sim_data) (cl : con_levels) (con time x y : Int) : Int :=
  x * sd.width_total + y + ant_sync_offset sd con (cl.active_start_record time) y

/-! ## The period and amplitude loop of `osc_features_ant` -/

/-- The local arrays `periods`, `per_pos`, `per_time`, `amplitudes`, `amp_pos`
(arrays of `double`) and the indices `pers`, `amps` (lines 276-288). -/
structure osc_state where
  periods : Nat → ℚ
  per_pos : Nat → ℚ
  per_time : Nat → ℚ
  amplitudes : Nat → ℚ
  amp_pos : Nat → ℚ
  pers : Nat
  amps : Nat

/-- The assignment `a[i] = v` on an array of `double`. -/
def dwrite (a : Nat → ℚ) (i : Nat) (v : ℚ) : Nat → ℚ := fun k => if k = i then v else a k

/-- The period sample of lines 298-301 for the critical point `cur_point`. -/
def period_step (sd : sim_data) (crit_points type position : growin_array) (cur_point : Nat)
    (s : osc_state) : osc_state :=
  if type cur_point = 1 ∧ cur_point ≥ 2 then
    let p : ℚ := ((crit_points cur_point - crit_points (cur_point - 2) : Int) : ℚ)
      * sd.step_size * (sd.big_gran : ℚ)
    { s with
      periods := dwrite s.periods s.pers p
      per_pos := dwrite s.per_pos s.pers
        ((position (cur_point - 2)
          + Int.tdiv (position cur_point - position (cur_point - 2)) 2 : Int) : ℚ)
      per_time := dwrite s.per_time s.pers (p / 2)
      pers := s.pers + 1 }
  else s

/-- The amplitude sample of lines 305-310 for the critical point `cur_point`;
`conc` is the series `conc[.][cell]` of the analysed cell. -/
def amplitude_step (conc : Int → ℚ) (crit_points type position : growin_array)
    (num_points cur_point : Nat) (s : osc_state) : osc_state :=
  if type cur_point = 1 ∧ cur_point ≥ 1 ∧ (cur_point : Int) < (num_points : Int) - 1 then
    { s with
      amplitudes := dwrite s.amplitudes s.amps
        (conc (crit_points cur_point)
          - (conc (crit_points (cur_point - 1)) + conc (crit_points (cur_point + 1))) / 2)
      amp_pos := dwrite s.amp_pos s.amps ((position cur_point : Int) : ℚ)
      amps := s.amps + 1 }
  else s

/-- The loop of lines 287-311 of `osc_features_ant`, entered when `num_points >= 3`:
`per_time0` is the (uninitialised) content of `per_time`, the other arrays are zeroed. -/
def osc_samples (sd : sim_data) (conc : Int → ℚ) (crit_points type position : growin_array)
    (num_points : Nat) (per_time0 : Nat → ℚ) : osc_state :=
  let init : osc_state :=
    { periods := fun _ => 0, per_pos := fun _ => 0, per_time := per_time0,
      amplitudes := fun _ => 0, amp_pos := fun _ => 0, pers := 0, amps := 0 }
  if num_points ≥ 3 then
    (List.range num_points).foldl
      (fun s cur_point =>
        amplitude_step conc crit_points type position num_points cur_point
          (period_step sd crit_points type position cur_point s))
      init
  else init

/-- The period samples written at indices `0 .. pers - 1`: (period, position). -/
def osc_state.period_samples (s : osc_state) : List (ℚ × ℚ) :=
  (List.range s.pers).map (fun i => (s.periods i, s.per_pos i))

/-- The amplitude samples written at indices `0 .. amps - 1`: (amplitude, position). -/
def osc_state.amplitude_samples (s : osc_state) : List (ℚ × ℚ) :=
  (List.range s.amps).map (fun i => (s.amplitudes i, s.amp_pos i))

/-! ## The Pearson correlation -/

/-- Modelled from the spec: the `SQUARE` macro of the missing macro header, the
square of its argument (used for the sums of squares of the correlation). -/
def SQUARE {K : Type} [LinearOrderedField K] (x : K) : K := x * x

/-- The function `pearson_correlation` (lines 989-1022) over an ordered field `K`
of numbers; `sqrt` is the square root function of the C library. -/
def pearson_correlation {K : Type} [LinearOrderedField K] (sqrt : K → K) (x y : Int → K)
    (start end_ : Int) : K :=
  let avgs : K × K :=
    (List.range (end_ - start).toNat).foldl
      (fun acc (i : Nat) => (acc.1 + x (start + i), acc.2 + y (start + i))) (0, 0)
  let x_avg := avgs.1 / ((end_ - start : Int) : K)
  let y_avg := avgs.2 / ((end_ - start : Int) : K)
  let sigmas : K × K × K :=
    (List.range (end_ - start).toNat).foldl
      (fun acc (i : Nat) =>
        (acc.1 + (x (start + i) - x_avg) * (y (start + i) - y_avg),
          acc.2.1 + SQUARE (x (start + i) - x_avg),
          acc.2.2 + SQUARE (y (start + i) - y_avg)))
      (0, 0, 0)
  let sigma_x2 := sqrt sigmas.2.1
  let sigma_y2 := sqrt sigmas.2.2
  if sigma_x2 = 0 ∨ sigma_y2 = 0 then 1 else sigmas.1 / (sigma_x2 * sigma_y2)

/-- The function `test_compl` (lines 188-192) on two buffers of `double`. -/
def test_compl (sqrt : ℚ → ℚ) (sd : sim_data) (con1 con2 : Nat → ℚ) : ℚ :=
  let count : Int := sd.width_total * sd.steps_split - 2
  pearson_correlation sqrt (fun j => con1 j.toNat) (fun j => con2 j.toNat)
    (double_to_int (0.6 * (count : ℚ))) count

/-! ## The Pearson correlation in `double` arithmetic -/

/-- The power `2 ^ e` for a whole exponent `e`, as an exact rational. -/
def pow2 (e : Int) : ℚ :=
  if 0 ≤ e then ((2 ^ e.toNat : Nat) : ℚ) else 1 / ((2 ^ (-e).toNat : Nat) : ℚ)

/-- The number of binary digits of `n`; `fuel` bounds the number of halvings. -/
def bit_length : Nat → Nat → Nat
  | 0, _ => 0
  | fuel + 1, n => if n = 0 then 0 else bit_length fuel (n / 2) + 1

/-- The binary exponent of a value `q` other than 0: the whole number `e` with
`2 ^ e ≤ |q| < 2 ^ (e + 1)`, which is the difference of the numbers of digits of the
numerator and of the denominator, or one less. -/
def binary_exponent (q : ℚ) : Int :=
  let e : Int := (bit_length q.num.natAbs q.num.natAbs : Int) - (bit_length q.den q.den : Int)
  if pow2 e ≤ |q| then e else e - 1

/-- The whole number nearest to `q`; of two whole numbers at the same distance, the
even one. -/
def round_half_even (q : ℚ) : Int :=
  if q - (⌊q⌋ : ℚ) < 1 / 2 then ⌊q⌋
  else if q - (⌊q⌋ : ℚ) > 1 / 2 then ⌊q⌋ + 1
  else if ⌊q⌋ % 2 = 0 then ⌊q⌋ else ⌊q⌋ + 1

/-- The value of type `double` that an operation with the exact result `q` delivers:
the IEEE 754 binary64 number nearest to `q` (53 significant bits, least exponent
-1022, a tie goes to the even significand). The results beyond the largest finite
`double`, which are infinite in C, are not modelled. -/
def round_double (q : ℚ) : ℚ :=
  if q = 0 then 0
  else
    let ulp : ℚ := pow2 (max (binary_exponent q) (-1022) - 52)
    (round_half_even (q / ulp) : ℚ) * ulp

/-- The values of `x_avg` and `y_avg` after the lines 996-1003 of `pearson_correlation`,
when the exact result of each addition and division is rounded by `rnd`. -/
def pearson_means_rounded (rnd : ℚ → ℚ) (x y : Int → ℚ) (start end_ : Int) : ℚ × ℚ :=
  let avgs : ℚ × ℚ :=
    (List.range (end_ - start).toNat).foldl
      (fun acc (i : Nat) => (rnd (acc.1 + x (start + i)), rnd (acc.2 + y (start + i)))) (0, 0)
  (rnd (avgs.1 / ((end_ - start : Int) : ℚ)), rnd (avgs.2 / ((end_ - start : Int) : ℚ)))

/-- The values of `sigma_xy`, `sigma_x2` and `sigma_y2` after the loop of lines
1005-1009 of `pearson_correlation`, when the exact result of each subtraction,
multiplication and addition is rounded by `rnd`. -/
def pearson_sums_rounded (rnd : ℚ → ℚ) (x y : Int → ℚ) (start end_ : Int) : ℚ × ℚ × ℚ :=
  let x_avg := (pearson_means_rounded rnd x y start end_).1
  let y_avg := (pearson_means_rounded rnd x y start end_).2
  (List.range (end_ - start).toNat).foldl
    (fun acc (i : Nat) =>
      (rnd (acc.1 + rnd (rnd (x (start + i) - x_avg) * rnd (y (start + i) - y_avg))),
        rnd (acc.2.1 + rnd (SQUARE (rnd (x (start + i) - x_avg)))),
        rnd (acc.2.2 + rnd (SQUARE (rnd (y (start + i) - y_avg))))))
    (0, 0, 0)

/-- The function `pearson_correlation` (lines 989-1022) on values of type `double`:
the exact result of each arithmetic operation is rounded by `rnd`, and `sqrt` is the
square root function of the C library. With the identity for `rnd` this is
`pearson_correlation` over the rationals. -/
def pearson_correlation_rounded (rnd sqrt : ℚ → ℚ) (x y : Int → ℚ) (start end_ : Int) : ℚ :=
  let sigmas := pearson_sums_rounded rnd x y start end_
  let sigma_x2 := sqrt sigmas.2.1
  let sigma_y2 := sqrt sigmas.2.2
  if sigma_x2 = 0 ∨ sigma_y2 = 0 then 1 else rnd (sigmas.1 / rnd (sigma_x2 * sigma_y2))

/-! ## The synchronisation score `ant_sync` -/

/-- The array `first_row` of `ant_sync` after the loop of lines 873-882. -/
def ant_sync_first_row (sd : sim_data) (cl : con_levels) (con time : Int) : Int → ℚ :=
  fun y => cl.cons con time (y + ant_sync_offset sd con (cl.active_start_record time) y)

/-- The array `cur_row` of `ant_sync` for row `x` after the loop of lines 886-896. -/
def ant_sync_cur_row (sd : sim_data) (cl : con_levels) (con time x : Int) : Int → ℚ :=
  fun y => cl.cons con time (ant_sync_cell sd cl con time x y)

/-- The function `ant_sync` (lines 862-907). -/
def ant_sync (sqrt : ℚ → ℚ) (sd : sim_data) (cl : con_levels) (con time : Int) : ℚ :=
  if sd.height = 1 then 1
  else
    let first_row := ant_sync_first_row sd cl con time
    let pearson_sum :=
      (List.range (sd.height - 1).toNat).foldl
        (fun acc (i : Nat) =>
          let cur_row := ant_sync_cur_row sd cl con time (1 + (i : Int))
          if con = 3 ∨ con = 4 then
            acc + pearson_correlation sqrt first_row cur_row
              (double_to_int (0.6 * (sd.width_total : ℚ))) sd.width_total
          else
            acc + pearson_correlation sqrt first_row cur_row 0 sd.width_total)
        (0 : ℚ)
    pearson_sum / ((sd.height - 1 : Int) : ℚ)

/-! ## The oscillation quality test and the cell loop of `osc_features_ant` -/

/-- The table `curve[101]` of `osc_features_ant` (line 201). -/
def curve_table : List ℚ :=
  [1, 1.003367003, 1.003367003, 1.003367003, 1.004713805, 1.004713805, 1.007407407, 1.015488215,
    1.015488215, 1.020875421, 1.023569024, 1.023569024, 1.026262626, 1.028956229, 1.037037037,
    1.037037037, 1.03973064, 1.042424242, 1.047811448, 1.050505051, 1.055892256, 1.058585859,
    1.061279461, 1.066666667, 1.069360269, 1.072053872, 1.077441077, 1.082828283, 1.088215488,
    1.090909091, 1.096296296, 1.098989899, 1.104377104, 1.10976431, 1.115151515, 1.115151515,
    1.120538721, 1.125925926, 1.128619529, 1.139393939, 1.142087542, 1.15016835, 1.155555556,
    1.160942761, 1.169023569, 1.174410774, 1.182491582, 1.187878788, 1.195959596, 1.201346801,
    1.212121212, 1.22020202, 1.228282828, 1.239057239, 1.247138047, 1.255218855, 1.268686869,
    1.276767677, 1.287542088, 1.301010101, 1.314478114, 1.325252525, 1.336026936, 1.352188552,
    1.368350168, 1.381818182, 1.397979798, 1.414141414, 1.432996633, 1.454545455, 1.476094276,
    1.492255892, 1.519191919, 1.546127946, 1.573063973, 1.6, 1.632323232, 1.672727273,
    1.705050505, 1.742760943, 1.785858586, 1.837037037, 1.896296296, 1.955555556, 2.025589226,
    2.106397306, 2.195286195, 2.303030303, 2.418855219, 2.572390572, 2.725925926, 2.941414141,
    3.208080808, 3.574410774, 4, 8.399297321, 12.79859464, 17.19789196, 21.59718928, 25.99648661,
    30.39578393]

/-- The read `curve[i]`. -/
def curve (i : Int) : ℚ := curve_table.getD i.toNat 0

/-- The loop of lines 321-333 on the period samples `1 .. pers - 1`, with its two
`break`s; `passed` is true on entry. -/
def giudicelli_loop (sd : sim_data) (s : osc_state) (first_fit : Int) : Nat → Nat → Bool → Bool
  | 0, _, passed => passed
  | fuel + 1, i, passed =>
    if i < s.pers then
      if s.per_pos i > 0.85 * ((sd.width_total - 1 : Int) : ℚ) then passed
      else
        let percentage : Int :=
          double_to_int (s.per_pos i * 100 / ((sd.width_total - 1 : Int) : ℚ))
        let ratio : ℚ := s.periods i / s.periods 0
        if ¬ (0.9 * curve percentage / curve first_fit < ratio
            ∧ ratio < 1.1 * curve percentage / curve first_fit) then false
        else giudicelli_loop sd s first_fit fuel (i + 1) passed
    else passed

/-- The value of `passed` after the test of lines 314-334. -/
def giudicelli_test (sd : sim_data) (s : osc_state) : Bool :=
  if s.pers < 3 then false
  else
    giudicelli_loop sd s
      (double_to_int (s.per_pos 0 * 100 / ((sd.width_total - 1 : Int) : ℚ))) s.pers 1 true

/-- The sum `amp_cell` of the amplitude samples (lines 342-345). -/
def amp_cell (s : osc_state) : ℚ :=
  (List.range s.amps).foldl (fun acc (i : Nat) => acc + s.amplitudes i) 0

/-- What one cell adds to `amp_avg` (lines 354-358 and 363). -/
def cell_amp (num_points : Nat) (s : osc_state) : ℚ :=
  if num_points ≥ 3 then (if s.amps = 0 then 0 else amp_cell s / (s.amps : ℚ)) else 1

/-- What one cell adds to `period_avg` (lines 361 and 364). -/
def cell_period (num_points : Nat) (s : osc_state) : ℚ :=
  if num_points ≥ 3 then s.periods 0 else 1

/-- The variables of `osc_features_ant` carried from cell to cell for one gene:
the sums, the counter of passed cells, the three buffers of critical points, the
three buffers of concentrations and the two complementary scores. -/
structure ant_state where
  amp_avg : ℚ
  period_avg : ℚ
  num_cells_passed : Int
  crit_points : growin_array
  type : growin_array
  position : growin_array
  mh1_comp : Nat → ℚ
  mespa_comp : Nat → ℚ
  mespb_comp : Nat → ℚ
  comp_score_a : ℚ
  comp_score_b : ℚ

/-- Modelled from the spec: `growin_array::reset`, declared in a missing header;
the buffer is cleared between cells. -/
def growin_array.reset (_a : growin_array) : growin_array := fun _ => 0

/-- The analysis of one cell (lines 258-413) for the gene `mr`, at row `line` of
the column that is the newest at `time_start`. The file output and the time
bucketed mutant data are not part of the state. -/
def ant_cell (BIRTH CMH1 CMMESPA CMMESPB : Int) (sqrt : ℚ → ℚ) (sd : sim_data)
    (cl : con_levels) (mr time_start : Int) (per_time0 : Nat → ℚ) (st : ant_state)
    (line : Int) : ant_state :=
  let pos := cl.active_start_record time_start
  let cell := line * sd.width_total + pos
  let st1 : ant_state × Nat :=
    if mr ≠ CMMESPA then
      let r := get_peaks_and_troughs1 BIRTH sd cl cell time_start
        st.crit_points st.type st.position mr
      ({ st with crit_points := r.crit_points, type := r.type, position := r.position },
        r.num_points)
    else
      let r := get_peaks_and_troughs2 BIRTH CMH1 CMMESPA CMMESPB sd cl cell time_start
        st.crit_points st.type st.position mr st.mh1_comp st.mespa_comp st.mespb_comp
      ({ st with
          crit_points := r.1.crit_points, type := r.1.type, position := r.1.position
          mh1_comp := r.2.mh1_comp, mespa_comp := r.2.mespa_comp
          mespb_comp := r.2.mespb_comp
          comp_score_a := st.comp_score_a + test_compl sqrt sd r.2.mh1_comp r.2.mespa_comp
          comp_score_b := st.comp_score_b + test_compl sqrt sd r.2.mh1_comp r.2.mespb_comp },
        r.1.num_points)
  let num_points := st1.2
  let s := osc_samples sd (fun t => cl.cons mr t cell) st1.1.crit_points st1.1.type
    st1.1.position num_points per_time0
  let passed : Bool := decide (num_points ≥ 3) && giudicelli_test sd s
  { st1.1 with
    num_cells_passed :=
      if passed = true ∧ mr = CMH1 then st1.1.num_cells_passed + 1
      else st1.1.num_cells_passed
    amp_avg := st1.1.amp_avg + cell_amp num_points s
    period_avg := st1.1.period_avg + cell_period num_points s
    type := st1.1.type.reset
    crit_points := st1.1.crit_points.reset }

/-- The loop over the rows `start_line .. end_line - 1` of one column (line 257). -/
def ant_lines (BIRTH CMH1 CMMESPA CMMESPB : Int) (sqrt : ℚ → ℚ) (sd : sim_data)
    (cl : con_levels) (mr time_start : Int) (per_time0 : Nat → ℚ) (start_line end_line : Int)
    (st : ant_state) : ant_state :=
  (List.range (end_line - start_line).toNat).foldl
    (fun st (i : Nat) =>
      ant_cell BIRTH CMH1 CMMESPA CMMESPB sqrt sd cl mr time_start per_time0 st
        (start_line + (i : Int)))
    st

/-- The loop over the columns `start_col .. end_col - 1` (lines 256-416); after each
column `time_start` advances by `sd.steps_split / sd.big_gran` (a division of `int`s). -/
def ant_cols (BIRTH CMH1 CMMESPA CMMESPB : Int) (sqrt : ℚ → ℚ) (sd : sim_data)
    (cl : con_levels) (mr : Int) (per_time0 : Nat → ℚ)
    (start_line end_line start_col end_col : Int) (time_start : Int) (st : ant_state) :
    ant_state × Int :=
  (List.range (end_col - start_col).toNat).foldl
    (fun acc (_ : Nat) =>
      (ant_lines BIRTH CMH1 CMMESPA CMMESPB sqrt sd cl mr acc.2 per_time0 start_line end_line
          acc.1,
        acc.2 + Int.tdiv sd.steps_split sd.big_gran))
    (st, time_start)

/-- What `osc_features_ant` stores for one gene after the cell loop (lines 428-448):
`md.feat.period_ant[index]`, `md.feat.amplitude_ant[index]` and
`md.conds_passed[SEC_ANT][0]`. -/
structure ant_feat where
  period_ant : ℚ
  amplitude_ant : ℚ
  conds_passed_ant0 : Bool

/-- The pass of `osc_features_ant` for the gene `mr` (lines 239-448): `time_start` is
the value returned by the missing `anterior_time`, `wildtype` is
`md.index == MUTANT_WILDTYPE`, `cond0` is `md.conds_passed[SEC_ANT][0]` on entry and
`st` holds the buffers and the complementary scores on entry. -/
def osc_features_ant_gene (BIRTH CMH1 CMMESPA CMMESPB : Int) (sqrt : ℚ → ℚ) (sd : sim_data)
    (cl : con_levels) (mr : Int) (per_time0 : Nat → ℚ)
    (start_line end_line start_col end_col : Int) (time_start : Int) (wildtype cond0 : Bool)
    (st : ant_state) : ant_feat × ant_state :=
  let fin := (ant_cols BIRTH CMH1 CMMESPA CMMESPB sqrt sd cl mr per_time0
    start_line end_line start_col end_col time_start
    { st with amp_avg := 0, period_avg := 0, num_cells_passed := 0 }).1
  let cells : Int := (end_line - start_line) * (end_col - start_col)
  let amp_avg := fin.amp_avg / (cells : ℚ)
  let period_avg := fin.period_avg / (cells : ℚ)
  let threshold : Int :=
    double_to_int (0.7 * ((end_line - start_line : Int) : ℚ) * ((end_col - start_col : Int) : ℚ))
  ({ period_ant := period_avg
     amplitude_ant := amp_avg
     conds_passed_ant0 :=
      if wildtype = true ∧ mr = CMH1 then decide (fin.num_cells_passed ≥ threshold)
      else cond0 },
    fin)

/-! ## The wave counter -/

/-- Modelled from the spec: the `WRAP` macro of the missing macro header, the
index `x` wrapped modulo the width `y` into the range `0` to `y - 1`. -/
def WRAP (x y : Int) : Int := x % y

/-- The row averaged profile of the wave counters (lines 1029-1036, 1102-1113 and
1164-1175): `conc[x]` is the mean over the rows `y` of the concentration of the
species `con` in the cell `y * width_total + WRAP(active_start - x, width_total)`. -/
def wave_profile (sd : sim_data) (cl : con_levels) (con time active_start : Int) : Int → ℚ :=
  fun x =>
    ((List.range sd.height.toNat).foldl
      (fun avg (y : Nat) =>
        avg + cl.cons con time
          ((y : Int) * sd.width_total + WRAP (active_start - x) sd.width_total))
      0) / (sd.height : ℚ)

/-- The signal threshold (lines 1039-1045): half of the largest value of the profile,
where the running maximum starts at 0. -/
def wave_thresh (sd : sim_data) (conc : Int → ℚ) : ℚ :=
  ((List.range sd.width_total.toNat).foldl
    (fun thresh (x : Nat) => if conc x > thresh then conc x else thresh) 0) / 2

/-- The counter `num_waves` and the array `waves` of pairs `(first, second)`. The
source array has the three entries 0, 1, 2; here it is a total function, so that a
write or a read at another index can be stated. -/
structure wave_state where
  num_waves : Nat
  waves : Nat → Int × Int

/-- The assignment `waves[i].first = v`. -/
def set_first (w : Nat → Int × Int) (i : Nat) (v : Int) : Nat → Int × Int :=
  fun k => if k = i then (v, (w k).2) else w k

/-- The assignment `waves[i].second = v`. -/
def set_second (w : Nat → Int × Int) (i : Nat) (v : Int) : Nat → Int × Int :=
  fun k => if k = i then ((w k).1, v) else w k

/-- The wave start test of line 1057. -/
def wave_start_cond (conc : Int → ℚ) (thresh : ℚ) (x : Int) : Prop :=
  conc x ≥ thresh ∧ (x = 0 ∨ conc (x - 1) < thresh)

instance (conc : Int → ℚ) (thresh : ℚ) (x : Int) : Decidable (wave_start_cond conc thresh x) :=
  inferInstanceAs (Decidable (_ ∧ _))

/-- The wave end test of line 1066. -/
def wave_end_cond (conc : Int → ℚ) (thresh : ℚ) (x : Int) : Prop :=
  conc x < thresh ∧ x > 0 ∧ conc (x - 1) ≥ thresh

instance (conc : Int → ℚ) (thresh : ℚ) (x : Int) : Decidable (wave_end_cond conc thresh x) :=
  inferInstanceAs (Decidable (_ ∧ _))

/-- The body of the scan loop at the position `x` (lines 1056-1073). The second
component of the result tells whether the body left the loop by `break`. -/
def wave_body (conc : Int → ℚ) (thresh : ℚ) (x : Int) (s : wave_state) : wave_state × Bool :=
  let r1 : wave_state × Bool :=
    if wave_start_cond conc thresh x then
      if s.num_waves = 3 then ({ s with num_waves := s.num_waves + 1 }, true)
      else ({ s with waves := set_first s.waves s.num_waves (if x = 0 then 0 else x - 1) }, false)
    else (s, false)
  if r1.2 then r1
  else if wave_end_cond conc thresh x then
    if r1.1.num_waves = 3 then ({ r1.1 with num_waves := r1.1.num_waves + 1 }, true)
    else ({ num_waves := r1.1.num_waves + 1
            waves := set_second r1.1.waves r1.1.num_waves x }, false)
  else (r1.1, false)

/-- The scan loop over the positions `0` to `n - 1` (lines 1055-1074): once the body
has left the loop by `break`, the remaining positions are skipped. -/
def wave_scan_upto (conc : Int → ℚ) (thresh : ℚ) (init : wave_state) (n : Nat) :
    wave_state × Bool :=
  (List.range n).foldl
    (fun r (x : Nat) => if r.2 then r else wave_body conc thresh (x : Int) r.1) (init, false)

/-- The state on entry of the scan (lines 1047-1052): no wave, and every record
is `(0, width_total)`. -/
def wave_init (sd : sim_data) : wave_state :=
  { num_waves := 0, waves := fun _ => (0, sd.width_total) }

/-- The wave scan of `wave_testing`, `wave_testing_her1` and `wave_testing_mesp`
(lines 1047-1074, 1124-1151 and 1186-1213, which are the same text). -/
def wave_scan (sd : sim_data) (conc : Int → ℚ) (thresh : ℚ) : wave_state :=
  (wave_scan_upto conc thresh (wave_init sd) sd.width_total.toNat).1

/-- The body of the segment loop of `wave_testing` (lines 1079-1087) on the pair
`(wlength_post, wlength_ant)`. -/
def wave_lengths_step (sd : sim_data) (waves : Nat → Int × Int) (acc : Int × Int)
    (wave : Nat) : Int × Int :=
  let start := (waves wave).1
  let end_ := (waves wave).2
  let mid := Int.tdiv (end_ - start) 2
  let wlength_post :=
    if mid > sd.width_initial ∧ (mid : ℚ) < 0.8 * (sd.width_total : ℚ) then end_ - start + 1
    else acc.1
  let wlength_ant :=
    if (mid : ℚ) ≥ 0.8 * (sd.width_total : ℚ) then end_ - start + 1 else acc.2
  (wlength_post, wlength_ant)

/-- The lengths `(wlength_post, wlength_ant)` that `wave_testing` hands to
`md.wave_test` (lines 1076-1089). -/
def wave_lengths (sd : sim_data) (s : wave_state) : Int × Int :=
  if s.num_waves ≤ 3 then
    (List.range s.num_waves).foldl (fun acc (wave : Nat) => wave_lengths_step sd s.waves acc wave)
      (5, 2)
  else (5, 2)

/-- The function `wave_testing` (lines 1024-1092). The function `md.wave_test` of the
mutant is a parameter. -/
def wave_testing (wave_test : (Nat → Int × Int) → Nat → Int → Int → Int) (sd : sim_data)
    (cl : con_levels) (time con active_start : Int) : Int :=
  let conc := wave_profile sd cl con time active_start
  let s := wave_scan sd conc (wave_thresh sd conc)
  let l := wave_lengths sd s
  wave_test s.waves s.num_waves l.1 l.2

/-- The function `wave_testing_her1` (lines 1095-1155), whose loop runs once, for
`CMH1`. The function `test_her1_wave` is a parameter. -/
def wave_testing_her1 (test_her1_wave : (Nat → Int × Int) → Nat → Int → Int → Int) (CMH1 : Int)
    (sd : sim_data) (cl : con_levels) (time active_start : Int) : Int :=
  let conc := wave_profile sd cl CMH1 time active_start
  let s := wave_scan sd conc (wave_thresh sd conc)
  test_her1_wave s.waves s.num_waves 0 0

/-- The flags `md.conds_passed[SEC_ANT][6]`, `[7]` and `[8]` of the mutant. -/
structure ant_conds where
  c6 : Bool
  c7 : Bool
  c8 : Bool

/-- The variables of the segment loop of `wave_testing_mesp`: the two lengths and the
flag `md.conds_passed[SEC_ANT][8]`. -/
structure length_state where
  wlength_post : Int
  wlength_ant : Int
  c8 : Bool

/-- The body of the segment loop of `wave_testing_mesp` (lines 1220-1240, and the same
text at lines 1245-1265). The second component tells whether the body left the loop
by `break`. -/
def mesp_length_body (sd : sim_data) (waves : Nat → Int × Int) (wave : Nat)
    (st : length_state) : length_state × Bool :=
  let start := (waves wave).1
  let end_ := (waves wave).2
  let mid := Int.tdiv (end_ - start) 2
  let r1 : length_state × Bool :=
    if mid > sd.width_initial ∧ (mid : ℚ) < 0.8 * (sd.width_total : ℚ) then
      let wlength_post := end_ - start + 1
      if wlength_post < 3 ∨ wlength_post > 5 then
        ({ st with wlength_post := wlength_post, c8 := st.c8 && false }, true)
      else ({ st with wlength_post := wlength_post, c8 := st.c8 && true }, false)
    else (st, false)
  if r1.2 then r1
  else if (mid : ℚ) ≥ 0.8 * (sd.width_total : ℚ) then
    let wlength_ant := end_ - start + 1
    if wlength_ant < 2 ∨ r1.1.wlength_post > 3 then
      ({ r1.1 with wlength_ant := wlength_ant, c8 := r1.1.c8 && false }, true)
    else ({ r1.1 with wlength_ant := wlength_ant, c8 := r1.1.c8 && true }, false)
  else (r1.1, false)

/-- The segment loop of `wave_testing_mesp` over the waves `0` to `num_waves - 1`
(lines 1219-1241 and 1244-1266). -/
def mesp_length_loop (sd : sim_data) (waves : Nat → Int × Int) (num_waves : Nat)
    (st : length_state) : length_state :=
  ((List.range num_waves).foldl
    (fun r (wave : Nat) => if r.2 then r else mesp_length_body sd waves wave r.1)
    (st, false)).1

/-- One pass of the loop over `mespaorb` of `wave_testing_mesp` (lines 1164-1267):
the profile of `CMMESPA` (pass 0) or `CMMESPB` (pass 1), its scan, the assignment
`md.conds_passed[SEC_ANT][8] = 1`, the wave count flag and the segment loop. -/
def mesp_pass (CMMESPA CMMESPB : Int) (sd : sim_data) (cl : con_levels)
    (time active_start : Int) (md : ant_conds) (mespaorb : Nat) : ant_conds :=
  let conc := wave_profile sd cl (if mespaorb = 0 then CMMESPA else CMMESPB) time active_start
  let s := wave_scan sd conc (wave_thresh sd conc)
  let md1 : ant_conds := { md with c8 := true }
  if mespaorb = 0 then
    let md2 : ant_conds :=
      { md1 with c6 := md1.c6 && decide (1 ≤ s.num_waves ∧ s.num_waves ≤ 2) }
    { md2 with c8 := (mesp_length_loop sd s.waves s.num_waves
        { wlength_post := 5, wlength_ant := 3, c8 := md2.c8 }).c8 }
  else
    let md2 : ant_conds :=
      { md1 with c7 := md1.c7 && decide (2 ≤ s.num_waves ∧ s.num_waves ≤ 3) }
    { md2 with c8 := (mesp_length_loop sd s.waves s.num_waves
        { wlength_post := 5, wlength_ant := 3, c8 := md2.c8 }).c8 }

/-- The function `wave_testing_mesp` (lines 1157-1270) on the three flags. -/
def wave_testing_mesp (CMMESPA CMMESPB : Int) (sd : sim_data) (cl : con_levels)
    (time active_start : Int) (md : ant_conds) : ant_conds :=
  (List.range 2).foldl
    (fun md (mespaorb : Nat) => mesp_pass CMMESPA CMMESPB sd cl time active_start md mespaorb) md

/-- Repeated calls of `wave_testing_mesp`, one for each store, time and active start
of the list, on the flags of one mutant. -/
def wave_testing_mesp_calls (CMMESPA CMMESPB : Int) (sd : sim_data)
    (calls : List (con_levels × Int × Int)) (md : ant_conds) : ant_conds :=
  calls.foldl (fun md c => wave_testing_mesp CMMESPA CMMESPB sd c.1 c.2.1 c.2.2 md) md

/-! ## The posterior features `osc_features_post` -/

/-- The read `a[i]` of a `growin_array` at an `int` index. The buffer has no entry
below 0; such a read is given the value of the entry 0. -/
def growin_array.read (a : growin_array) (i : Int) : Int := a i.toNat

/-- The variables of the scan of one cell in `osc_features_post` (lines 731-738). -/
structure post_state where
  peaks : growin_array
  troughs : growin_array
  num_peaks : Int
  num_troughs : Int
  peaks_period : Int
  cell_period : ℚ
  calc_period : Bool

/-- The body of the scan loop at the step `j` (lines 743-791); `wt_amp` is
`wtfeat.amplitude_post[mr]`. The second component of the result tells whether the body
left the loop by `break`. The file output is not part of the state. -/
def post_body (sd : sim_data) (conc : Int → ℚ) (wt_amp : ℚ) (j : Int) (s : post_state) :
    post_state × Bool :=
  if (s.num_peaks - s.num_troughs).natAbs > 1 then ({ s with num_peaks := 0 }, true)
  else
    let s1 : post_state :=
      if conc (j - 1) < conc j ∧ conc j > conc (j + 1) then
        let peaks := s.peaks.write s.num_peaks.toNat j
        let num_peaks := s.num_peaks + 1
        let peaks_period := if s.calc_period then s.peaks_period + 1 else s.peaks_period
        let cell_period :=
          if num_peaks ≥ 2 ∧ s.calc_period = true then
            s.cell_period +
              ((peaks.read (num_peaks - 1) - peaks.read (num_peaks - 2) : Int) : ℚ)
                * sd.step_size * (sd.big_gran : ℚ)
          else s.cell_period
        { s with peaks := peaks, num_peaks := num_peaks, peaks_period := peaks_period
                 cell_period := cell_period }
      else s
    let s2 : post_state :=
      if conc (j - 1) > conc j ∧ conc j < conc (j + 1) then
        let troughs := s1.troughs.write s1.num_troughs.toNat j
        let num_troughs := s1.num_troughs + 1
        let calc_period :=
          if num_troughs ≥ 2 then
            let last_peak := s1.peaks.read (s1.num_peaks - 1)
            let last_trough := troughs.read (num_troughs - 1)
            let sec_last_trough := troughs.read (num_troughs - 2)
            let first_amp :=
              conc (s1.peaks.read 1) - (conc (troughs.read 0) + conc (troughs.read 1)) / 2
            let cur_amp := conc last_peak - (conc last_trough + conc sec_last_trough) / 2
            if cur_amp < (if wt_amp > 0 then 0.3 * wt_amp else 0.3 * first_amp) then false
            else s1.calc_period
          else s1.calc_period
        { s1 with troughs := troughs, num_troughs := num_troughs, calc_period := calc_period }
      else s1
    (s2, false)

/-- The scan loop of one cell over the steps `start + 1` to `end - 2` (line 742),
from fresh buffers `peaks0` and `troughs0`: once the body has left the loop by
`break`, the remaining steps are skipped. -/
def post_scan (sd : sim_data) (conc : Int → ℚ) (wt_amp : ℚ) (start end_ : Int)
    (peaks0 troughs0 : growin_array) : post_state × Bool :=
  (List.range (end_ - 1 - (start + 1)).toNat).foldl
    (fun r (i : Nat) =>
      if r.2 then r else post_body sd conc wt_amp (start + 1 + (i : Int)) r.1)
    ({ peaks := peaks0, troughs := troughs0, num_peaks := 0, num_troughs := 0,
       peaks_period := 0, cell_period := 0, calc_period := true }, false)

/-- The sums of `osc_features_post` over the cells (lines 719-722). The sum
`period_tot` is left out, with the division `cell_period /= peaks_period` of
line 795 that only feeds it: it is set to `INFINITY`, which no rational stands for,
and it is not stored (line 831 is a comment). -/
structure post_sums where
  amplitude : ℚ
  peaktotrough_end : ℚ
  peaktotrough_mid : ℚ
  num_good_somites : ℚ

/-- What one cell adds to the sums (lines 797-816), given the state `s` after its scan. -/
def post_add (conc : Int → ℚ) (s : post_state) (acc : post_sums) : post_sums :=
  let acc1 : post_sums :=
    if s.num_peaks ≥ 3 then
      let peak_penult := s.peaks.read (s.num_peaks - 2)
      let trough_ult := s.troughs.read (s.num_peaks - 2)
      let trough_penult := s.troughs.read (s.num_peaks - 3)
      let peak_mid := s.peaks.read (Int.tdiv s.num_peaks 2)
      let trough_mid := s.troughs.read (Int.tdiv s.num_peaks 2)
      { acc with
        amplitude :=
          acc.amplitude + (conc peak_penult - (conc trough_penult + conc trough_ult) / 2)
        peaktotrough_end :=
          acc.peaktotrough_end +
            (if conc trough_ult > 1 then conc peak_penult / conc trough_ult
             else conc peak_penult)
        peaktotrough_mid :=
          acc.peaktotrough_mid +
            (if conc trough_mid > 1 then conc peak_mid / conc trough_mid else conc peak_mid) }
    else
      { acc with
        amplitude := acc.amplitude + 1
        peaktotrough_end := acc.peaktotrough_end + 1
        peaktotrough_mid := acc.peaktotrough_mid + 1 }
  { acc1 with num_good_somites := acc1.num_good_somites + ((s.num_troughs - 1 : Int) : ℚ) }

/-- The analysis of the cell of row `x` and column `y` (lines 729-818). -/
def post_cell (sd : sim_data) (cl : con_levels) (mr : Int) (wt_amp : ℚ) (start end_ : Int)
    (peaks0 troughs0 : growin_array) (x y : Int) (acc : post_sums) : post_sums :=
  let cell := x * sd.width_total + y
  let conc : Int → ℚ := fun t => cl.cons mr t cell
  post_add conc (post_scan sd conc wt_amp start end_ peaks0 troughs0).1 acc

/-- The pass of `osc_features_post` for the gene `mr` (lines 716-835): the values
stored in `feat.amplitude_post[index]`, `feat.peaktotrough_end[index]`,
`feat.peaktotrough_mid[index]` and `feat.num_good_somites[index]`. -/
def osc_features_post_gene (sd : sim_data) (cl : con_levels) (mr : Int) (wt_amp : ℚ)
    (start end_ : Int) (peaks0 troughs0 : growin_array) : post_sums :=
  let sums : post_sums :=
    (List.range sd.height.toNat).foldl
      (fun acc (x : Nat) =>
        (List.range sd.width_current.toNat).foldl
          (fun acc (y : Nat) =>
            post_cell sd cl mr wt_amp start end_ peaks0 troughs0 (x : Int) (y : Int) acc)
          acc)
      { amplitude := 0, peaktotrough_end := 0, peaktotrough_mid := 0, num_good_somites := 0 }
  let cells : Int := sd.height * sd.width_current
  { amplitude := sums.amplitude / (cells : ℚ)
    peaktotrough_end := sums.peaktotrough_end / (cells : ℚ)
    peaktotrough_mid := sums.peaktotrough_mid / (cells : ℚ)
    num_good_somites := sums.num_good_somites / (cells : ℚ) }

/-! ## Views used to state and prove the properties -/

/-- The rows recorded by the loop body of the detectors at step `j`
(what `detect_body` appends to the buffers). -/
def detect_rows (sd : sim_data) (cl : con_levels) (actual_cell time_start mr bound j : Int) :
    List (Int × Int × Int) :=
  (if is_peak_at sd (fun t => cl.cons mr t actual_cell) time_start bound j then
      [(j, 1, cell_pos sd cl (Int.tmod actual_cell sd.width_total) j)] else [])
    ++ (if is_trough_at sd (fun t => cl.cons mr t actual_cell) time_start bound j then
      [(j, -1, cell_pos sd cl (Int.tmod actual_cell sd.width_total) j)] else [])

/-- The steps at which the body of the `j` loop is executed, starting from `j`. -/
def visited_steps (BIRTH : Int) (sd : sim_data) (cl : con_levels) (actual_cell : Int) :
    Nat → Int → List Int
  | 0, _ => []
  | fuel + 1, j =>
    if alive_cond BIRTH sd cl actual_cell j then
      j :: visited_steps BIRTH sd cl actual_cell fuel (j + 1)
    else []

/-- Step `j` is visited by the `j` loop: the loop condition holds at every step
from `time_start + 1` up to `j`. -/
def visited (BIRTH : Int) (sd : sim_data) (cl : con_levels) (actual_cell time_start j : Int) :
    Prop :=
  time_start < j ∧ ∀ t : Int, time_start < t → t ≤ j → alive_cond BIRTH sd cl actual_cell t

/-- Step `j` is recorded with the given kind (1 for a peak, -1 for a trough) at
one of the indices `0 .. num_points - 1`. -/
def recorded (s : crit_state) (j kind : Int) : Prop :=
  ∃ i : Nat, i < s.num_points ∧ s.crit_points i = j ∧ s.type i = kind

/-- The number of critical points that the cell loop of `osc_features_ant` finds for the
cell at row `line` of the newest column at `time_start` (it does not depend on the
content of the buffers on entry). -/
def ant_cell_points (BIRTH CMH1 CMMESPA CMMESPB : Int) (sd : sim_data) (cl : con_levels)
    (mr time_start line : Int) : Nat :=
  if mr ≠ CMMESPA then
    (get_peaks_and_troughs1 BIRTH sd cl
      (line * sd.width_total + cl.active_start_record time_start) time_start
      zero_array zero_array zero_array mr).num_points
  else
    (get_peaks_and_troughs2 BIRTH CMH1 CMMESPA CMMESPB sd cl
      (line * sd.width_total + cl.active_start_record time_start) time_start
      zero_array zero_array zero_array mr (fun _ => 0) (fun _ => 0) (fun _ => 0)).1.num_points

/-- The critical points that the cell loop of `osc_features_ant` finds for the cell at
row `line` of the newest column at `time_start` (lines 265-272), written over the
buffers of the state `st`. -/
def ant_cell_crit (BIRTH CMH1 CMMESPA CMMESPB : Int) (sd : sim_data) (cl : con_levels)
    (mr time_start : Int) (st : ant_state) (line : Int) : crit_state :=
  if mr ≠ CMMESPA then
    get_peaks_and_troughs1 BIRTH sd cl
      (line * sd.width_total + cl.active_start_record time_start) time_start
      st.crit_points st.type st.position mr
  else
    (get_peaks_and_troughs2 BIRTH CMH1 CMMESPA CMMESPB sd cl
      (line * sd.width_total + cl.active_start_record time_start) time_start
      st.crit_points st.type st.position mr st.mh1_comp st.mespa_comp st.mespb_comp).1

/-- The period and amplitude samples that the cell loop of `osc_features_ant` computes
for that cell (lines 276-311). -/
def ant_cell_osc (BIRTH CMH1 CMMESPA CMMESPB : Int) (sd : sim_data) (cl : con_levels)
    (mr time_start : Int) (per_time0 : Nat → ℚ) (st : ant_state) (line : Int) : osc_state :=
  osc_samples sd
    (fun t => cl.cons mr t (line * sd.width_total + cl.active_start_record time_start))
    (ant_cell_crit BIRTH CMH1 CMMESPA CMMESPB sd cl mr time_start st line).crit_points
    (ant_cell_crit BIRTH CMH1 CMMESPA CMMESPB sd cl mr time_start st line).type
    (ant_cell_crit BIRTH CMH1 CMMESPA CMMESPB sd cl mr time_start st line).position
    (ant_cell_crit BIRTH CMH1 CMMESPA CMMESPB sd cl mr time_start st line).num_points
    per_time0

/-! ## Concrete inputs -/

/-- The series 0,1,2,1,0,1,2,1,0 at the steps 0 to 8 (0 elsewhere). -/
def demo_conc : Int → ℚ := fun t =>
  if t = 1 ∨ t = 3 ∨ t = 5 ∨ t = 7 then 1 else if t = 2 ∨ t = 6 then 2 else 0

/-- Parameters for which the window is one step on each side:
`2 / step_size / big_gran = 1`, over the nine steps 0 to 8. -/
def demo_sd : sim_data :=
  { height := 1, width_total := 4, time_end := 9, step_size := 2, big_gran := 1,
    steps_split := 1, width_initial := 2, width_current := 4 }

/-- A store whose channel 0 (the birth time) is constant and whose other channels
hold the series `demo_conc` for every cell. -/
def demo_cl : con_levels :=
  { cons := fun s t _ => if s = 0 then 0 else demo_conc t
    active_start_record := fun _ => 3 }

/-- The run of the first detector on the nine step series for cell 1. -/
def demo_run : crit_state :=
  get_peaks_and_troughs1 0 demo_sd demo_cl 1 0 zero_array zero_array zero_array 1

/-- A store whose concentrations are all 0. -/
def flat_cl : con_levels :=
  { cons := fun _ _ _ => 0
    active_start_record := fun _ => 0 }

/-- Parameters with a window of two steps on each side and `time_end = 4`. -/
def tail_sd : sim_data :=
  { height := 1, width_total := 4, time_end := 4, step_size := 1, big_gran := 1,
    steps_split := 1, width_initial := 2, width_current := 4 }

/-- A store with constant birth time whose other channels hold 0,0,1,0,5 at the
steps 0 to 4. -/
def tail_cl : con_levels :=
  { cons := fun s t _ => if s = 0 then 0 else if t = 2 then 1 else if t = 4 then 5 else 0
    active_start_record := fun _ => 0 }

/-- A store as `demo_cl` whose birth time changes once, from step 4 to step 5, and
is constant again afterwards. -/
def reborn_cl : con_levels :=
  { cons := fun s t _ => if s = 0 then (if t ≥ 5 then 1 else 0) else demo_conc t
    active_start_record := fun _ => 3 }

/-- The run of the first detector on `reborn_cl` for cell 1. -/
def reborn_run : crit_state :=
  get_peaks_and_troughs1 0 demo_sd reborn_cl 1 0 zero_array zero_array zero_array 1

/-- The run of the second detector on the nine step series for cell 1. -/
def demo_run2 : crit_state × compl_state :=
  get_peaks_and_troughs2 0 1 2 3 demo_sd demo_cl 1 0 zero_array zero_array zero_array 1
    (fun _ => 0) (fun _ => 0) (fun _ => 0)

/-- A square root on `ℚ` for the concrete runs, exact on the squares of rationals. -/
def demo_sqrt (q : ℚ) : ℚ := (Nat.sqrt q.num.toNat : ℚ) / (Nat.sqrt q.den : ℚ)

/-- The state of the cell loop on entry of the concrete runs: zeroed sums and buffers. -/
def ant_state0 : ant_state :=
  { amp_avg := 0, period_avg := 0, num_cells_passed := 0
    crit_points := zero_array, type := zero_array, position := zero_array
    mh1_comp := fun _ => 0, mespa_comp := fun _ => 0, mespb_comp := fun _ => 0
    comp_score_a := 0, comp_score_b := 0 }

/-- The pass of `osc_features_ant` for the gene 1 (here `CMH1`) of a wild type run on
the store `flat_cl`, over the region of the single cell of row 0 and column 0. -/
def flat_pass : ant_feat × ant_state :=
  osc_features_ant_gene 0 1 2 3 demo_sqrt demo_sd flat_cl 1 (fun _ => 0) 0 1 0 1 0 true false
    ant_state0

/-- Five critical point times 2, 4, 6, 8, 10 (and so on). -/
def alt_times : growin_array := fun i => 2 * (i : Int) + 2

/-- Kinds trough, peak, trough, peak, trough (and so on). -/
def alt_kinds : growin_array := fun i => if i % 2 = 1 then 1 else -1

/-- Positions 0, 1, 2, 3, 4 (and so on). -/
def alt_positions : growin_array := fun i => (i : Int)

/-- A series with the value 2 at the steps 4, 8, 12, ... and 0 at the steps 2, 6, 10, ... -/
def alt_conc : Int → ℚ := fun t => if t % 4 = 0 then 2 else if t % 2 = 0 then 0 else 1

/-- Parameters with `width_total = 11`, so that the position `p` is at `10 * p` percent
of the width. -/
def curve_sd : sim_data :=
  { height := 2, width_total := 11, time_end := 9, step_size := 2, big_gran := 1,
    steps_split := 1, width_initial := 2, width_current := 4 }

/-- Three period samples at the positions 0, 1, 2 whose periods are `curve[0]`,
`curve[10]`, `curve[20]`. -/
def curve_state : osc_state :=
  { periods := fun i => curve (10 * (i : Int)), per_pos := fun i => (i : ℚ)
    per_time := fun _ => 0, amplitudes := fun _ => 0, amp_pos := fun _ => 0
    pers := 3, amps := 0 }

/-- Parameters of a tissue of one row and six columns. -/
def edge_sd : sim_data :=
  { height := 1, width_total := 6, time_end := 9, step_size := 2, big_gran := 1,
    steps_split := 1, width_initial := 2, width_current := 6 }

/-- A store whose profile for the active start 0 is 0,1,0,0,1,1 at the positions 0 to 5
(the position `x` is the cell `WRAP(-x, 6)`, so the cells 5, 2 and 1 hold 1). -/
def edge_cl : con_levels :=
  { cons := fun _ _ c => if c = 5 ∨ c = 2 ∨ c = 1 then 1 else 0
    active_start_record := fun _ => 0 }

/-- Parameters of a tissue of one row and seven columns. -/
def inner_sd : sim_data :=
  { height := 1, width_total := 7, time_end := 9, step_size := 2, big_gran := 1,
    steps_split := 1, width_initial := 2, width_current := 7 }

/-- The profile 0,1,0,0,1,1,0 at the positions 0 to 6. -/
def inner_conc : Int → ℚ := fun x => if x = 1 ∨ x = 4 ∨ x = 5 then 1 else 0

/-- Parameters of a tissue of one row and ten columns with `width_initial = 2`. -/
def mid_sd : sim_data :=
  { height := 1, width_total := 10, time_end := 9, step_size := 2, big_gran := 1,
    steps_split := 1, width_initial := 2, width_current := 10 }

/-- A store whose profile for the active start 0 is 1 at the positions 7 and 8 (the
cells 3 and 2) and 0 at the other positions. -/
def mid_cl : con_levels :=
  { cons := fun _ _ c => if c = 3 ∨ c = 2 then 1 else 0
    active_start_record := fun _ => 0 }

/-- Parameters of a tissue of one row and ten columns with `width_initial = 0`. -/
def long_sd : sim_data :=
  { height := 1, width_total := 10, time_end := 9, step_size := 2, big_gran := 1,
    steps_split := 1, width_initial := 0, width_current := 10 }

/-- A store whose profile of the species 2 (here `CMMESPA`) for the active start 0 is 1
at the positions 2 to 6 (the cells 8 to 4) and 0 elsewhere, and whose other species
are 0 everywhere. -/
def long_cl : con_levels :=
  { cons := fun s _ c => if s = 2 ∧ 4 ≤ c ∧ c ≤ 8 then 1 else 0
    active_start_record := fun _ => 0 }

/-- Parameters with the window half width `2 / (4/3) / 1 = 3/2` and `time_end = 11`. -/
def frac_sd : sim_data :=
  { height := 1, width_total := 4, time_end := 11, step_size := 4 / 3, big_gran := 1,
    steps_split := 1, width_initial := 2, width_current := 4 }

/-- A store with constant birth time (species 0) and two series that are mirror images
of each other about the step 5: the species 1 holds 5 at the step 3 and 4 at the step 5,
the species 2 holds 4 at the step 5 and 5 at the step 7, both 0 elsewhere. -/
def frac_cl : con_levels :=
  { cons := fun s t _ =>
      if s = 0 then 0
      else if t = 5 then 4
      else if (s = 1 ∧ t = 3) ∨ (s = 2 ∧ t = 7) then 5 else 0
    active_start_record := fun _ => 0 }

/-- Parameters with a window of two steps on each side and `time_end = 9`. -/
def seg_sd : sim_data :=
  { height := 1, width_total := 4, time_end := 9, step_size := 1, big_gran := 1,
    steps_split := 1, width_initial := 2, width_current := 4 }

/-- A store whose birth time (species 0) changes from the step 4 to the step 5, so that
the segment that starts at the step 0 ends with the step 4, and whose other species
hold 0,1,2,3,2 at the steps 0 to 4, the value `v` at the step 5 and 0 elsewhere. -/
def seg_cl (v : ℚ) : con_levels :=
  { cons := fun s t _ =>
      if s = 0 then (if t ≥ 5 then 1 else 0)
      else if t = 1 then 1 else if t = 2 ∨ t = 4 then 2 else if t = 3 then 3
      else if t = 5 then v else 0
    active_start_record := fun _ => 0 }

/-- Parameters of a run of 8 steps on a tissue of one row and four columns split every
two steps: the buffers of the complementary score have `4 * 2 - 2 = 6` entries. -/
def stale_sd : sim_data :=
  { height := 1, width_total := 4, time_end := 8, step_size := 2, big_gran := 1,
    steps_split := 2, width_initial := 2, width_current := 4 }

/-- A store with constant birth time (species 0) in which the newest cell is the cell 0
at the steps 0 and 1 and the cell 1 from the step 2 on. The species 1 (here `CMH1`)
of the cell 0 is `a` at the step 5 and `b` at the step 6; the species 2 (here `CMMESPA`)
is 3 at the step 6 for both cells; every other concentration is 0. -/
def stale_cl (a b : ℚ) : con_levels :=
  { cons := fun s t c =>
      if s = 1 ∧ c = 0 ∧ t = 5 then a
      else if s = 1 ∧ c = 0 ∧ t = 6 then b
      else if s = 2 ∧ t = 6 then 3 else 0
    active_start_record := fun t => if t < 2 then 0 else 1 }

/-- The state of the cell loop of `osc_features_ant` for the gene 2 (here `CMMESPA`)
after the columns `0` to `cols - 1` of the row 0 of the store `cl`. -/
def stale_run (cl : con_levels) (cols : Int) : ant_state :=
  (ant_cols 0 1 2 3 demo_sqrt stale_sd cl 2 (fun _ => 0) 0 1 0 cols 0 ant_state0).1

/-- A store with one slow rise and fall for every cell: 0,1,2,3,2,1,0 at the steps 0
to 6 and 0 elsewhere, so that the scan of `osc_features_post` finds one peak. -/
def hump_cl : con_levels :=
  { cons := fun _ t _ =>
      if t = 1 ∨ t = 5 then 1 else if t = 2 ∨ t = 4 then 2 else if t = 3 then 3 else 0
    active_start_record := fun _ => 0 }

/-- The series 2,0,1,1,0,1,1,0,1,2 at the steps 0 to 9 (and 1 elsewhere): it has the
troughs 1, 4 and 7 and no peak, so that the scan of `osc_features_post` is left by
`break` after the second trough. -/
def dip_conc : Int → ℚ := fun t =>
  if t = 1 ∨ t = 4 ∨ t = 7 then 0 else if t = 0 ∨ t = 9 then 2 else 1

/-- Parameters for which the window is one step on each side, over the eleven steps
0 to 10. -/
def sine_sd : sim_data :=
  { height := 1, width_total := 4, time_end := 11, step_size := 2, big_gran := 1,
    steps_split := 1, width_initial := 2, width_current := 4 }

/-- A store with constant birth time (species 0) whose other species hold, at the step
`t`, the value 1 when `t % 5 = 3`, the value 3/10 when `t % 5` is 0 or 1, and the value
-4/5 when `t % 5` is 2 or 4: these values are ordered as the samples
`sin (2 π t / (5/2) + π / 10)` of a sinusoid of the period 5/2, whose crests are at the
steps 1/2, 3, 11/2, 8, ... -/
def sine_cl : con_levels :=
  { cons := fun s t _ =>
      if s = 0 then 0
      else if t % 5 = 3 then 1 else if t % 5 = 0 ∨ t % 5 = 1 then 3 / 10 else -4 / 5
    active_start_record := fun _ => 0 }

/-- A store whose profile for the active start 0 is 1,0,1,0,1,0,1,0,1,0 at the positions
0 to 9 of a tissue of ten columns, for every species (the position `x` is the cell
`WRAP(-x, 10)`, which is even exactly when `x` is even). -/
def over_cl : con_levels :=
  { cons := fun _ _ c => if c % 2 = 0 then 1 else 0
    active_start_record := fun _ => 0 }

/-- The scan of the profile of `over_cl` on the parameters `mid_sd`. -/
def over_scan : wave_state :=
  wave_scan mid_sd (wave_profile mid_sd over_cl 2 0 0)
    (wave_thresh mid_sd (wave_profile mid_sd over_cl 2 0 0))

/-- A store whose channel 0 (the birth time) is constant and whose other channels hold
the series 2,1,0,1,2,1,0,1,2 at the steps 0 to 8 for every cell: its critical points
are a trough at the step 2, a peak at the step 4 and a trough at the step 6. -/
def vee_cl : con_levels :=
  { cons := fun s t _ => if s = 0 then 0 else 2 - demo_conc t
    active_start_record := fun _ => 3 }

/-- Three period samples on a tissue of eleven columns whose periods are all 0 and
whose positions are 0, 9 and 0: the second position is above `0.85 * 10`. -/
def late_state : osc_state :=
  { periods := fun _ => 0, per_pos := fun i => if i = 1 then 9 else 0
    per_time := fun _ => 0, amplitudes := fun _ => 0, amp_pos := fun _ => 0
    pers := 3, amps := 0 }

/-- Parameters of a tissue of two rows and four columns. -/
def sync_sd : sim_data :=
  { height := 2, width_total := 4, time_end := 9, step_size := 2, big_gran := 1,
    steps_split := 1, width_initial := 2, width_current := 4 }

/-- A store in which the cell `c` holds the concentration `c * c` of every species at
every step, with the active start record `a`. -/
def sync_cl (a : Int → Int) : con_levels :=
  { cons := fun _ _ c => (c : ℚ) * (c : ℚ)
    active_start_record := a }

/-- A store whose channel 0 (the birth time) is constant and whose other channels hold,
for every cell, the series 0, 1, 0, -1 repeated: the samples `sin (2 π t / 4)` of a
sinusoid of the period 4, whose crests are at the steps 1, 5, 9. -/
def quad_cl : con_levels :=
  { cons := fun s t _ =>
      if s = 0 then 0 else if t % 4 = 1 then 1 else if t % 4 = 3 then -1 else 0
    active_start_record := fun _ => 0 }

/-! ## Basic facts -/

theorem MAX_eq_max (x y : ℚ) : MAX x y = max x y := by
  unfold MAX
  split_ifs with h
  · exact (max_eq_left (le_of_lt h)).symm
  · exact (max_eq_right (not_lt.mp h)).symm

theorem MIN_eq_min (x y : ℚ) : MIN x y = min x y := by
  unfold MIN
  split_ifs with h
  · exact (min_eq_left (le_of_lt h)).symm
  · exact (min_eq_right (not_lt.mp h)).symm

theorem double_to_int_intCast (n : Int) : double_to_int (n : ℚ) = n := by
  simp [double_to_int]

theorem double_to_int_of_nonneg {x : ℚ} (hx : 0 ≤ x) : double_to_int x = ⌊x⌋ := by
  unfold double_to_int
  rw [Rat.floor_def, Int.tdiv_eq_ediv (Rat.num_nonneg.mpr hx) (Int.ofNat_nonneg _)]

theorem half_width_eq (sd : sim_data) :
    half_width sd = 2 / (sd.step_size * (sd.big_gran : ℚ)) := by
  unfold half_width
  rw [div_div]

theorem half_width_pos (sd : sim_data) (hs : 0 < sd.step_size) (hg : 0 < sd.big_gran) :
    0 < half_width sd := by
  unfold half_width
  exact div_pos (div_pos two_pos hs) (Int.cast_pos.mpr hg)

/-! ## The window loops -/

theorem peak_loop_eq_true (conc : Int → ℚ) (j : Int) (hi : ℚ) :
    ∀ (fuel : Nat) (k : Int) (b : Bool),
      peak_loop conc j hi fuel k b = true ↔
        (b = true ∧ ∀ k1 : Int, k ≤ k1 → k1 < k + fuel → (k1 : ℚ) ≤ hi →
          ¬ (conc j ≤ conc k1 ∧ j ≠ k1)) := by
  intro fuel
  induction fuel with
  | zero =>
    intro k b
    simp only [peak_loop, Nat.cast_zero, add_zero]
    constructor
    · intro h
      exact ⟨h, fun k1 h1 h2 => absurd h2 (not_lt.mpr h1)⟩
    · exact fun h => h.1
  | succ n ih =>
    intro k b
    rw [peak_loop]
    by_cases hk : (k : ℚ) ≤ hi
    · rw [if_pos hk, ih]
      constructor
      · rintro ⟨hb, hall⟩
        have hc : ¬ (conc j ≤ conc k ∧ j ≠ k) := by
          intro hc
          rw [if_pos hc] at hb
          exact Bool.false_ne_true hb
        rw [if_neg hc] at hb
        refine ⟨hb, fun k1 h1 h2 h3 => ?_⟩
        by_cases hkk : k1 = k
        · subst hkk; exact hc
        · exact hall k1 (by omega) (by push_cast at h2 ⊢; omega) h3
      · rintro ⟨hb, hall⟩
        have hc : ¬ (conc j ≤ conc k ∧ j ≠ k) :=
          hall k le_rfl (by push_cast; omega) hk
        rw [if_neg hc]
        exact ⟨hb, fun k1 h1 h2 h3 => hall k1 (by omega) (by push_cast at h2 ⊢; omega) h3⟩
    · rw [if_neg hk]
      constructor
      · intro hb
        refine ⟨hb, fun k1 h1 _ h3 => ?_⟩
        exact absurd (le_trans (by exact_mod_cast h1) h3) hk
      · exact fun h => h.1

theorem trough_loop_eq_true (conc : Int → ℚ) (j : Int) (hi : ℚ) :
    ∀ (fuel : Nat) (k : Int) (b : Bool),
      trough_loop conc j hi fuel k b = true ↔
        (b = true ∧ ∀ k1 : Int, k ≤ k1 → k1 < k + fuel → (k1 : ℚ) ≤ hi →
          ¬ (conc j ≥ conc k1 ∧ j ≠ k1)) := by
  intro fuel
  induction fuel with
  | zero =>
    intro k b
    simp only [trough_loop, Nat.cast_zero, add_zero]
    constructor
    · intro h
      exact ⟨h, fun k1 h1 h2 => absurd h2 (not_lt.mpr h1)⟩
    · exact fun h => h.1
  | succ n ih =>
    intro k b
    rw [trough_loop]
    by_cases hk : (k : ℚ) ≤ hi
    · rw [if_pos hk, ih]
      constructor
      · rintro ⟨hb, hall⟩
        have hc : ¬ (conc j ≥ conc k ∧ j ≠ k) := by
          intro hc
          rw [if_pos hc] at hb
          exact Bool.false_ne_true hb
        rw [if_neg hc] at hb
        refine ⟨hb, fun k1 h1 h2 h3 => ?_⟩
        by_cases hkk : k1 = k
        · subst hkk; exact hc
        · exact hall k1 (by omega) (by push_cast at h2 ⊢; omega) h3
      · rintro ⟨hb, hall⟩
        have hc : ¬ (conc j ≥ conc k ∧ j ≠ k) :=
          hall k le_rfl (by push_cast; omega) hk
        rw [if_neg hc]
        exact ⟨hb, fun k1 h1 h2 h3 => hall k1 (by omega) (by push_cast at h2 ⊢; omega) h3⟩
    · rw [if_neg hk]
      constructor
      · intro hb
        refine ⟨hb, fun k1 h1 _ h3 => ?_⟩
        exact absurd (le_trans (by exact_mod_cast h1) h3) hk
      · exact fun h => h.1

theorem window_bound_le (sd : sim_data) (j bound : Int) :
    window_bound sd j bound ≤ (bound : ℚ) := by
  unfold window_bound
  rw [MIN_eq_min]
  exact min_le_right _ _

/-- The fuel of the window loops is never exhausted: a step within the bound is
below `first + fuel`. -/
theorem window_fuel_enough (sd : sim_data) (j bound first k : Int)
    (hk : (k : ℚ) ≤ window_bound sd j bound) :
    k < first + ((bound + 1 - first).toNat : Int) := by
  have h1 : (k : ℚ) ≤ (bound : ℚ) := le_trans hk (window_bound_le sd j bound)
  have h2 : k ≤ bound := by exact_mod_cast h1
  omega

theorem is_peak_at_eq_true (sd : sim_data) (conc : Int → ℚ) (time_start bound j : Int) :
    is_peak_at sd conc time_start bound j = true ↔
      ∀ k : Int, window_first sd time_start j ≤ k → (k : ℚ) ≤ window_bound sd j bound →
        ¬ (conc j ≤ conc k ∧ j ≠ k) := by
  unfold is_peak_at
  rw [peak_loop_eq_true]
  constructor
  · rintro ⟨_, h⟩ k h1 h2
    exact h k h1 (window_fuel_enough sd j bound _ k h2) h2
  · intro h
    exact ⟨rfl, fun k h1 _ h3 => h k h1 h3⟩

theorem is_trough_at_eq_true (sd : sim_data) (conc : Int → ℚ) (time_start bound j : Int) :
    is_trough_at sd conc time_start bound j = true ↔
      ∀ k : Int, window_first sd time_start j ≤ k → (k : ℚ) ≤ window_bound sd j bound →
        ¬ (conc j ≥ conc k ∧ j ≠ k) := by
  unfold is_trough_at
  rw [trough_loop_eq_true]
  constructor
  · rintro ⟨_, h⟩ k h1 h2
    exact h k h1 (window_fuel_enough sd j bound _ k h2) h2
  · intro h
    exact ⟨rfl, fun k h1 _ h3 => h k h1 h3⟩

/-- More fuel does not change the peak loop once the fuel covers the window. -/
theorem peak_loop_fuel_irrelevant (conc : Int → ℚ) (j : Int) (hi : ℚ) (fuel extra : Nat)
    (k : Int) (b : Bool) (hfuel : hi < ((k + fuel : Int) : ℚ)) :
    peak_loop conc j hi (fuel + extra) k b = peak_loop conc j hi fuel k b := by
  rw [Bool.eq_iff_iff, peak_loop_eq_true, peak_loop_eq_true]
  constructor
  · rintro ⟨hb, h⟩
    exact ⟨hb, fun k1 h1 h2 h3 => h k1 h1 (by push_cast; omega) h3⟩
  · rintro ⟨hb, h⟩
    refine ⟨hb, fun k1 h1 _ h3 => h k1 h1 ?_ h3⟩
    have : (k1 : ℚ) < ((k + fuel : Int) : ℚ) := lt_of_le_of_lt h3 hfuel
    exact_mod_cast this

/-- More fuel does not change the trough loop once the fuel covers the window. -/
theorem trough_loop_fuel_irrelevant (conc : Int → ℚ) (j : Int) (hi : ℚ) (fuel extra : Nat)
    (k : Int) (b : Bool) (hfuel : hi < ((k + fuel : Int) : ℚ)) :
    trough_loop conc j hi (fuel + extra) k b = trough_loop conc j hi fuel k b := by
  rw [Bool.eq_iff_iff, trough_loop_eq_true, trough_loop_eq_true]
  constructor
  · rintro ⟨hb, h⟩
    exact ⟨hb, fun k1 h1 h2 h3 => h k1 h1 (by push_cast; omega) h3⟩
  · rintro ⟨hb, h⟩
    refine ⟨hb, fun k1 h1 _ h3 => h k1 h1 ?_ h3⟩
    have : (k1 : ℚ) < ((k + fuel : Int) : ℚ) := lt_of_le_of_lt h3 hfuel
    exact_mod_cast this

/-- The fuel given to the peak loop by `is_peak_at` is never exhausted: any larger
fuel gives the same flag. -/
theorem is_peak_at_fuel (sd : sim_data) (conc : Int → ℚ) (time_start bound j : Int)
    (extra : Nat) :
    peak_loop conc j (window_bound sd j bound)
        ((bound + 1 - window_first sd time_start j).toNat + extra)
        (window_first sd time_start j) true
      = is_peak_at sd conc time_start bound j := by
  unfold is_peak_at
  apply peak_loop_fuel_irrelevant
  refine lt_of_le_of_lt (window_bound_le sd j bound) ?_
  have h : bound < window_first sd time_start j
      + ((bound + 1 - window_first sd time_start j).toNat : Int) := by omega
  exact_mod_cast h

/-- The fuel given to the trough loop by `is_trough_at` is never exhausted. -/
theorem is_trough_at_fuel (sd : sim_data) (conc : Int → ℚ) (time_start bound j : Int)
    (extra : Nat) :
    trough_loop conc j (window_bound sd j bound)
        ((bound + 1 - window_first sd time_start j).toNat + extra)
        (window_first sd time_start j) true
      = is_trough_at sd conc time_start bound j := by
  unfold is_trough_at
  apply trough_loop_fuel_irrelevant
  refine lt_of_le_of_lt (window_bound_le sd j bound) ?_
  have h : bound < window_first sd time_start j
      + ((bound + 1 - window_first sd time_start j).toNat : Int) := by omega
  exact_mod_cast h

theorem window_first_whole (sd : sim_data) (time_start j w : Int)
    (hw : half_width sd = (w : ℚ)) :
    window_first sd time_start j = max (j - w) time_start := by
  unfold window_first
  rw [hw, MAX_eq_max]
  have h : max ((j : ℚ) - (w : ℚ)) (time_start : ℚ) = ((max (j - w) time_start : Int) : ℚ) := by
    push_cast
    rfl
  rw [h, double_to_int_intCast]

theorem window_bound_whole (sd : sim_data) (j bound w : Int)
    (hw : half_width sd = (w : ℚ)) :
    window_bound sd j bound = ((min (j + w) bound : Int) : ℚ) := by
  unfold window_bound
  rw [hw, MIN_eq_min]
  push_cast
  rfl

/-- For a positive half width and a start step that is not negative, the step
before `j` is examined by the window loops of step `j`. -/
theorem prev_in_window (sd : sim_data) (time_start bound j : Int)
    (hw : 0 < half_width sd) (hts : 0 ≤ time_start) (h1 : time_start < j)
    (h2 : j - 1 ≤ bound) :
    window_first sd time_start j ≤ j - 1
      ∧ ((j - 1 : Int) : ℚ) ≤ window_bound sd j bound := by
  constructor
  · unfold window_first
    rw [MAX_eq_max]
    have h0 : (0 : ℚ) ≤ max ((j : ℚ) - half_width sd) (time_start : ℚ) :=
      le_trans (by exact_mod_cast hts) (le_max_right _ _)
    have hlt : max ((j : ℚ) - half_width sd) (time_start : ℚ) < (j : ℚ) :=
      max_lt (by linarith) (by exact_mod_cast h1)
    rw [double_to_int_of_nonneg h0]
    have := Int.floor_lt.mpr hlt
    omega
  · unfold window_bound
    rw [MIN_eq_min]
    refine le_min ?_ (by exact_mod_cast h2)
    push_cast
    linarith

theorem not_peak_and_trough (sd : sim_data) (conc : Int → ℚ) (time_start bound j : Int)
    (hw : 0 < half_width sd) (hts : 0 ≤ time_start) (h1 : time_start < j)
    (h2 : j - 1 ≤ bound) :
    ¬ (is_peak_at sd conc time_start bound j = true
      ∧ is_trough_at sd conc time_start bound j = true) := by
  rintro ⟨hp, ht⟩
  obtain ⟨hf, hb⟩ := prev_in_window sd time_start bound j hw hts h1 h2
  have hp1 := (is_peak_at_eq_true sd conc time_start bound j).mp hp (j - 1) hf hb
  have ht1 := (is_trough_at_eq_true sd conc time_start bound j).mp ht (j - 1) hf hb
  have hne : j ≠ j - 1 := by omega
  rcases le_total (conc j) (conc (j - 1)) with h | h
  · exact hp1 ⟨h, hne⟩
  · exact ht1 ⟨h, hne⟩

/-! ## The rows written by the detectors -/

theorem rows_record (s : crit_state) (j kind pos : Int) :
    (s.record j kind pos).rows = s.rows ++ [(j, kind, pos)] := by
  unfold crit_state.rows crit_state.record growin_array.write
  simp only [List.range_succ, List.map_append, List.map_cons, List.map_nil, if_true]
  congr 1
  apply List.map_congr_left
  intro i hi
  have : i ≠ s.num_points := Nat.ne_of_lt (List.mem_range.mp hi)
  simp [this]

theorem rows_length (s : crit_state) : s.rows.length = s.num_points := by
  simp [crit_state.rows]

theorem mem_rows (s : crit_state) (r : Int × Int × Int) :
    r ∈ s.rows ↔ ∃ i : Nat, i < s.num_points ∧ s.crit_points i = r.1 ∧ s.type i = r.2.1
      ∧ s.position i = r.2.2 := by
  obtain ⟨a, b, c⟩ := r
  simp [crit_state.rows, Prod.ext_iff]

theorem row_mem_rows (s : crit_state) (i : Nat) (hi : i < s.num_points) :
    (s.crit_points i, s.type i, s.position i) ∈ s.rows :=
  (mem_rows s _).mpr ⟨i, hi, rfl, rfl, rfl⟩

theorem recorded_iff (s : crit_state) (j kind : Int) :
    recorded s j kind ↔ ∃ pos : Int, (j, kind, pos) ∈ s.rows := by
  unfold recorded
  constructor
  · rintro ⟨i, h1, h2, h3⟩
    exact ⟨s.position i, (mem_rows s _).mpr ⟨i, h1, h2, h3, rfl⟩⟩
  · rintro ⟨pos, h⟩
    obtain ⟨i, h1, h2, h3, _⟩ := (mem_rows s _).mp h
    exact ⟨i, h1, h2, h3⟩

theorem detect_body_rows (sd : sim_data) (cl : con_levels)
    (actual_cell time_start mr bound j : Int) (s : crit_state) :
    (detect_body sd cl actual_cell time_start mr bound j s).rows
      = s.rows ++ detect_rows sd cl actual_cell time_start mr bound j := by
  unfold detect_body detect_rows
  simp only
  split_ifs <;> simp [rows_record]

theorem mem_detect_rows (sd : sim_data) (cl : con_levels)
    (actual_cell time_start mr bound j : Int) (r : Int × Int × Int) :
    r ∈ detect_rows sd cl actual_cell time_start mr bound j ↔
      r.1 = j ∧ r.2.2 = cell_pos sd cl (Int.tmod actual_cell sd.width_total) j ∧
        ((r.2.1 = 1 ∧ is_peak_at sd (fun t => cl.cons mr t actual_cell) time_start bound j = true)
          ∨ (r.2.1 = -1 ∧
            is_trough_at sd (fun t => cl.cons mr t actual_cell) time_start bound j = true)) := by
  obtain ⟨a, b, c⟩ := r
  unfold detect_rows
  split_ifs with h1 h2 h2 <;> simp [h1, h2, Prod.ext_iff] <;> tauto

theorem detect_rows_pairwise (sd : sim_data) (cl : con_levels)
    (actual_cell time_start mr bound j : Int)
    (h : ¬ (is_peak_at sd (fun t => cl.cons mr t actual_cell) time_start bound j = true
      ∧ is_trough_at sd (fun t => cl.cons mr t actual_cell) time_start bound j = true)) :
    List.Pairwise (fun a b : Int × Int × Int => a.1 < b.1)
      (detect_rows sd cl actual_cell time_start mr bound j) := by
  unfold detect_rows
  split_ifs with h1 h2 h2
  · exact absurd ⟨h1, h2⟩ h
  · simp
  · simp
  · simp

theorem gpt1_loop_rows (BIRTH : Int) (sd : sim_data) (cl : con_levels)
    (actual_cell time_start mr : Int) :
    ∀ (fuel : Nat) (j : Int) (s : crit_state),
      (gpt1_loop BIRTH sd cl actual_cell time_start mr fuel j s).rows
        = s.rows ++ (visited_steps BIRTH sd cl actual_cell fuel j).flatMap
            (detect_rows sd cl actual_cell time_start mr sd.time_end) := by
  intro fuel
  induction fuel with
  | zero => intro j s; simp [gpt1_loop, visited_steps]
  | succ n ih =>
    intro j s
    rw [gpt1_loop, visited_steps]
    split_ifs with h
    · rw [ih, detect_body_rows]
      simp [List.append_assoc]
    · simp

theorem gpt2_loop_rows (BIRTH CMH1 CMMESPA CMMESPB : Int) (sd : sim_data) (cl : con_levels)
    (actual_cell time_start mr : Int) :
    ∀ (fuel : Nat) (j : Int) (s : crit_state × compl_state),
      (gpt2_loop BIRTH CMH1 CMMESPA CMMESPB sd cl actual_cell time_start mr fuel j s).1.rows
        = s.1.rows ++ (visited_steps BIRTH sd cl actual_cell fuel j).flatMap
            (detect_rows sd cl actual_cell time_start mr (sd.time_end - 1)) := by
  intro fuel
  induction fuel with
  | zero => intro j s; simp [gpt2_loop, visited_steps]
  | succ n ih =>
    intro j s
    rw [gpt2_loop, visited_steps]
    split_ifs with h
    · rw [ih, detect_body_rows]
      simp [List.append_assoc]
    · simp

/-- The fuel of the `j` loop is never exhausted: once it covers the steps up to
`sd.time_end - 1`, more fuel gives the same final state. -/
theorem gpt1_loop_fuel_irrelevant (BIRTH : Int) (sd : sim_data) (cl : con_levels)
    (actual_cell time_start mr : Int) :
    ∀ (fuel extra : Nat) (j : Int) (s : crit_state),
      (sd.time_end - 1 - j).toNat ≤ fuel →
      gpt1_loop BIRTH sd cl actual_cell time_start mr (fuel + extra) j s
        = gpt1_loop BIRTH sd cl actual_cell time_start mr fuel j s := by
  intro fuel
  induction fuel with
  | zero =>
    intro extra j s h
    have hj : ¬ alive_cond BIRTH sd cl actual_cell j := by
      intro hc
      have := hc.1
      omega
    cases extra with
    | zero => rfl
    | succ e => simp only [Nat.zero_add, gpt1_loop, if_neg hj]
  | succ n ih =>
    intro extra j s h
    rw [Nat.add_right_comm, gpt1_loop, gpt1_loop]
    split_ifs with hc
    · exact ih extra (j + 1) _ (by omega)
    · rfl

/-- The fuel of the `j` loop of the second detector is never exhausted. -/
theorem gpt2_loop_fuel_irrelevant (BIRTH CMH1 CMMESPA CMMESPB : Int) (sd : sim_data)
    (cl : con_levels) (actual_cell time_start mr : Int) :
    ∀ (fuel extra : Nat) (j : Int) (s : crit_state × compl_state),
      (sd.time_end - 1 - j).toNat ≤ fuel →
      gpt2_loop BIRTH CMH1 CMMESPA CMMESPB sd cl actual_cell time_start mr (fuel + extra) j s
        = gpt2_loop BIRTH CMH1 CMMESPA CMMESPB sd cl actual_cell time_start mr fuel j s := by
  intro fuel
  induction fuel with
  | zero =>
    intro extra j s h
    have hj : ¬ alive_cond BIRTH sd cl actual_cell j := by
      intro hc
      have := hc.1
      omega
    cases extra with
    | zero => rfl
    | succ e => simp only [Nat.zero_add, gpt2_loop, if_neg hj]
  | succ n ih =>
    intro extra j s h
    rw [Nat.add_right_comm, gpt2_loop, gpt2_loop]
    split_ifs with hc
    · exact ih extra (j + 1) _ (by omega)
    · rfl

theorem mem_visited_steps (BIRTH : Int) (sd : sim_data) (cl : con_levels) (actual_cell : Int) :
    ∀ (fuel : Nat) (j t : Int),
      t ∈ visited_steps BIRTH sd cl actual_cell fuel j ↔
        (j ≤ t ∧ t < j + fuel ∧
          ∀ u : Int, j ≤ u → u ≤ t → alive_cond BIRTH sd cl actual_cell u) := by
  intro fuel
  induction fuel with
  | zero =>
    intro j t
    simp only [visited_steps, List.not_mem_nil, Nat.cast_zero, add_zero, false_iff]
    rintro ⟨h1, h2, _⟩
    omega
  | succ n ih =>
    intro j t
    rw [visited_steps]
    split_ifs with hc
    · rw [List.mem_cons, ih]
      constructor
      · rintro (rfl | ⟨h1, h2, h3⟩)
        · refine ⟨le_rfl, by push_cast; omega, fun u hu1 hu2 => ?_⟩
          have : u = t := le_antisymm hu2 hu1
          rw [this]; exact hc
        · refine ⟨by omega, by push_cast; omega, fun u hu1 hu2 => ?_⟩
          by_cases hu : u = j
          · rw [hu]; exact hc
          · exact h3 u (by omega) hu2
      · rintro ⟨h1, h2, h3⟩
        by_cases ht : t = j
        · exact Or.inl ht
        · exact Or.inr ⟨by omega, by push_cast at h2; omega, fun u hu1 hu2 => h3 u (by omega) hu2⟩
    · simp only [List.not_mem_nil, false_iff]
      rintro ⟨h1, _, h3⟩
      exact hc (h3 j le_rfl h1)

theorem visited_steps_sorted (BIRTH : Int) (sd : sim_data) (cl : con_levels)
    (actual_cell : Int) :
    ∀ (fuel : Nat) (j : Int),
      List.Pairwise (fun a b : Int => a < b) (visited_steps BIRTH sd cl actual_cell fuel j) := by
  intro fuel
  induction fuel with
  | zero => intro j; simp [visited_steps]
  | succ n ih =>
    intro j
    rw [visited_steps]
    split_ifs with hc
    · rw [List.pairwise_cons]
      refine ⟨fun t ht => ?_, ih (j + 1)⟩
      have := ((mem_visited_steps BIRTH sd cl actual_cell n (j + 1) t).mp ht).1
      omega
    · exact List.Pairwise.nil

/-- With the fuel of the detectors, the steps at which the body runs are exactly
the visited steps. -/
theorem mem_visited_steps_top (BIRTH : Int) (sd : sim_data) (cl : con_levels)
    (actual_cell time_start t : Int) :
    t ∈ visited_steps BIRTH sd cl actual_cell (sd.time_end - 1 - (time_start + 1)).toNat
        (time_start + 1) ↔ visited BIRTH sd cl actual_cell time_start t := by
  rw [mem_visited_steps]
  unfold visited
  constructor
  · rintro ⟨h1, _, h3⟩
    exact ⟨by omega, fun u hu1 hu2 => h3 u (by omega) hu2⟩
  · rintro ⟨h1, h3⟩
    have := (h3 t h1 le_rfl).1
    exact ⟨by omega, by omega, fun u hu1 hu2 => h3 u (by omega) hu2⟩

theorem visited_lt_time_end (BIRTH : Int) (sd : sim_data) (cl : con_levels)
    (actual_cell time_start j : Int) (hv : visited BIRTH sd cl actual_cell time_start j) :
    j < sd.time_end - 1 :=
  (hv.2 j hv.1 le_rfl).1

theorem gpt1_rows (BIRTH : Int) (sd : sim_data) (cl : con_levels)
    (actual_cell time_start : Int) (crit_points type position : growin_array) (mr : Int) :
    (get_peaks_and_troughs1 BIRTH sd cl actual_cell time_start crit_points type position mr).rows
      = (visited_steps BIRTH sd cl actual_cell (sd.time_end - 1 - (time_start + 1)).toNat
          (time_start + 1)).flatMap
            (detect_rows sd cl actual_cell time_start mr sd.time_end) := by
  unfold get_peaks_and_troughs1
  rw [gpt1_loop_rows]
  simp [crit_state.rows]

theorem gpt2_rows (BIRTH CMH1 CMMESPA CMMESPB : Int) (sd : sim_data) (cl : con_levels)
    (actual_cell time_start : Int) (crit_points type position : growin_array) (mr : Int)
    (mh1_comp mespa_comp mespb_comp : Nat → ℚ) :
    (get_peaks_and_troughs2 BIRTH CMH1 CMMESPA CMMESPB sd cl actual_cell time_start
        crit_points type position mr mh1_comp mespa_comp mespb_comp).1.rows
      = (visited_steps BIRTH sd cl actual_cell (sd.time_end - 1 - (time_start + 1)).toNat
          (time_start + 1)).flatMap
            (detect_rows sd cl actual_cell time_start mr (sd.time_end - 1)) := by
  unfold get_peaks_and_troughs2
  rw [gpt2_loop_rows]
  simp [crit_state.rows]

theorem mem_gpt1_rows (BIRTH : Int) (sd : sim_data) (cl : con_levels)
    (actual_cell time_start : Int) (crit_points type position : growin_array) (mr : Int)
    (r : Int × Int × Int) :
    r ∈ (get_peaks_and_troughs1 BIRTH sd cl actual_cell time_start
          crit_points type position mr).rows ↔
      visited BIRTH sd cl actual_cell time_start r.1 ∧
        r ∈ detect_rows sd cl actual_cell time_start mr sd.time_end r.1 := by
  rw [gpt1_rows, List.mem_flatMap]
  constructor
  · rintro ⟨j, hj, hr⟩
    have := ((mem_detect_rows _ _ _ _ _ _ _ _).mp hr).1
    rw [this]
    exact ⟨(mem_visited_steps_top _ _ _ _ _ _).mp hj, hr⟩
  · rintro ⟨hv, hr⟩
    exact ⟨r.1, (mem_visited_steps_top _ _ _ _ _ _).mpr hv, hr⟩

theorem mem_gpt2_rows (BIRTH CMH1 CMMESPA CMMESPB : Int) (sd : sim_data) (cl : con_levels)
    (actual_cell time_start : Int) (crit_points type position : growin_array) (mr : Int)
    (mh1_comp mespa_comp mespb_comp : Nat → ℚ) (r : Int × Int × Int) :
    r ∈ (get_peaks_and_troughs2 BIRTH CMH1 CMMESPA CMMESPB sd cl actual_cell time_start
          crit_points type position mr mh1_comp mespa_comp mespb_comp).1.rows ↔
      visited BIRTH sd cl actual_cell time_start r.1 ∧
        r ∈ detect_rows sd cl actual_cell time_start mr (sd.time_end - 1) r.1 := by
  rw [gpt2_rows, List.mem_flatMap]
  constructor
  · rintro ⟨j, hj, hr⟩
    have := ((mem_detect_rows _ _ _ _ _ _ _ _).mp hr).1
    rw [this]
    exact ⟨(mem_visited_steps_top _ _ _ _ _ _).mp hj, hr⟩
  · rintro ⟨hv, hr⟩
    exact ⟨r.1, (mem_visited_steps_top _ _ _ _ _ _).mpr hv, hr⟩

theorem recorded_gpt1_iff (BIRTH : Int) (sd : sim_data) (cl : con_levels)
    (actual_cell time_start : Int) (crit_points type position : growin_array) (mr : Int)
    (j kind : Int) :
    recorded (get_peaks_and_troughs1 BIRTH sd cl actual_cell time_start
        crit_points type position mr) j kind ↔
      visited BIRTH sd cl actual_cell time_start j ∧
        ((kind = 1 ∧
            is_peak_at sd (fun t => cl.cons mr t actual_cell) time_start sd.time_end j = true)
          ∨ (kind = -1 ∧
            is_trough_at sd (fun t => cl.cons mr t actual_cell) time_start sd.time_end j
              = true)) := by
  rw [recorded_iff]
  constructor
  · rintro ⟨pos, h⟩
    obtain ⟨hv, hr⟩ := (mem_gpt1_rows _ _ _ _ _ _ _ _ _ _).mp h
    exact ⟨hv, ((mem_detect_rows _ _ _ _ _ _ _ _).mp hr).2.2⟩
  · rintro ⟨hv, hk⟩
    refine ⟨cell_pos sd cl (Int.tmod actual_cell sd.width_total) j, ?_⟩
    exact (mem_gpt1_rows _ _ _ _ _ _ _ _ _ _).mpr
      ⟨hv, (mem_detect_rows _ _ _ _ _ _ _ _).mpr ⟨rfl, rfl, hk⟩⟩

/-- The times of the rows of the first detector are strictly increasing. -/
theorem gpt1_rows_sorted (BIRTH : Int) (sd : sim_data) (cl : con_levels)
    (actual_cell time_start : Int) (crit_points type position : growin_array) (mr : Int)
    (hs : 0 < sd.step_size) (hg : 0 < sd.big_gran) (hts : 0 ≤ time_start) :
    List.Pairwise (fun a b : Int × Int × Int => a.1 < b.1)
      (get_peaks_and_troughs1 BIRTH sd cl actual_cell time_start
        crit_points type position mr).rows := by
  rw [gpt1_rows, List.pairwise_flatMap]
  constructor
  · intro j hj
    have hv := (mem_visited_steps_top _ _ _ _ _ _).mp hj
    have hlt := visited_lt_time_end _ _ _ _ _ _ hv
    exact detect_rows_pairwise _ _ _ _ _ _ _
      (not_peak_and_trough sd _ time_start sd.time_end j (half_width_pos sd hs hg) hts hv.1
        (by omega))
  · refine List.Pairwise.imp ?_ (visited_steps_sorted BIRTH sd cl actual_cell _ _)
    intro a b hab x hx y hy
    rw [((mem_detect_rows _ _ _ _ _ _ _ _).mp hx).1, ((mem_detect_rows _ _ _ _ _ _ _ _).mp hy).1]
    exact hab

theorem cell_pos_wrap (sd : sim_data) (cl : con_levels) (actual_cell j : Int)
    (hcell : 0 ≤ actual_cell) (ha : 0 ≤ cl.active_start_record j)
    (haw : cl.active_start_record j < sd.width_total) :
    cell_pos sd cl (Int.tmod actual_cell sd.width_total) j
        = (cl.active_start_record j - actual_cell % sd.width_total) % sd.width_total
      ∧ 0 ≤ cell_pos sd cl (Int.tmod actual_cell sd.width_total) j
      ∧ cell_pos sd cl (Int.tmod actual_cell sd.width_total) j < sd.width_total := by
  have hW : 0 < sd.width_total := lt_of_le_of_lt ha haw
  rw [Int.tmod_eq_emod hcell (le_of_lt hW)]
  have hc0 : 0 ≤ actual_cell % sd.width_total := Int.emod_nonneg _ (ne_of_gt hW)
  have hc1 : actual_cell % sd.width_total < sd.width_total := Int.emod_lt_of_pos _ hW
  unfold cell_pos
  split_ifs with h
  · refine ⟨(Int.emod_eq_of_lt (by omega) (by omega)).symm, by omega, by omega⟩
  · refine ⟨?_, by omega, by omega⟩
    have h1 : (cl.active_start_record j - actual_cell % sd.width_total + sd.width_total)
        % sd.width_total
        = cl.active_start_record j - actual_cell % sd.width_total + sd.width_total :=
      Int.emod_eq_of_lt (by omega) (by omega)
    rw [← Int.add_emod_self (a := cl.active_start_record j - actual_cell % sd.width_total), h1]
    omega

/-! ## The period samples -/

theorem period_step_samples (sd : sim_data) (crit_points type position : growin_array)
    (cur_point : Nat) (s : osc_state) :
    (period_step sd crit_points type position cur_point s).period_samples
      = s.period_samples ++
        (if type cur_point = 1 ∧ cur_point ≥ 2 then
          [(((crit_points cur_point - crit_points (cur_point - 2) : Int) : ℚ)
              * sd.step_size * (sd.big_gran : ℚ),
            ((position (cur_point - 2)
              + Int.tdiv (position cur_point - position (cur_point - 2)) 2 : Int) : ℚ))]
        else []) := by
  unfold period_step
  split_ifs with h
  · unfold osc_state.period_samples dwrite
    simp only [List.range_succ, List.map_append, List.map_cons, List.map_nil, if_true]
    congr 1
    apply List.map_congr_left
    intro i hi
    have : i ≠ s.pers := Nat.ne_of_lt (List.mem_range.mp hi)
    simp [this]
  · simp

theorem amplitude_step_period_samples (conc : Int → ℚ)
    (crit_points type position : growin_array) (num_points cur_point : Nat) (s : osc_state) :
    (amplitude_step conc crit_points type position num_points cur_point s).period_samples
      = s.period_samples := by
  unfold amplitude_step
  split_ifs <;> rfl

theorem osc_fold_period_samples (sd : sim_data) (conc : Int → ℚ)
    (crit_points type position : growin_array) (num_points : Nat) :
    ∀ (l : List Nat) (s : osc_state),
      (l.foldl
        (fun s cur_point =>
          amplitude_step conc crit_points type position num_points cur_point
            (period_step sd crit_points type position cur_point s)) s).period_samples
      = s.period_samples ++
        (l.filter (fun i => decide (type i = 1 ∧ i ≥ 2))).map
          (fun i =>
            (((crit_points i - crit_points (i - 2) : Int) : ℚ)
                * sd.step_size * (sd.big_gran : ℚ),
              ((position (i - 2) + Int.tdiv (position i - position (i - 2)) 2 : Int) : ℚ))) := by
  intro l
  induction l with
  | nil => intro s; simp
  | cons a l ih =>
    intro s
    rw [List.foldl_cons, ih, amplitude_step_period_samples, period_step_samples,
      List.filter_cons]
    by_cases h : type a = 1 ∧ a ≥ 2
    · simp [h]
    · simp [h]

/-! ## The amplitude samples -/

theorem amplitude_step_samples (conc : Int → ℚ) (crit_points type position : growin_array)
    (num_points cur_point : Nat) (s : osc_state) :
    (amplitude_step conc crit_points type position num_points cur_point s).amplitude_samples
      = s.amplitude_samples ++
        (if type cur_point = 1 ∧ cur_point ≥ 1 ∧ (cur_point : Int) < (num_points : Int) - 1 then
          [(conc (crit_points cur_point)
              - (conc (crit_points (cur_point - 1)) + conc (crit_points (cur_point + 1))) / 2,
            ((position cur_point : Int) : ℚ))]
        else []) := by
  unfold amplitude_step
  split_ifs with h
  · unfold osc_state.amplitude_samples dwrite
    simp only [List.range_succ, List.map_append, List.map_cons, List.map_nil, if_true]
    congr 1
    apply List.map_congr_left
    intro i hi
    have : i ≠ s.amps := Nat.ne_of_lt (List.mem_range.mp hi)
    simp [this]
  · simp

theorem period_step_amplitude_samples (sd : sim_data)
    (crit_points type position : growin_array) (cur_point : Nat) (s : osc_state) :
    (period_step sd crit_points type position cur_point s).amplitude_samples
      = s.amplitude_samples := by
  unfold period_step
  split_ifs <;> rfl

theorem osc_fold_amplitude_samples (sd : sim_data) (conc : Int → ℚ)
    (crit_points type position : growin_array) (num_points : Nat) :
    ∀ (l : List Nat) (s : osc_state),
      (l.foldl
        (fun s cur_point =>
          amplitude_step conc crit_points type position num_points cur_point
            (period_step sd crit_points type position cur_point s)) s).amplitude_samples
      = s.amplitude_samples ++
        (l.filter (fun i =>
            decide (type i = 1 ∧ i ≥ 1 ∧ (i : Int) < (num_points : Int) - 1))).map
          (fun i =>
            (conc (crit_points i)
                - (conc (crit_points (i - 1)) + conc (crit_points (i + 1))) / 2,
              ((position i : Int) : ℚ))) := by
  intro l
  induction l with
  | nil => intro s; simp
  | cons a l ih =>
    intro s
    rw [List.foldl_cons, ih, amplitude_step_samples, period_step_amplitude_samples,
      List.filter_cons]
    by_cases h : type a = 1 ∧ a ≥ 1 ∧ (a : Int) < (num_points : Int) - 1
    · simp [h]
    · simp [h]

/-! ## The cell loop of `osc_features_ant` -/

theorem gpt1_num_points_buffers (BIRTH : Int) (sd : sim_data) (cl : con_levels)
    (actual_cell time_start : Int) (cp ty po cp2 ty2 po2 : growin_array) (mr : Int) :
    (get_peaks_and_troughs1 BIRTH sd cl actual_cell time_start cp ty po mr).num_points
      = (get_peaks_and_troughs1 BIRTH sd cl actual_cell time_start cp2 ty2 po2 mr).num_points := by
  rw [← rows_length, ← rows_length, gpt1_rows, gpt1_rows]

theorem gpt2_num_points_buffers (BIRTH CMH1 CMMESPA CMMESPB : Int) (sd : sim_data)
    (cl : con_levels) (actual_cell time_start : Int) (cp ty po cp2 ty2 po2 : growin_array)
    (mr : Int) (a b c a2 b2 c2 : Nat → ℚ) :
    (get_peaks_and_troughs2 BIRTH CMH1 CMMESPA CMMESPB sd cl actual_cell time_start
        cp ty po mr a b c).1.num_points
      = (get_peaks_and_troughs2 BIRTH CMH1 CMMESPA CMMESPB sd cl actual_cell time_start
        cp2 ty2 po2 mr a2 b2 c2).1.num_points := by
  rw [← rows_length, ← rows_length, gpt2_rows, gpt2_rows]

/-- The sums after one cell: each grows by the contribution of the cell. -/
theorem ant_cell_few_points (BIRTH CMH1 CMMESPA CMMESPB : Int) (sqrt : ℚ → ℚ) (sd : sim_data)
    (cl : con_levels) (mr time_start : Int) (per_time0 : Nat → ℚ) (st : ant_state)
    (line : Int)
    (h : ant_cell_points BIRTH CMH1 CMMESPA CMMESPB sd cl mr time_start line < 3) :
    (ant_cell BIRTH CMH1 CMMESPA CMMESPB sqrt sd cl mr time_start per_time0 st line).period_avg
        = st.period_avg + 1
      ∧ (ant_cell BIRTH CMH1 CMMESPA CMMESPB sqrt sd cl mr time_start per_time0 st line).amp_avg
        = st.amp_avg + 1
      ∧ (ant_cell BIRTH CMH1 CMMESPA CMMESPB sqrt sd cl mr time_start per_time0 st
          line).num_cells_passed = st.num_cells_passed := by
  unfold ant_cell_points at h
  unfold ant_cell
  by_cases hm : mr ≠ CMMESPA
  · rw [if_pos hm] at h
    rw [gpt1_num_points_buffers BIRTH sd cl _ time_start _ _ _ st.crit_points st.type
      st.position mr] at h
    have h3 : ¬ ((get_peaks_and_troughs1 BIRTH sd cl
        (line * sd.width_total + cl.active_start_record time_start) time_start
        st.crit_points st.type st.position mr).num_points ≥ 3) := by omega
    simp only [if_pos hm, cell_period, cell_amp, h3, if_false, decide_False, Bool.false_and,
      Bool.false_eq_true, false_and]
    exact ⟨trivial, trivial, trivial⟩
  · rw [if_neg hm] at h
    rw [gpt2_num_points_buffers BIRTH CMH1 CMMESPA CMMESPB sd cl _ time_start _ _ _
      st.crit_points st.type st.position mr _ _ _ st.mh1_comp st.mespa_comp st.mespb_comp] at h
    have h3 : ¬ ((get_peaks_and_troughs2 BIRTH CMH1 CMMESPA CMMESPB sd cl
        (line * sd.width_total + cl.active_start_record time_start) time_start
        st.crit_points st.type st.position mr st.mh1_comp st.mespa_comp
        st.mespb_comp).1.num_points ≥ 3) := by omega
    simp only [if_neg hm, cell_period, cell_amp, h3, if_false, decide_False, Bool.false_and,
      Bool.false_eq_true, false_and]
    exact ⟨trivial, trivial, trivial⟩

theorem ant_lines_few_points (BIRTH CMH1 CMMESPA CMMESPB : Int) (sqrt : ℚ → ℚ) (sd : sim_data)
    (cl : con_levels) (mr time_start : Int) (per_time0 : Nat → ℚ) (start_line end_line : Int)
    (st : ant_state)
    (h : ∀ l : Int, start_line ≤ l → l < end_line →
      ant_cell_points BIRTH CMH1 CMMESPA CMMESPB sd cl mr time_start l < 3) :
    (ant_lines BIRTH CMH1 CMMESPA CMMESPB sqrt sd cl mr time_start per_time0
        start_line end_line st).period_avg
        = st.period_avg + ((end_line - start_line).toNat : ℚ)
      ∧ (ant_lines BIRTH CMH1 CMMESPA CMMESPB sqrt sd cl mr time_start per_time0
        start_line end_line st).amp_avg
        = st.amp_avg + ((end_line - start_line).toNat : ℚ)
      ∧ (ant_lines BIRTH CMH1 CMMESPA CMMESPB sqrt sd cl mr time_start per_time0
        start_line end_line st).num_cells_passed = st.num_cells_passed := by
  unfold ant_lines
  have key : ∀ n : Nat, n ≤ (end_line - start_line).toNat →
      ((List.range n).foldl
        (fun (st : ant_state) (i : Nat) =>
          ant_cell BIRTH CMH1 CMMESPA CMMESPB sqrt sd cl mr time_start per_time0 st
            (start_line + (i : Int))) st).period_avg = st.period_avg + (n : ℚ)
      ∧ ((List.range n).foldl
        (fun (st : ant_state) (i : Nat) =>
          ant_cell BIRTH CMH1 CMMESPA CMMESPB sqrt sd cl mr time_start per_time0 st
            (start_line + (i : Int))) st).amp_avg = st.amp_avg + (n : ℚ)
      ∧ ((List.range n).foldl
        (fun (st : ant_state) (i : Nat) =>
          ant_cell BIRTH CMH1 CMMESPA CMMESPB sqrt sd cl mr time_start per_time0 st
            (start_line + (i : Int))) st).num_cells_passed = st.num_cells_passed := by
    intro n
    induction n with
    | zero => intro _; simp
    | succ n ih =>
      intro hn
      obtain ⟨h1, h2, h3⟩ := ih (by omega)
      rw [List.range_succ, List.foldl_append, List.foldl_cons, List.foldl_nil]
      obtain ⟨c1, c2, c3⟩ := ant_cell_few_points BIRTH CMH1 CMMESPA CMMESPB sqrt sd cl mr
        time_start per_time0
        ((List.range n).foldl
          (fun (st : ant_state) (i : Nat) =>
            ant_cell BIRTH CMH1 CMMESPA CMMESPB sqrt sd cl mr time_start per_time0 st
              (start_line + (i : Int))) st)
        (start_line + (n : Int)) (h _ (by omega) (by omega))
      rw [c1, c2, c3, h1, h2, h3]
      push_cast
      exact ⟨by ring, by ring, rfl⟩
  exact key _ le_rfl

theorem ant_cols_few_points (BIRTH CMH1 CMMESPA CMMESPB : Int) (sqrt : ℚ → ℚ) (sd : sim_data)
    (cl : con_levels) (mr : Int) (per_time0 : Nat → ℚ)
    (start_line end_line start_col end_col time_start : Int) (st : ant_state)
    (h : ∀ c l : Int, 0 ≤ c → c < end_col - start_col → start_line ≤ l → l < end_line →
      ant_cell_points BIRTH CMH1 CMMESPA CMMESPB sd cl mr
        (time_start + c * Int.tdiv sd.steps_split sd.big_gran) l < 3) :
    (ant_cols BIRTH CMH1 CMMESPA CMMESPB sqrt sd cl mr per_time0
        start_line end_line start_col end_col time_start st).1.period_avg
        = st.period_avg
          + ((end_col - start_col).toNat : ℚ) * ((end_line - start_line).toNat : ℚ)
      ∧ (ant_cols BIRTH CMH1 CMMESPA CMMESPB sqrt sd cl mr per_time0
        start_line end_line start_col end_col time_start st).1.amp_avg
        = st.amp_avg
          + ((end_col - start_col).toNat : ℚ) * ((end_line - start_line).toNat : ℚ)
      ∧ (ant_cols BIRTH CMH1 CMMESPA CMMESPB sqrt sd cl mr per_time0
        start_line end_line start_col end_col time_start st).1.num_cells_passed
        = st.num_cells_passed := by
  unfold ant_cols
  have key : ∀ n : Nat, n ≤ (end_col - start_col).toNat →
      ((List.range n).foldl
        (fun (acc : ant_state × Int) (_ : Nat) =>
          (ant_lines BIRTH CMH1 CMMESPA CMMESPB sqrt sd cl mr acc.2 per_time0
              start_line end_line acc.1,
            acc.2 + Int.tdiv sd.steps_split sd.big_gran)) (st, time_start)).2
        = time_start + (n : Int) * Int.tdiv sd.steps_split sd.big_gran
      ∧ ((List.range n).foldl
        (fun (acc : ant_state × Int) (_ : Nat) =>
          (ant_lines BIRTH CMH1 CMMESPA CMMESPB sqrt sd cl mr acc.2 per_time0
              start_line end_line acc.1,
            acc.2 + Int.tdiv sd.steps_split sd.big_gran)) (st, time_start)).1.period_avg
        = st.period_avg + (n : ℚ) * ((end_line - start_line).toNat : ℚ)
      ∧ ((List.range n).foldl
        (fun (acc : ant_state × Int) (_ : Nat) =>
          (ant_lines BIRTH CMH1 CMMESPA CMMESPB sqrt sd cl mr acc.2 per_time0
              start_line end_line acc.1,
            acc.2 + Int.tdiv sd.steps_split sd.big_gran)) (st, time_start)).1.amp_avg
        = st.amp_avg + (n : ℚ) * ((end_line - start_line).toNat : ℚ)
      ∧ ((List.range n).foldl
        (fun (acc : ant_state × Int) (_ : Nat) =>
          (ant_lines BIRTH CMH1 CMMESPA CMMESPB sqrt sd cl mr acc.2 per_time0
              start_line end_line acc.1,
            acc.2 + Int.tdiv sd.steps_split sd.big_gran)) (st, time_start)).1.num_cells_passed
        = st.num_cells_passed := by
    intro n
    induction n with
    | zero => intro _; simp
    | succ n ih =>
      intro hn
      obtain ⟨h0, h1, h2, h3⟩ := ih (by omega)
      rw [List.range_succ, List.foldl_append, List.foldl_cons, List.foldl_nil]
      simp only
      obtain ⟨c1, c2, c3⟩ := ant_lines_few_points BIRTH CMH1 CMMESPA CMMESPB sqrt sd cl mr
        ((List.range n).foldl
          (fun (acc : ant_state × Int) (_ : Nat) =>
            (ant_lines BIRTH CMH1 CMMESPA CMMESPB sqrt sd cl mr acc.2 per_time0
                start_line end_line acc.1,
              acc.2 + Int.tdiv sd.steps_split sd.big_gran)) (st, time_start)).2
        per_time0 start_line end_line
        ((List.range n).foldl
          (fun (acc : ant_state × Int) (_ : Nat) =>
            (ant_lines BIRTH CMH1 CMMESPA CMMESPB sqrt sd cl mr acc.2 per_time0
                start_line end_line acc.1,
              acc.2 + Int.tdiv sd.steps_split sd.big_gran)) (st, time_start)).1
        (by
          intro l hl1 hl2
          rw [h0]
          exact h (n : Int) l (by omega) (by omega) hl1 hl2)
      rw [c1, c2, c3, h0, h1, h2, h3]
      push_cast
      exact ⟨by ring, by ring, by ring, rfl⟩
  exact (key _ le_rfl).2

/-! ## The oscillation quality test -/

theorem curve_table_pos : ∀ x ∈ curve_table, (0 : ℚ) < x := by
  decide!

theorem curve_table_length : curve_table.length = 101 := by
  decide

theorem curve_pos (i : Int) (h0 : 0 ≤ i) (h1 : i ≤ 100) : 0 < curve i := by
  unfold curve
  have hlt : i.toNat < curve_table.length := by
    rw [curve_table_length]; omega
  rw [List.getD_eq_getElem _ _ hlt]
  exact curve_table_pos _ (List.getElem_mem _)

/-- The loop of the oscillation quality test leaves `passed` true exactly when every
sample from `i` on that comes before the first sample beyond 85% of the width is
within the tolerance. -/
theorem giudicelli_loop_eq_true (sd : sim_data) (s : osc_state) (first_fit : Int) :
    ∀ (fuel i : Nat),
      giudicelli_loop sd s first_fit fuel i true = true ↔
        ∀ k : Nat, i ≤ k → k < i + fuel → k < s.pers →
          (∀ k1 : Nat, i ≤ k1 → k1 ≤ k →
            ¬ (s.per_pos k1 > 0.85 * ((sd.width_total - 1 : Int) : ℚ))) →
          (0.9 * curve (double_to_int (s.per_pos k * 100 / ((sd.width_total - 1 : Int) : ℚ)))
                / curve first_fit < s.periods k / s.periods 0
            ∧ s.periods k / s.periods 0
              < 1.1 * curve (double_to_int
                  (s.per_pos k * 100 / ((sd.width_total - 1 : Int) : ℚ))) / curve first_fit) := by
  intro fuel
  induction fuel with
  | zero =>
    intro i
    simp only [giudicelli_loop, true_iff]
    intro k h1 h2
    omega
  | succ n ih =>
    intro i
    rw [giudicelli_loop]
    by_cases hi : i < s.pers
    · rw [if_pos hi]
      by_cases hex : s.per_pos i > 0.85 * ((sd.width_total - 1 : Int) : ℚ)
      · rw [if_pos hex]
        simp only [true_iff]
        intro k h1 _ _ hall
        exact absurd hex (hall i le_rfl h1)
      · rw [if_neg hex]
        dsimp only
        by_cases hw : (0.9 * curve (double_to_int
              (s.per_pos i * 100 / ((sd.width_total - 1 : Int) : ℚ))) / curve first_fit
            < s.periods i / s.periods 0
          ∧ s.periods i / s.periods 0
            < 1.1 * curve (double_to_int
              (s.per_pos i * 100 / ((sd.width_total - 1 : Int) : ℚ))) / curve first_fit)
        · rw [if_neg (not_not.mpr hw), ih]
          constructor
          · intro hall k h1 h2 h3 hno
            by_cases hk : k = i
            · rw [hk]; exact hw
            · exact hall k (by omega) (by omega) h3 (fun k1 h4 h5 => hno k1 (by omega) h5)
          · intro hall k h1 h2 h3 hno
            refine hall k (by omega) (by omega) h3 (fun k1 h4 h5 => ?_)
            by_cases hk : k1 = i
            · rw [hk]; exact hex
            · exact hno k1 (by omega) h5
        · rw [if_pos hw]
          simp only [Bool.false_eq_true, false_iff]
          intro hall
          exact hw (hall i le_rfl (by omega) hi (fun k1 h1 h2 => by
            have : k1 = i := by omega
            rw [this]; exact hex))
    · rw [if_neg hi]
      simp only [true_iff]
      intro k h1 _ h3
      omega

theorem giudicelli_test_eq_true (sd : sim_data) (s : osc_state) :
    giudicelli_test sd s = true ↔
      3 ≤ s.pers ∧ ∀ k : Nat, 1 ≤ k → k < s.pers →
        (∀ k1 : Nat, 1 ≤ k1 → k1 ≤ k →
          ¬ (s.per_pos k1 > 0.85 * ((sd.width_total - 1 : Int) : ℚ))) →
        (0.9 * curve (double_to_int (s.per_pos k * 100 / ((sd.width_total - 1 : Int) : ℚ)))
              / curve (double_to_int (s.per_pos 0 * 100 / ((sd.width_total - 1 : Int) : ℚ)))
            < s.periods k / s.periods 0
          ∧ s.periods k / s.periods 0
            < 1.1 * curve (double_to_int
                (s.per_pos k * 100 / ((sd.width_total - 1 : Int) : ℚ)))
              / curve (double_to_int
                (s.per_pos 0 * 100 / ((sd.width_total - 1 : Int) : ℚ)))) := by
  unfold giudicelli_test
  by_cases h3 : s.pers < 3
  · rw [if_pos h3]
    simp only [Bool.false_eq_true, false_iff]
    rintro ⟨h, _⟩
    omega
  · rw [if_neg h3, giudicelli_loop_eq_true]
    constructor
    · intro h
      exact ⟨by omega, fun k h1 h2 hno => h k h1 (by omega) h2 hno⟩
    · rintro ⟨_, h⟩ k h1 _ h3 hno
      exact h k h1 h3 hno

theorem percentage_eq_floor (sd : sim_data) (p : ℚ) (hW : 2 ≤ sd.width_total) (hp : 0 ≤ p) :
    double_to_int (p * 100 / ((sd.width_total - 1 : Int) : ℚ))
      = ⌊100 * p / ((sd.width_total : ℚ) - 1)⌋ := by
  have hW1 : (0 : ℚ) < ((sd.width_total - 1 : Int) : ℚ) := by
    have : (0 : Int) < sd.width_total - 1 := by omega
    exact_mod_cast this
  rw [double_to_int_of_nonneg (div_nonneg (mul_nonneg hp (by norm_num)) (le_of_lt hW1))]
  congr 1
  push_cast
  ring

/-! ## The sums of the Pearson correlation -/

theorem foldl_range_pair {K : Type} [LinearOrderedField K] (f g : Nat → K) (n : Nat) :
    (List.range n).foldl (fun (acc : K × K) (i : Nat) => (acc.1 + f i, acc.2 + g i)) (0, 0)
      = (∑ i in Finset.range n, f i, ∑ i in Finset.range n, g i) := by
  induction n with
  | zero => simp
  | succ n ih =>
    rw [List.range_succ, List.foldl_append, ih]
    simp [Finset.sum_range_succ]

theorem foldl_range_triple {K : Type} [LinearOrderedField K] (f g h : Nat → K) (n : Nat) :
    (List.range n).foldl
        (fun (acc : K × K × K) (i : Nat) => (acc.1 + f i, acc.2.1 + g i, acc.2.2 + h i))
        (0, 0, 0)
      = (∑ i in Finset.range n, f i, ∑ i in Finset.range n, g i,
          ∑ i in Finset.range n, h i) := by
  induction n with
  | zero => simp
  | succ n ih =>
    rw [List.range_succ, List.foldl_append, ih]
    simp [Finset.sum_range_succ]

/-- The value of `pearson_correlation` in terms of the sums over the sub-range. -/
theorem pearson_correlation_eq {K : Type} [LinearOrderedField K] (sqrt : K → K)
    (x y : Int → K) (start end_ : Int) (xa ya : K)
    (hxa : xa = (∑ i in Finset.range (end_ - start).toNat, x (start + (i : Int)))
      / ((end_ - start : Int) : K))
    (hya : ya = (∑ i in Finset.range (end_ - start).toNat, y (start + (i : Int)))
      / ((end_ - start : Int) : K)) :
    pearson_correlation sqrt x y start end_
      = if sqrt (∑ i in Finset.range (end_ - start).toNat,
              (x (start + (i : Int)) - xa) * (x (start + (i : Int)) - xa)) = 0
            ∨ sqrt (∑ i in Finset.range (end_ - start).toNat,
              (y (start + (i : Int)) - ya) * (y (start + (i : Int)) - ya)) = 0 then 1
        else (∑ i in Finset.range (end_ - start).toNat,
              (x (start + (i : Int)) - xa) * (y (start + (i : Int)) - ya))
          / (sqrt (∑ i in Finset.range (end_ - start).toNat,
              (x (start + (i : Int)) - xa) * (x (start + (i : Int)) - xa))
            * sqrt (∑ i in Finset.range (end_ - start).toNat,
              (y (start + (i : Int)) - ya) * (y (start + (i : Int)) - ya))) := by
  unfold pearson_correlation
  simp only [SQUARE]
  rw [foldl_range_pair (fun i => x (start + (i : Int))) (fun i => y (start + (i : Int)))]
  simp only
  rw [← hxa, ← hya]
  rw [foldl_range_triple
    (fun i => (x (start + (i : Int)) - xa) * (y (start + (i : Int)) - ya))
    (fun i => (x (start + (i : Int)) - xa) * (x (start + (i : Int)) - xa))
    (fun i => (y (start + (i : Int)) - ya) * (y (start + (i : Int)) - ya))]

/-- The mean of a sequence that is constant on the sub-range is that constant,
so all the deviations from the mean vanish. -/
theorem deviations_of_const {K : Type} [LinearOrderedField K] (x : Int → K)
    (start end_ : Int) (c : K) (h : ∀ j : Int, start ≤ j → j < end_ → x j = c) :
    ∑ i in Finset.range (end_ - start).toNat,
        (x (start + (i : Int))
            - (∑ i in Finset.range (end_ - start).toNat, x (start + (i : Int)))
              / ((end_ - start : Int) : K))
          * (x (start + (i : Int))
            - (∑ i in Finset.range (end_ - start).toNat, x (start + (i : Int)))
              / ((end_ - start : Int) : K)) = 0 := by
  have hx : ∀ i ∈ Finset.range (end_ - start).toNat, x (start + (i : Int)) = c := by
    intro i hi
    have := Finset.mem_range.mp hi
    exact h _ (by omega) (by omega)
  apply Finset.sum_eq_zero
  intro i hi
  have hpos : 0 < end_ - start := by
    have := Finset.mem_range.mp hi
    omega
  have hN : ((end_ - start : Int) : K) ≠ 0 := by
    have : end_ - start ≠ 0 := by omega
    exact_mod_cast this
  have hn : (((end_ - start).toNat : Nat) : K) = ((end_ - start : Int) : K) := by
    have := congrArg (Int.cast : Int → K) (Int.toNat_of_nonneg (le_of_lt hpos))
    rw [Int.cast_natCast] at this
    exact this
  rw [Finset.sum_congr rfl hx, Finset.sum_const, Finset.card_range, nsmul_eq_mul, hn, hx i hi,
    mul_div_assoc, mul_div_cancel₀ _ hN]
  simp

theorem pearson_of_const_left {K : Type} [LinearOrderedField K] (sqrt : K → K)
    (h0 : sqrt 0 = 0) (x y : Int → K) (start end_ : Int) (c : K)
    (h : ∀ j : Int, start ≤ j → j < end_ → x j = c) :
    pearson_correlation sqrt x y start end_ = 1 := by
  rw [pearson_correlation_eq sqrt x y start end_ _ _ rfl rfl,
    deviations_of_const x start end_ c h, h0]
  simp

theorem pearson_of_const_right {K : Type} [LinearOrderedField K] (sqrt : K → K)
    (h0 : sqrt 0 = 0) (x y : Int → K) (start end_ : Int) (c : K)
    (h : ∀ j : Int, start ≤ j → j < end_ → y j = c) :
    pearson_correlation sqrt x y start end_ = 1 := by
  rw [pearson_correlation_eq sqrt x y start end_ _ _ rfl rfl,
    deviations_of_const y start end_ c h, h0]
  simp

/-- The correlation only depends on the values of the two sequences on the sub-range. -/
theorem pearson_congr {K : Type} [LinearOrderedField K] (sqrt : K → K)
    (x y x2 y2 : Int → K) (start end_ : Int)
    (hx : ∀ j : Int, start ≤ j → j < end_ → x j = x2 j)
    (hy : ∀ j : Int, start ≤ j → j < end_ → y j = y2 j) :
    pearson_correlation sqrt x y start end_ = pearson_correlation sqrt x2 y2 start end_ := by
  unfold pearson_correlation
  have hx1 : ∀ i ∈ List.range (end_ - start).toNat, x (start + (i : Int)) = x2 (start + (i : Int)) := by
    intro i hi
    have := List.mem_range.mp hi
    exact hx _ (by omega) (by omega)
  have hy1 : ∀ i ∈ List.range (end_ - start).toNat, y (start + (i : Int)) = y2 (start + (i : Int)) := by
    intro i hi
    have := List.mem_range.mp hi
    exact hy _ (by omega) (by omega)
  have e1 : (List.range (end_ - start).toNat).foldl
        (fun (acc : K × K) (i : Nat) =>
          (acc.1 + x (start + (i : Int)), acc.2 + y (start + (i : Int)))) (0, 0)
      = (List.range (end_ - start).toNat).foldl
        (fun (acc : K × K) (i : Nat) =>
          (acc.1 + x2 (start + (i : Int)), acc.2 + y2 (start + (i : Int)))) (0, 0) :=
    List.foldl_ext _ _ _ (fun a i hi => by rw [hx1 i hi, hy1 i hi])
  simp only [e1]
  have e2 : ∀ xa ya : K, (List.range (end_ - start).toNat).foldl
        (fun (acc : K × K × K) (i : Nat) =>
          (acc.1 + (x (start + (i : Int)) - xa) * (y (start + (i : Int)) - ya),
            acc.2.1 + SQUARE (x (start + (i : Int)) - xa),
            acc.2.2 + SQUARE (y (start + (i : Int)) - ya))) (0, 0, 0)
      = (List.range (end_ - start).toNat).foldl
        (fun (acc : K × K × K) (i : Nat) =>
          (acc.1 + (x2 (start + (i : Int)) - xa) * (y2 (start + (i : Int)) - ya),
            acc.2.1 + SQUARE (x2 (start + (i : Int)) - xa),
            acc.2.2 + SQUARE (y2 (start + (i : Int)) - ya))) (0, 0, 0) :=
    fun xa ya => List.foldl_ext _ _ _ (fun a i hi => by rw [hx1 i hi, hy1 i hi])
  simp only [e2]

/-! ## The synchronisation score -/

theorem doubled_offset_eq_mod (sd : sim_data) (p y : Int) (hp0 : 0 ≤ p)
    (hp1 : p < sd.width_total) (hy0 : 0 ≤ y) (hy1 : y < sd.width_total) :
    y + doubled_offset sd p y = (p - y) % sd.width_total := by
  unfold doubled_offset
  split_ifs with h
  · have h1 : (p - y + sd.width_total) % sd.width_total = p - y + sd.width_total :=
      Int.emod_eq_of_lt (by omega) (by omega)
    rw [← Int.add_emod_self (a := p - y), h1]
    omega
  · have h1 : (p - y) % sd.width_total = p - y := Int.emod_eq_of_lt (by omega) (by omega)
    rw [h1]
    omega

theorem foldl_range_add (f : Nat → ℚ) (n : Nat) :
    (List.range n).foldl (fun (acc : ℚ) (i : Nat) => acc + f i) 0
      = ∑ i in Finset.range n, f i := by
  induction n with
  | zero => simp
  | succ n ih =>
    rw [List.range_succ, List.foldl_append, ih]
    simp [Finset.sum_range_succ]

theorem sum_Ico_eq_sum_range (a b : Int) (f : Int → ℚ) :
    ∑ x in Finset.Ico a b, f x = ∑ i in Finset.range (b - a).toNat, f (a + (i : Int)) := by
  rw [Int.Ico_eq_finset_map, Finset.sum_map]
  rfl

/-- The value of `ant_sync` for a tissue of more than one row, with the profiles as
the code builds them. -/
theorem ant_sync_eq_sum (sqrt : ℚ → ℚ) (sd : sim_data) (cl : con_levels) (con time : Int)
    (hH : sd.height ≠ 1) :
    ant_sync sqrt sd cl con time
      = (∑ x in Finset.Ico (1 : Int) sd.height,
          pearson_correlation sqrt (ant_sync_first_row sd cl con time)
            (ant_sync_cur_row sd cl con time x)
            (if con = 3 ∨ con = 4 then double_to_int (0.6 * (sd.width_total : ℚ)) else 0)
            sd.width_total)
        / ((sd.height - 1 : Int) : ℚ) := by
  unfold ant_sync
  rw [if_neg hH]
  simp only
  congr 1
  rw [sum_Ico_eq_sum_range]
  by_cases hc : con = 3 ∨ con = 4
  · simp only [hc, if_true]
    exact foldl_range_add _ _
  · simp only [hc, if_false]
    exact foldl_range_add _ _

/-! ## The properties -/

/-- C1: when the window half width `w = 2/(step_size*big_gran)` is a whole number, a
visited step `j` is recorded as a peak by `get_peaks_and_troughs1` exactly when
`conc[j]` is strictly greater than `conc[k]` for every `k != j` with
`max(j-w, time_start) <= k <= min(j+w, time_end)`, and as a trough exactly when it is
strictly smaller than all of them. -/
theorem gpt1_peak_trough_iff (BIRTH : Int) (sd : sim_data) (cl : con_levels)
    (actual_cell time_start : Int) (crit_points type position : growin_array) (mr : Int)
    (w j : Int) (hw : 2 / (sd.step_size * (sd.big_gran : ℚ)) = (w : ℚ))
    (hv : visited BIRTH sd cl actual_cell time_start j) :
    (recorded (get_peaks_and_troughs1 BIRTH sd cl actual_cell time_start
        crit_points type position mr) j 1 ↔
      ∀ k : Int, k ≠ j → max (j - w) time_start ≤ k → k ≤ min (j + w) sd.time_end →
        cl.cons mr k actual_cell < cl.cons mr j actual_cell)
    ∧ (recorded (get_peaks_and_troughs1 BIRTH sd cl actual_cell time_start
        crit_points type position mr) j (-1) ↔
      ∀ k : Int, k ≠ j → max (j - w) time_start ≤ k → k ≤ min (j + w) sd.time_end →
        cl.cons mr j actual_cell < cl.cons mr k actual_cell) := by
  have hw2 : half_width sd = (w : ℚ) := by rw [half_width_eq]; exact hw
  constructor
  · rw [recorded_gpt1_iff, is_peak_at_eq_true, window_first_whole sd _ _ w hw2,
      window_bound_whole sd _ _ w hw2]
    constructor
    · rintro ⟨_, h | h⟩
      · intro k hk h1 h2
        have := h.2 k h1 (by exact_mod_cast h2)
        by_contra hlt
        exact this ⟨not_lt.mp hlt, fun e => hk e.symm⟩
      · exact absurd h.1 (by decide)
    · intro h
      refine ⟨hv, Or.inl ⟨rfl, fun k h1 h2 hc => ?_⟩⟩
      have := h k (fun e => hc.2 e.symm) h1 (by exact_mod_cast h2)
      exact absurd hc.1 (not_le.mpr this)
  · rw [recorded_gpt1_iff, is_trough_at_eq_true, window_first_whole sd _ _ w hw2,
      window_bound_whole sd _ _ w hw2]
    constructor
    · rintro ⟨_, h | h⟩
      · exact absurd h.1 (by decide)
      · intro k hk h1 h2
        have := h.2 k h1 (by exact_mod_cast h2)
        by_contra hlt
        exact this ⟨not_lt.mp hlt, fun e => hk e.symm⟩
    · intro h
      refine ⟨hv, Or.inr ⟨rfl, fun k h1 h2 hc => ?_⟩⟩
      have := h k (fun e => hc.2 e.symm) h1 (by exact_mod_cast h2)
      exact absurd hc.1 (not_le.mpr this)

theorem gpt1_peak_trough_iff_witness :
    (2 / (demo_sd.step_size * (demo_sd.big_gran : ℚ)) = ((1 : Int) : ℚ))
    ∧ visited 0 demo_sd demo_cl 1 0 2
    ∧ (recorded (get_peaks_and_troughs1 0 demo_sd demo_cl 1 0
          zero_array zero_array zero_array 1) 2 1 ↔
        ∀ k : Int, k ≠ 2 → max (2 - 1) 0 ≤ k → k ≤ min (2 + 1) demo_sd.time_end →
          demo_cl.cons 1 k 1 < demo_cl.cons 1 2 1)
    ∧ (recorded (get_peaks_and_troughs1 0 demo_sd demo_cl 1 0
          zero_array zero_array zero_array 1) 2 (-1) ↔
        ∀ k : Int, k ≠ 2 → max (2 - 1) 0 ≤ k → k ≤ min (2 + 1) demo_sd.time_end →
          demo_cl.cons 1 2 1 < demo_cl.cons 1 k 1) :=
  ⟨by decide!, by unfold visited; decide!,
    gpt1_peak_trough_iff 0 demo_sd demo_cl 1 0 zero_array zero_array zero_array 1 1 2
      (by decide!) (by unfold visited; decide!)⟩

/-- C2: for positive `step_size` and `big_gran` (and a start step that is a valid,
non negative, time index), `get_peaks_and_troughs1` never records the same time
step both as a peak (1) and as a trough (-1). -/
theorem gpt1_never_peak_and_trough (BIRTH : Int) (sd : sim_data) (cl : con_levels)
    (actual_cell time_start : Int) (crit_points type position : growin_array) (mr : Int)
    (hs : 0 < sd.step_size) (hg : 0 < sd.big_gran) (hts : 0 ≤ time_start) (j : Int) :
    ¬ (recorded (get_peaks_and_troughs1 BIRTH sd cl actual_cell time_start
          crit_points type position mr) j 1
        ∧ recorded (get_peaks_and_troughs1 BIRTH sd cl actual_cell time_start
          crit_points type position mr) j (-1)) := by
  rw [recorded_gpt1_iff, recorded_gpt1_iff]
  rintro ⟨⟨hv, hp⟩, ⟨_, ht⟩⟩
  have hlt := visited_lt_time_end _ _ _ _ _ _ hv
  refine not_peak_and_trough sd (fun t => cl.cons mr t actual_cell) time_start sd.time_end j
    (half_width_pos sd hs hg) hts hv.1 (by omega) ⟨?_, ?_⟩
  · rcases hp with h | h
    · exact h.2
    · exact absurd h.1 (by decide)
  · rcases ht with h | h
    · exact absurd h.1 (by decide)
    · exact h.2

theorem gpt1_never_peak_and_trough_witness :
    0 < demo_sd.step_size ∧ 0 < demo_sd.big_gran ∧ (0 : Int) ≤ 0
    ∧ ¬ (recorded (get_peaks_and_troughs1 0 demo_sd demo_cl 1 0
          zero_array zero_array zero_array 1) 2 1
        ∧ recorded (get_peaks_and_troughs1 0 demo_sd demo_cl 1 0
          zero_array zero_array zero_array 1) 2 (-1)) :=
  ⟨by decide!, by decide!, by decide!,
    gpt1_never_peak_and_trough 0 demo_sd demo_cl 1 0 zero_array zero_array zero_array 1
      (by decide!) (by decide!) (by decide!) 2⟩

/-- C3: a cell whose concentration is the same at every time step yields 0 critical
points: `get_peaks_and_troughs1` returns `num_points = 0`. -/
theorem gpt1_constant_series (BIRTH : Int) (sd : sim_data) (cl : con_levels)
    (actual_cell time_start : Int) (crit_points type position : growin_array) (mr : Int)
    (hs : 0 < sd.step_size) (hg : 0 < sd.big_gran) (hts : 0 ≤ time_start) (c : ℚ)
    (hc : ∀ t : Int, cl.cons mr t actual_cell = c) :
    (get_peaks_and_troughs1 BIRTH sd cl actual_cell time_start
      crit_points type position mr).num_points = 0 := by
  rw [← rows_length, List.length_eq_zero, List.eq_nil_iff_forall_not_mem]
  intro r hr
  obtain ⟨hv, hd⟩ := (mem_gpt1_rows _ _ _ _ _ _ _ _ _ _).mp hr
  have hlt := visited_lt_time_end _ _ _ _ _ _ hv
  obtain ⟨hf, hb⟩ := prev_in_window sd time_start sd.time_end r.1
    (half_width_pos sd hs hg) hts hv.1 (by omega)
  have hne : r.1 ≠ r.1 - 1 := by omega
  rcases ((mem_detect_rows _ _ _ _ _ _ _ _).mp hd).2.2 with h | h
  · exact (is_peak_at_eq_true _ _ _ _ _).mp h.2 (r.1 - 1) hf hb
      ⟨by simp only [hc]; exact le_rfl, hne⟩
  · exact (is_trough_at_eq_true _ _ _ _ _).mp h.2 (r.1 - 1) hf hb
      ⟨by simp only [hc]; exact le_rfl, hne⟩

theorem gpt1_constant_series_witness :
    0 < demo_sd.step_size ∧ 0 < demo_sd.big_gran ∧ (0 : Int) ≤ 0
    ∧ (∀ t : Int, flat_cl.cons 1 t 1 = 0)
    ∧ (get_peaks_and_troughs1 0 demo_sd flat_cl 1 0
        zero_array zero_array zero_array 1).num_points = 0 :=
  ⟨by decide!, by decide!, by decide!, fun _ => rfl,
    gpt1_constant_series 0 demo_sd flat_cl 1 0 zero_array zero_array zero_array 1
      (by decide!) (by decide!) (by decide!) 0 (fun _ => rfl)⟩

/-- C4, as stated, fails: on the series 0,1,2,1,0,1,2,1,0 with a window of one step on
each side, `get_peaks_and_troughs1` does not report a trough at index 0, nor at
index 8: its loop only visits the steps 1 to 7. -/
theorem demo_boundary_troughs_not_reported :
    ¬ recorded demo_run 0 (-1) ∧ ¬ recorded demo_run 8 (-1) := by
  unfold recorded
  decide!

/-- C4, amended: on the series 0,1,2,1,0,1,2,1,0 (steps 0 to 8, constant birth time,
window of one step on each side) `get_peaks_and_troughs1` reports exactly the peaks
at 2 and 6 and the trough at 4, and the period loop of `osc_features_ant` over these
critical points writes exactly one period sample, of length 4 steps
(`4 * step_size * big_gran`). -/
theorem demo_end_to_end :
    half_width demo_sd = 1
    ∧ demo_run.num_points = 3
    ∧ demo_run.rows = [(2, 1, 2), (4, -1, 2), (6, 1, 2)]
    ∧ (osc_samples demo_sd demo_conc demo_run.crit_points demo_run.type demo_run.position
        demo_run.num_points (fun _ => 0)).period_samples
      = [(4 * demo_sd.step_size * (demo_sd.big_gran : ℚ), 2)] := by
  decide!

/-- C5: for positive `step_size` and `big_gran`, the critical point times written by
`get_peaks_and_troughs1` at the indices `0 .. num_points - 1` are strictly increasing. -/
theorem gpt1_times_increasing (BIRTH : Int) (sd : sim_data) (cl : con_levels)
    (actual_cell time_start : Int) (crit_points type position : growin_array) (mr : Int)
    (hs : 0 < sd.step_size) (hg : 0 < sd.big_gran) (hts : 0 ≤ time_start)
    (a b : Nat) (hab : a < b)
    (hb : b < (get_peaks_and_troughs1 BIRTH sd cl actual_cell time_start
      crit_points type position mr).num_points) :
    (get_peaks_and_troughs1 BIRTH sd cl actual_cell time_start
        crit_points type position mr).crit_points a
      < (get_peaks_and_troughs1 BIRTH sd cl actual_cell time_start
        crit_points type position mr).crit_points b := by
  have h := gpt1_rows_sorted BIRTH sd cl actual_cell time_start crit_points type position mr
    hs hg hts
  rw [List.pairwise_iff_getElem] at h
  have hlen := rows_length (get_peaks_and_troughs1 BIRTH sd cl actual_cell time_start
    crit_points type position mr)
  have := h a b (by omega) (by omega) hab
  simpa [crit_state.rows] using this

theorem gpt1_times_increasing_witness :
    0 < demo_sd.step_size ∧ 0 < demo_sd.big_gran ∧ (0 : Int) ≤ 0 ∧ 0 < 2
    ∧ 2 < (get_peaks_and_troughs1 0 demo_sd demo_cl 1 0
        zero_array zero_array zero_array 1).num_points
    ∧ (get_peaks_and_troughs1 0 demo_sd demo_cl 1 0
          zero_array zero_array zero_array 1).crit_points 0
        < (get_peaks_and_troughs1 0 demo_sd demo_cl 1 0
          zero_array zero_array zero_array 1).crit_points 2 :=
  ⟨by decide!, by decide!, by decide!, by decide, by decide!,
    gpt1_times_increasing 0 demo_sd demo_cl 1 0 zero_array zero_array zero_array 1
      (by decide!) (by decide!) (by decide!) 0 2 (by decide) (by decide!)⟩

/-- C6: every critical point time `j` reported by `get_peaks_and_troughs1` satisfies
`time_start < j < time_end - 1`, the birth time at `t-1`, `t` and `t+1` is the same
for every step `t` with `time_start < t <= j`, and so `j` lies before the first step
at which the birth time changes. -/
theorem gpt1_reported_in_segment (BIRTH : Int) (sd : sim_data) (cl : con_levels)
    (actual_cell time_start : Int) (crit_points type position : growin_array) (mr : Int)
    (i : Nat)
    (hi : i < (get_peaks_and_troughs1 BIRTH sd cl actual_cell time_start
      crit_points type position mr).num_points) :
    time_start < (get_peaks_and_troughs1 BIRTH sd cl actual_cell time_start
        crit_points type position mr).crit_points i
    ∧ (get_peaks_and_troughs1 BIRTH sd cl actual_cell time_start
        crit_points type position mr).crit_points i < sd.time_end - 1
    ∧ (∀ t : Int, time_start < t →
        t ≤ (get_peaks_and_troughs1 BIRTH sd cl actual_cell time_start
          crit_points type position mr).crit_points i →
        cl.cons BIRTH (t - 1) actual_cell = cl.cons BIRTH t actual_cell
          ∧ cl.cons BIRTH (t + 1) actual_cell = cl.cons BIRTH t actual_cell)
    ∧ (∀ t0 : Int, time_start < t0 →
        ¬ (cl.cons BIRTH (t0 - 1) actual_cell = cl.cons BIRTH t0 actual_cell
          ∧ cl.cons BIRTH (t0 + 1) actual_cell = cl.cons BIRTH t0 actual_cell) →
        (get_peaks_and_troughs1 BIRTH sd cl actual_cell time_start
          crit_points type position mr).crit_points i < t0) := by
  have hr : recorded (get_peaks_and_troughs1 BIRTH sd cl actual_cell time_start
      crit_points type position mr)
      ((get_peaks_and_troughs1 BIRTH sd cl actual_cell time_start
        crit_points type position mr).crit_points i)
      ((get_peaks_and_troughs1 BIRTH sd cl actual_cell time_start
        crit_points type position mr).type i) := ⟨i, hi, rfl, rfl⟩
  obtain ⟨hv, _⟩ := (recorded_gpt1_iff _ _ _ _ _ _ _ _ _ _ _).mp hr
  refine ⟨hv.1, visited_lt_time_end _ _ _ _ _ _ hv, fun t h1 h2 => ?_, fun t0 h1 h2 => ?_⟩
  · have := hv.2 t h1 h2
    exact ⟨this.2.1.symm, this.2.2.symm⟩
  · by_contra hle
    have := hv.2 t0 h1 (not_lt.mp hle)
    exact h2 ⟨this.2.1.symm, this.2.2.symm⟩

theorem gpt1_reported_in_segment_witness :
    0 < reborn_run.num_points
    ∧ (0 < reborn_run.crit_points 0
      ∧ reborn_run.crit_points 0 < demo_sd.time_end - 1
      ∧ (∀ t : Int, 0 < t → t ≤ reborn_run.crit_points 0 →
          reborn_cl.cons 0 (t - 1) 1 = reborn_cl.cons 0 t 1
            ∧ reborn_cl.cons 0 (t + 1) 1 = reborn_cl.cons 0 t 1)
      ∧ (∀ t0 : Int, 0 < t0 →
          ¬ (reborn_cl.cons 0 (t0 - 1) 1 = reborn_cl.cons 0 t0 1
            ∧ reborn_cl.cons 0 (t0 + 1) 1 = reborn_cl.cons 0 t0 1) →
          reborn_run.crit_points 0 < t0)) :=
  ⟨by decide!,
    gpt1_reported_in_segment 0 demo_sd reborn_cl 1 0 zero_array zero_array zero_array 1 0
      (by decide!)⟩

/-- C7 fails at the end of the segment: with a window of two steps and `time_end = 4`,
on the series 0,0,1,0,5 the first detector compares step 2 with step 4 (`time_end`)
and reports nothing, the second stops at step 3 (`time_end - 1`) and reports a peak
at step 2. -/
theorem detectors_differ_at_segment_end :
    (get_peaks_and_troughs1 0 tail_sd tail_cl 0 0 zero_array zero_array zero_array 1).rows = []
    ∧ (get_peaks_and_troughs1 0 tail_sd tail_cl 0 0
        zero_array zero_array zero_array 1).num_points = 0
    ∧ (get_peaks_and_troughs2 0 1 2 3 tail_sd tail_cl 0 0 zero_array zero_array zero_array 1
        (fun _ => 0) (fun _ => 0) (fun _ => 0)).1.rows = [(2, 1, 0)]
    ∧ (get_peaks_and_troughs2 0 1 2 3 tail_sd tail_cl 0 0 zero_array zero_array zero_array 1
        (fun _ => 0) (fun _ => 0) (fun _ => 0)).1.num_points = 1 := by
  decide!

/-- C8: plain wrap convention. For a cell index `actual_cell >= 0`, every position
recorded by either detector at a step whose active start value `a` satisfies
`0 <= a < width_total` equals `(a - actual_cell mod width_total) mod width_total`
and lies in `[0, width_total)`. -/
theorem detectors_position_wrap (BIRTH CMH1 CMMESPA CMMESPB : Int) (sd : sim_data)
    (cl : con_levels) (actual_cell time_start : Int) (crit_points type position : growin_array)
    (mr : Int) (mh1_comp mespa_comp mespb_comp : Nat → ℚ) (hcell : 0 ≤ actual_cell) :
    (∀ i : Nat, i < (get_peaks_and_troughs1 BIRTH sd cl actual_cell time_start
          crit_points type position mr).num_points →
      ∀ a : Int, a = cl.active_start_record
          ((get_peaks_and_troughs1 BIRTH sd cl actual_cell time_start
            crit_points type position mr).crit_points i) →
        0 ≤ a → a < sd.width_total →
        (get_peaks_and_troughs1 BIRTH sd cl actual_cell time_start
            crit_points type position mr).position i
          = (a - actual_cell % sd.width_total) % sd.width_total
        ∧ 0 ≤ (get_peaks_and_troughs1 BIRTH sd cl actual_cell time_start
            crit_points type position mr).position i
        ∧ (get_peaks_and_troughs1 BIRTH sd cl actual_cell time_start
            crit_points type position mr).position i < sd.width_total)
    ∧ (∀ i : Nat, i < (get_peaks_and_troughs2 BIRTH CMH1 CMMESPA CMMESPB sd cl actual_cell
          time_start crit_points type position mr mh1_comp mespa_comp mespb_comp).1.num_points →
      ∀ a : Int, a = cl.active_start_record
          ((get_peaks_and_troughs2 BIRTH CMH1 CMMESPA CMMESPB sd cl actual_cell
            time_start crit_points type position mr mh1_comp mespa_comp
            mespb_comp).1.crit_points i) →
        0 ≤ a → a < sd.width_total →
        (get_peaks_and_troughs2 BIRTH CMH1 CMMESPA CMMESPB sd cl actual_cell
            time_start crit_points type position mr mh1_comp mespa_comp mespb_comp).1.position i
          = (a - actual_cell % sd.width_total) % sd.width_total
        ∧ 0 ≤ (get_peaks_and_troughs2 BIRTH CMH1 CMMESPA CMMESPB sd cl actual_cell
            time_start crit_points type position mr mh1_comp mespa_comp mespb_comp).1.position i
        ∧ (get_peaks_and_troughs2 BIRTH CMH1 CMMESPA CMMESPB sd cl actual_cell
            time_start crit_points type position mr mh1_comp mespa_comp mespb_comp).1.position i
          < sd.width_total) := by
  constructor
  · intro i hi a ha h0 h1
    have hm := row_mem_rows _ i hi
    obtain ⟨_, hd⟩ := (mem_gpt1_rows _ _ _ _ _ _ _ _ _ _).mp hm
    have hp := ((mem_detect_rows _ _ _ _ _ _ _ _).mp hd).2.1
    simp only at hp
    rw [hp, ha]
    exact cell_pos_wrap sd cl actual_cell _ hcell (ha ▸ h0) (ha ▸ h1)
  · intro i hi a ha h0 h1
    have hm := row_mem_rows _ i hi
    obtain ⟨_, hd⟩ := (mem_gpt2_rows _ _ _ _ _ _ _ _ _ _ _ _ _ _ _ _).mp hm
    have hp := ((mem_detect_rows _ _ _ _ _ _ _ _).mp hd).2.1
    simp only at hp
    rw [hp, ha]
    exact cell_pos_wrap sd cl actual_cell _ hcell (ha ▸ h0) (ha ▸ h1)

theorem detectors_position_wrap_witness :
    (0 : Int) ≤ 1
    ∧ (∀ i : Nat, i < demo_run.num_points →
        ∀ a : Int, a = demo_cl.active_start_record (demo_run.crit_points i) →
          0 ≤ a → a < demo_sd.width_total →
          demo_run.position i = (a - 1 % demo_sd.width_total) % demo_sd.width_total
          ∧ 0 ≤ demo_run.position i ∧ demo_run.position i < demo_sd.width_total)
    ∧ (∀ i : Nat, i < demo_run2.1.num_points →
        ∀ a : Int, a = demo_cl.active_start_record (demo_run2.1.crit_points i) →
          0 ≤ a → a < demo_sd.width_total →
          demo_run2.1.position i = (a - 1 % demo_sd.width_total) % demo_sd.width_total
          ∧ 0 ≤ demo_run2.1.position i ∧ demo_run2.1.position i < demo_sd.width_total) :=
  ⟨by decide,
    detectors_position_wrap 0 1 2 3 demo_sd demo_cl 1 0 zero_array zero_array zero_array 1
      (fun _ => 0) (fun _ => 0) (fun _ => 0) (by decide)⟩

/-- C9: doubled offset convention. For an active start value `p` and an offset `y`,
both in `[0, width_total)`, the column `y + pos_cur` read by `avg_amp` and by
`ant_sync` (genes 3 and 4) equals `(p - y) mod width_total` and lies in
`[0, width_total)`. -/
theorem doubled_offset_column (sd : sim_data) (cl : con_levels) (con time x y : Int)
    (hp0 : 0 ≤ cl.active_start_record time)
    (hp1 : cl.active_start_record time < sd.width_total)
    (hy0 : 0 ≤ y) (hy1 : y < sd.width_total) :
    y + doubled_offset sd (cl.active_start_record time) y
        = (cl.active_start_record time - y) % sd.width_total
      ∧ 0 ≤ y + doubled_offset sd (cl.active_start_record time) y
      ∧ y + doubled_offset sd (cl.active_start_record time) y < sd.width_total
      ∧ avg_amp_cell sd cl time x y
        = x * sd.width_total + (cl.active_start_record time - y) % sd.width_total
      ∧ (con = 3 ∨ con = 4 → ant_sync_cell sd cl con time x y
        = x * sd.width_total + (cl.active_start_record time - y) % sd.width_total) := by
  have key : y + doubled_offset sd (cl.active_start_record time) y
      = (cl.active_start_record time - y) % sd.width_total := by
    unfold doubled_offset
    split_ifs with h
    · have h1 : (cl.active_start_record time - y + sd.width_total) % sd.width_total
          = cl.active_start_record time - y + sd.width_total :=
        Int.emod_eq_of_lt (by omega) (by omega)
      rw [← Int.add_emod_self (a := cl.active_start_record time - y), h1]
      omega
    · have h1 : (cl.active_start_record time - y) % sd.width_total
          = cl.active_start_record time - y :=
        Int.emod_eq_of_lt (by omega) (by omega)
      rw [h1]
      omega
  have hW : 0 < sd.width_total := lt_of_le_of_lt hy0 hy1
  refine ⟨key, ?_, ?_, ?_, ?_⟩
  · rw [key]; exact Int.emod_nonneg _ (ne_of_gt hW)
  · rw [key]; exact Int.emod_lt_of_pos _ hW
  · unfold avg_amp_cell
    rw [add_assoc, key]
  · intro hc
    unfold ant_sync_cell ant_sync_offset
    rw [if_pos hc, add_assoc, key]

theorem doubled_offset_column_witness :
    0 ≤ demo_cl.active_start_record 5 ∧ demo_cl.active_start_record 5 < demo_sd.width_total
    ∧ (0 : Int) ≤ 2 ∧ 2 < demo_sd.width_total
    ∧ (2 + doubled_offset demo_sd (demo_cl.active_start_record 5) 2
          = (demo_cl.active_start_record 5 - 2) % demo_sd.width_total
      ∧ 0 ≤ 2 + doubled_offset demo_sd (demo_cl.active_start_record 5) 2
      ∧ 2 + doubled_offset demo_sd (demo_cl.active_start_record 5) 2 < demo_sd.width_total
      ∧ avg_amp_cell demo_sd demo_cl 5 0 2
        = 0 * demo_sd.width_total + (demo_cl.active_start_record 5 - 2) % demo_sd.width_total
      ∧ ((3 : Int) = 3 ∨ (3 : Int) = 4 → ant_sync_cell demo_sd demo_cl 3 5 0 2
        = 0 * demo_sd.width_total
          + (demo_cl.active_start_record 5 - 2) % demo_sd.width_total)) :=
  ⟨by decide, by decide, by decide, by decide,
    doubled_offset_column demo_sd demo_cl 3 5 0 2 (by decide) (by decide) (by decide)
      (by decide)⟩

/-- C10: for a critical point sequence of length `n >= 3`, the period samples computed
in `osc_features_ant` are, in order, one per index `i` with `2 <= i < n` and
`type[i] = 1` (peak), with value `(time[i] - time[i-2]) * step_size * big_gran` and
position `position[i-2] + (position[i] - position[i-2]) / 2` (a division of `int`s);
no other period sample is written. -/
theorem osc_period_samples (sd : sim_data) (conc : Int → ℚ)
    (crit_points type position : growin_array) (n : Nat) (per_time0 : Nat → ℚ)
    (hn : 3 ≤ n) :
    (osc_samples sd conc crit_points type position n per_time0).period_samples
      = ((List.range n).filter (fun i => decide (2 ≤ i ∧ type i = 1))).map
          (fun i =>
            (((crit_points i - crit_points (i - 2) : Int) : ℚ)
                * sd.step_size * (sd.big_gran : ℚ),
              ((position (i - 2) + Int.tdiv (position i - position (i - 2)) 2 : Int) : ℚ))) := by
  unfold osc_samples
  simp only [ge_iff_le, hn, if_true]
  rw [osc_fold_period_samples]
  simp only [osc_state.period_samples, List.range_zero, List.map_nil, List.nil_append]
  congr 1
  apply List.filter_congr
  intro i _
  simp only [ge_iff_le, decide_eq_decide]
  exact and_comm

theorem osc_period_samples_witness :
    3 ≤ demo_run.num_points
    ∧ (osc_samples demo_sd demo_conc demo_run.crit_points demo_run.type demo_run.position
        demo_run.num_points (fun _ => 0)).period_samples
      = ((List.range demo_run.num_points).filter
          (fun i => decide (2 ≤ i ∧ demo_run.type i = 1))).map
          (fun i =>
            (((demo_run.crit_points i - demo_run.crit_points (i - 2) : Int) : ℚ)
                * demo_sd.step_size * (demo_sd.big_gran : ℚ),
              ((demo_run.position (i - 2)
                + Int.tdiv (demo_run.position i - demo_run.position (i - 2)) 2 : Int) : ℚ))) :=
  ⟨by decide!,
    osc_period_samples demo_sd demo_conc demo_run.crit_points demo_run.type demo_run.position
      demo_run.num_points (fun _ => 0) (by decide!)⟩

/-- C11: for a critical point sequence of length `n >= 3`, the amplitude samples
computed in `osc_features_ant` are, in order, one per index `i` with `1 <= i <= n-2`
and `type[i] = 1` (peak), with value
`conc[time[i]] - (conc[time[i-1]] + conc[time[i+1]]) / 2` and position `position[i]`;
a peak at index 0 or `n-1` yields no sample. -/
theorem osc_amplitude_samples (sd : sim_data) (conc : Int → ℚ)
    (crit_points type position : growin_array) (n : Nat) (per_time0 : Nat → ℚ)
    (hn : 3 ≤ n) :
    (osc_samples sd conc crit_points type position n per_time0).amplitude_samples
      = ((List.range n).filter (fun i => decide (1 ≤ i ∧ i ≤ n - 2 ∧ type i = 1))).map
          (fun i =>
            (conc (crit_points i)
                - (conc (crit_points (i - 1)) + conc (crit_points (i + 1))) / 2,
              ((position i : Int) : ℚ))) := by
  unfold osc_samples
  simp only [ge_iff_le, hn, if_true]
  rw [osc_fold_amplitude_samples]
  simp only [osc_state.amplitude_samples, List.range_zero, List.map_nil, List.nil_append]
  congr 1
  apply List.filter_congr
  intro i _
  simp only [ge_iff_le, decide_eq_decide]
  constructor
  · rintro ⟨h1, h2, h3⟩
    exact ⟨h2, by omega, h1⟩
  · rintro ⟨h1, h2, h3⟩
    exact ⟨h3, h1, by omega⟩

theorem osc_amplitude_samples_witness :
    3 ≤ 5
    ∧ (osc_samples demo_sd alt_conc alt_times alt_kinds alt_positions 5
        (fun _ => 0)).amplitude_samples
      = ((List.range 5).filter
          (fun i => decide (1 ≤ i ∧ i ≤ 5 - 2 ∧ alt_kinds i = 1))).map
          (fun i =>
            (alt_conc (alt_times i)
                - (alt_conc (alt_times (i - 1)) + alt_conc (alt_times (i + 1))) / 2,
              ((alt_positions i : Int) : ℚ))) :=
  ⟨by decide,
    osc_amplitude_samples demo_sd alt_conc alt_times alt_kinds alt_positions 5 (fun _ => 0)
      (by decide)⟩

/-- C12: in `osc_features_ant` a cell with fewer than 3 critical points adds exactly 1
to the period sum and exactly 1 to the amplitude sum; hence over a region with at
least one cell in which every cell has fewer than 3 critical points,
`period_ant[index] = 1` and `amplitude_ant[index] = 1`. -/
theorem ant_few_points_sentinel (BIRTH CMH1 CMMESPA CMMESPB : Int) (sqrt : ℚ → ℚ)
    (sd : sim_data) (cl : con_levels) (mr : Int) (per_time0 : Nat → ℚ)
    (start_line end_line start_col end_col time_start : Int) (wildtype cond0 : Bool)
    (st : ant_state) (hl : start_line < end_line) (hc : start_col < end_col)
    (h : ∀ c l : Int, 0 ≤ c → c < end_col - start_col → start_line ≤ l → l < end_line →
      ant_cell_points BIRTH CMH1 CMMESPA CMMESPB sd cl mr
        (time_start + c * Int.tdiv sd.steps_split sd.big_gran) l < 3) :
    (∀ (st1 : ant_state) (c l : Int), 0 ≤ c → c < end_col - start_col →
        start_line ≤ l → l < end_line →
        (ant_cell BIRTH CMH1 CMMESPA CMMESPB sqrt sd cl mr
            (time_start + c * Int.tdiv sd.steps_split sd.big_gran) per_time0 st1 l).period_avg
          = st1.period_avg + 1
        ∧ (ant_cell BIRTH CMH1 CMMESPA CMMESPB sqrt sd cl mr
            (time_start + c * Int.tdiv sd.steps_split sd.big_gran) per_time0 st1 l).amp_avg
          = st1.amp_avg + 1)
    ∧ (osc_features_ant_gene BIRTH CMH1 CMMESPA CMMESPB sqrt sd cl mr per_time0
        start_line end_line start_col end_col time_start wildtype cond0 st).1.period_ant = 1
    ∧ (osc_features_ant_gene BIRTH CMH1 CMMESPA CMMESPB sqrt sd cl mr per_time0
        start_line end_line start_col end_col time_start wildtype cond0 st).1.amplitude_ant
      = 1 := by
  refine ⟨fun st1 c l h1 h2 h3 h4 => ?_, ?_⟩
  · have := ant_cell_few_points BIRTH CMH1 CMMESPA CMMESPB sqrt sd cl mr
      (time_start + c * Int.tdiv sd.steps_split sd.big_gran) per_time0 st1 l (h c l h1 h2 h3 h4)
    exact ⟨this.1, this.2.1⟩
  · obtain ⟨h1, h2, _⟩ := ant_cols_few_points BIRTH CMH1 CMMESPA CMMESPB sqrt sd cl mr
      per_time0 start_line end_line start_col end_col time_start
      { st with amp_avg := 0, period_avg := 0, num_cells_passed := 0 } h
    have e1 : (((end_col - start_col).toNat : Int)) = end_col - start_col :=
      Int.toNat_of_nonneg (by omega)
    have e2 : (((end_line - start_line).toNat : Int)) = end_line - start_line :=
      Int.toNat_of_nonneg (by omega)
    have q1 : (((end_col - start_col).toNat : ℚ)) = ((end_col - start_col : Int) : ℚ) := by
      have := congrArg (Int.cast : Int → ℚ) e1
      rw [Int.cast_natCast] at this
      exact this
    have q2 : (((end_line - start_line).toNat : ℚ)) = ((end_line - start_line : Int) : ℚ) := by
      have := congrArg (Int.cast : Int → ℚ) e2
      rw [Int.cast_natCast] at this
      exact this
    have n1 : ((end_col - start_col : Int) : ℚ) ≠ 0 := by
      have : end_col - start_col ≠ 0 := by omega
      exact_mod_cast this
    have n2 : ((end_line - start_line : Int) : ℚ) ≠ 0 := by
      have : end_line - start_line ≠ 0 := by omega
      exact_mod_cast this
    simp only [zero_add, q1, q2] at h1 h2
    unfold osc_features_ant_gene
    simp only [h1, h2]
    constructor
    · rw [Int.cast_mul, mul_comm]; exact div_self (mul_ne_zero n2 n1)
    · rw [Int.cast_mul, mul_comm]; exact div_self (mul_ne_zero n2 n1)

theorem ant_few_points_sentinel_witness :
    (0 : Int) < 1 ∧ (0 : Int) < 2
    ∧ (osc_features_ant_gene 0 1 2 3 demo_sqrt demo_sd flat_cl 1 (fun _ => 0)
        0 1 0 2 0 true false ant_state0).1.period_ant = 1
    ∧ (osc_features_ant_gene 0 1 2 3 demo_sqrt demo_sd flat_cl 1 (fun _ => 0)
        0 1 0 2 0 true false ant_state0).1.amplitude_ant = 1 :=
  ⟨by decide, by decide,
    (ant_few_points_sentinel 0 1 2 3 demo_sqrt demo_sd flat_cl 1 (fun _ => 0)
      0 1 0 2 0 true false ant_state0 (by decide) (by decide)
      (by
        intro c l h1 h2 h3 h4
        have hc : c = 0 ∨ c = 1 := by omega
        have hl : l = 0 := by omega
        subst hl
        rcases hc with rfl | rfl <;> decide!)).2⟩

/-- C13: the oscillation quality test of one cell with `width_total >= 2` passes if and
only if the cell has at least 3 period samples and every sample `i >= 1` that comes
before the first sample (of index `>= 1`) whose position exceeds
`0.85 * (width_total - 1)` has its ratio `periods[i] / periods[0]` strictly between
`0.9 * c` and `1.1 * c`, with `c` the ratio of the curve at the two normalised
positions. A cell with fewer than 3 period samples fails, and so does a cell with a
tested ratio outside the tolerance. -/
theorem giudicelli_passes_iff (sd : sim_data) (s : osc_state) (hW : 2 ≤ sd.width_total)
    (hpos : ∀ i : Nat, i < s.pers → 0 ≤ s.per_pos i) :
    (giudicelli_test sd s = true ↔
      3 ≤ s.pers ∧ ∀ i : Nat, 1 ≤ i → i < s.pers →
        (∀ k : Nat, 1 ≤ k → k ≤ i → s.per_pos k ≤ 0.85 * ((sd.width_total : ℚ) - 1)) →
        (0.9 * (curve ⌊100 * s.per_pos i / ((sd.width_total : ℚ) - 1)⌋
                / curve ⌊100 * s.per_pos 0 / ((sd.width_total : ℚ) - 1)⌋)
            < s.periods i / s.periods 0
          ∧ s.periods i / s.periods 0
            < 1.1 * (curve ⌊100 * s.per_pos i / ((sd.width_total : ℚ) - 1)⌋
                / curve ⌊100 * s.per_pos 0 / ((sd.width_total : ℚ) - 1)⌋)))
    ∧ (s.pers < 3 → giudicelli_test sd s = false)
    ∧ (∀ i : Nat, 1 ≤ i → i < s.pers →
        (∀ k : Nat, 1 ≤ k → k ≤ i → s.per_pos k ≤ 0.85 * ((sd.width_total : ℚ) - 1)) →
        ¬ (0.9 * (curve ⌊100 * s.per_pos i / ((sd.width_total : ℚ) - 1)⌋
                / curve ⌊100 * s.per_pos 0 / ((sd.width_total : ℚ) - 1)⌋)
            < s.periods i / s.periods 0
          ∧ s.periods i / s.periods 0
            < 1.1 * (curve ⌊100 * s.per_pos i / ((sd.width_total : ℚ) - 1)⌋
                / curve ⌊100 * s.per_pos 0 / ((sd.width_total : ℚ) - 1)⌋)) →
        giudicelli_test sd s = false) := by
  have hcast : ((sd.width_total - 1 : Int) : ℚ) = (sd.width_total : ℚ) - 1 := by push_cast; rfl
  have key : giudicelli_test sd s = true ↔
      3 ≤ s.pers ∧ ∀ i : Nat, 1 ≤ i → i < s.pers →
        (∀ k : Nat, 1 ≤ k → k ≤ i → s.per_pos k ≤ 0.85 * ((sd.width_total : ℚ) - 1)) →
        (0.9 * (curve ⌊100 * s.per_pos i / ((sd.width_total : ℚ) - 1)⌋
                / curve ⌊100 * s.per_pos 0 / ((sd.width_total : ℚ) - 1)⌋)
            < s.periods i / s.periods 0
          ∧ s.periods i / s.periods 0
            < 1.1 * (curve ⌊100 * s.per_pos i / ((sd.width_total : ℚ) - 1)⌋
                / curve ⌊100 * s.per_pos 0 / ((sd.width_total : ℚ) - 1)⌋)) := by
    rw [giudicelli_test_eq_true]
    constructor
    · rintro ⟨h3, h⟩
      refine ⟨h3, fun i h1 h2 hno => ?_⟩
      have := h i h1 h2 (fun k hk1 hk2 => by
        rw [hcast]; exact not_lt.mpr (hno k hk1 hk2))
      rw [percentage_eq_floor sd _ hW (hpos i h2),
        percentage_eq_floor sd _ hW (hpos 0 (by omega)), mul_div_assoc (0.9 : ℚ), mul_div_assoc (1.1 : ℚ)] at this
      exact this
    · rintro ⟨h3, h⟩
      refine ⟨h3, fun i h1 h2 hno => ?_⟩
      have := h i h1 h2 (fun k hk1 hk2 => by
        have := hno k hk1 hk2
        rw [hcast] at this; exact not_lt.mp this)
      rw [percentage_eq_floor sd _ hW (hpos i h2),
        percentage_eq_floor sd _ hW (hpos 0 (by omega)), mul_div_assoc (0.9 : ℚ), mul_div_assoc (1.1 : ℚ)]
      exact this
  refine ⟨key, fun h3 => ?_, fun i h1 h2 hno hout => ?_⟩
  · rw [← Bool.not_eq_true, key]
    rintro ⟨h, _⟩
    omega
  · rw [← Bool.not_eq_true, key]
    rintro ⟨_, h⟩
    exact hout (h i h1 h2 hno)

theorem giudicelli_passes_iff_witness :
    2 ≤ curve_sd.width_total
    ∧ (∀ i : Nat, i < curve_state.pers → 0 ≤ curve_state.per_pos i)
    ∧ giudicelli_test curve_sd curve_state = true :=
  ⟨by decide, fun i _ => Nat.cast_nonneg i,
    (giudicelli_passes_iff curve_sd curve_state (by decide)
      (fun i _ => Nat.cast_nonneg i)).1.mpr
      ⟨by decide, fun i h1 h2 _ => by
        have hi : i = 1 ∨ i = 2 := by
          have : i < 3 := h2
          omega
        rcases hi with rfl | rfl <;> decide!⟩⟩

/-- C14: a cell with at least 3 period samples whose positions lie in
`[0, width_total - 1]` and whose ratios `periods[i] / periods[0]` equal the ratio of
the curve at the same normalised positions, for every tested sample `i`, passes the
oscillation quality test. -/
theorem giudicelli_curve_passes (sd : sim_data) (s : osc_state) (hW : 2 ≤ sd.width_total)
    (h3 : 3 ≤ s.pers)
    (hpos : ∀ i : Nat, i < s.pers →
      0 ≤ s.per_pos i ∧ s.per_pos i ≤ (sd.width_total : ℚ) - 1)
    (hratio : ∀ i : Nat, 1 ≤ i → i < s.pers →
      (∀ k : Nat, 1 ≤ k → k ≤ i → s.per_pos k ≤ 0.85 * ((sd.width_total : ℚ) - 1)) →
      s.periods i / s.periods 0
        = curve ⌊100 * s.per_pos i / ((sd.width_total : ℚ) - 1)⌋
          / curve ⌊100 * s.per_pos 0 / ((sd.width_total : ℚ) - 1)⌋) :
    giudicelli_test sd s = true := by
  have hcast : ((sd.width_total - 1 : Int) : ℚ) = (sd.width_total : ℚ) - 1 := by push_cast; rfl
  have hW1 : (0 : ℚ) < (sd.width_total : ℚ) - 1 := by
    have : (0 : Int) < sd.width_total - 1 := by omega
    rw [← hcast]; exact_mod_cast this
  have hpct : ∀ i : Nat, i < s.pers →
      0 < curve ⌊100 * s.per_pos i / ((sd.width_total : ℚ) - 1)⌋ := by
    intro i hi
    obtain ⟨p0, p1⟩ := hpos i hi
    apply curve_pos
    · exact Int.floor_nonneg.mpr (div_nonneg (mul_nonneg (by norm_num) p0) (le_of_lt hW1))
    · have : 100 * s.per_pos i / ((sd.width_total : ℚ) - 1) ≤ ((100 : Int) : ℚ) := by
        rw [div_le_iff₀ hW1]
        push_cast
        nlinarith
      exact Int.cast_le.mp (le_trans (Int.floor_le _) this)
  rw [giudicelli_test_eq_true]
  refine ⟨h3, fun i h1 h2 hno => ?_⟩
  have hr := hratio i h1 h2 (fun k hk1 hk2 => by
    have := hno k hk1 hk2
    rw [hcast] at this; exact not_lt.mp this)
  have hc : 0 < curve ⌊100 * s.per_pos i / ((sd.width_total : ℚ) - 1)⌋
      / curve ⌊100 * s.per_pos 0 / ((sd.width_total : ℚ) - 1)⌋ :=
    div_pos (hpct i h2) (hpct 0 (by omega))
  rw [percentage_eq_floor sd _ hW (hpos i h2).1,
    percentage_eq_floor sd _ hW (hpos 0 (by omega)).1, mul_div_assoc (0.9 : ℚ), mul_div_assoc (1.1 : ℚ), hr]
  constructor <;> nlinarith

theorem giudicelli_curve_passes_witness :
    2 ≤ curve_sd.width_total ∧ 3 ≤ curve_state.pers
    ∧ (∀ i : Nat, i < curve_state.pers →
        0 ≤ curve_state.per_pos i ∧ curve_state.per_pos i ≤ (curve_sd.width_total : ℚ) - 1)
    ∧ giudicelli_test curve_sd curve_state = true :=
  have hpos : ∀ i : Nat, i < curve_state.pers →
      0 ≤ curve_state.per_pos i ∧ curve_state.per_pos i ≤ (curve_sd.width_total : ℚ) - 1 := by
    intro i h
    have hi : i = 0 ∨ i = 1 ∨ i = 2 := by
      have : i < 3 := h
      omega
    rcases hi with rfl | rfl | rfl <;> decide!
  ⟨by decide, by decide, hpos,
    giudicelli_curve_passes curve_sd curve_state (by decide) (by decide) hpos
      (fun i h1 h2 _ => by
        have hi : i = 1 ∨ i = 2 := by
          have : i < 3 := h2
          omega
        rcases hi with rfl | rfl <;> decide!)⟩

/-- C15 fails on a region of one cell: no cell passes the oscillation quality test
(the only cell has no critical point), 0 is less than 70% of 1 cell, and yet
`conds_passed[SEC_ANT][0]` is set to true, because the threshold `0.7 * 1 * 1` is
truncated to the `int` 0. -/
theorem ant_threshold_truncated :
    flat_pass.2.num_cells_passed = 0
    ∧ ¬ ((flat_pass.2.num_cells_passed : ℚ) ≥ 0.7 * (((1 - 0) * (1 - 0) : Int) : ℚ))
    ∧ double_to_int (0.7 * (((1 - 0 : Int) : Int) : ℚ) * (((1 - 0 : Int) : Int) : ℚ)) = 0
    ∧ flat_pass.1.conds_passed_ant0 = true := by
  decide!

/-- C16: the Pearson correlation of a sequence with itself is 1 on every sub-range
(over the reals). -/
theorem pearson_self (x : Int → ℝ) (start end_ : Int) :
    pearson_correlation Real.sqrt x x start end_ = 1 := by
  rw [pearson_correlation_eq Real.sqrt x x start end_ _ _ rfl rfl]
  split_ifs with h
  · rfl
  · have hs := (not_or.mp h).1
    have hnn : 0 ≤ ∑ i in Finset.range (end_ - start).toNat,
        (x (start + (i : Int))
            - (∑ i in Finset.range (end_ - start).toNat, x (start + (i : Int)))
              / ((end_ - start : Int) : ℝ))
          * (x (start + (i : Int))
            - (∑ i in Finset.range (end_ - start).toNat, x (start + (i : Int)))
              / ((end_ - start : Int) : ℝ)) :=
      Finset.sum_nonneg (fun i _ => mul_self_nonneg _)
    rw [Real.mul_self_sqrt hnn]
    apply div_self
    intro h0
    rw [h0, Real.sqrt_zero] at hs
    exact hs rfl

/-- C17, as stated, fails: for the constant sequence 1 on the sub-range `[0, 3)` the
correlation of `x` with `-x` is 1, not -1 (zero variance). -/
theorem pearson_neg_of_constant :
    pearson_correlation Real.sqrt (fun _ => (1 : ℝ)) (fun _ => -(1 : ℝ)) 0 3 = 1
    ∧ pearson_correlation Real.sqrt (fun _ => (1 : ℝ)) (fun _ => -(1 : ℝ)) 0 3 ≠ -1 := by
  have h : pearson_correlation Real.sqrt (fun _ => (1 : ℝ)) (fun _ => -(1 : ℝ)) 0 3 = 1 :=
    pearson_of_const_left Real.sqrt Real.sqrt_zero _ _ 0 3 1 (fun _ _ _ => rfl)
  refine ⟨h, ?_⟩
  rw [h]
  norm_num

/-- C17, amended: for a sequence `x` that is not constant on the sub-range, the
Pearson correlation of `x` with its element-wise negation is -1 (over the reals). -/
theorem pearson_neg (x : Int → ℝ) (start end_ : Int)
    (hx : ∃ j k : Int, start ≤ j ∧ j < end_ ∧ start ≤ k ∧ k < end_ ∧ x j ≠ x k) :
    pearson_correlation Real.sqrt x (fun j => -x j) start end_ = -1 := by
  have hya : -((∑ i in Finset.range (end_ - start).toNat, x (start + (i : Int)))
        / ((end_ - start : Int) : ℝ))
      = (∑ i in Finset.range (end_ - start).toNat, (fun j => -x j) (start + (i : Int)))
        / ((end_ - start : Int) : ℝ) := by
    simp only [Finset.sum_neg_distrib, neg_div]
  rw [pearson_correlation_eq Real.sqrt x (fun j => -x j) start end_ _ _ rfl hya]
  have e1 : ∀ i : Nat,
      (-x (start + (i : Int))
          - -((∑ i in Finset.range (end_ - start).toNat, x (start + (i : Int)))
            / ((end_ - start : Int) : ℝ)))
        * (-x (start + (i : Int))
          - -((∑ i in Finset.range (end_ - start).toNat, x (start + (i : Int)))
            / ((end_ - start : Int) : ℝ)))
      = (x (start + (i : Int))
          - (∑ i in Finset.range (end_ - start).toNat, x (start + (i : Int)))
            / ((end_ - start : Int) : ℝ))
        * (x (start + (i : Int))
          - (∑ i in Finset.range (end_ - start).toNat, x (start + (i : Int)))
            / ((end_ - start : Int) : ℝ)) := fun i => by ring
  have e2 : ∀ i : Nat,
      (x (start + (i : Int))
          - (∑ i in Finset.range (end_ - start).toNat, x (start + (i : Int)))
            / ((end_ - start : Int) : ℝ))
        * (-x (start + (i : Int))
          - -((∑ i in Finset.range (end_ - start).toNat, x (start + (i : Int)))
            / ((end_ - start : Int) : ℝ)))
      = -((x (start + (i : Int))
          - (∑ i in Finset.range (end_ - start).toNat, x (start + (i : Int)))
            / ((end_ - start : Int) : ℝ))
        * (x (start + (i : Int))
          - (∑ i in Finset.range (end_ - start).toNat, x (start + (i : Int)))
            / ((end_ - start : Int) : ℝ))) := fun i => by ring
  simp only [e1, e2, Finset.sum_neg_distrib]
  have hnn : 0 ≤ ∑ i in Finset.range (end_ - start).toNat,
      (x (start + (i : Int))
          - (∑ i in Finset.range (end_ - start).toNat, x (start + (i : Int)))
            / ((end_ - start : Int) : ℝ))
        * (x (start + (i : Int))
          - (∑ i in Finset.range (end_ - start).toNat, x (start + (i : Int)))
            / ((end_ - start : Int) : ℝ)) :=
    Finset.sum_nonneg (fun i _ => mul_self_nonneg _)
  have hne : ∑ i in Finset.range (end_ - start).toNat,
      (x (start + (i : Int))
          - (∑ i in Finset.range (end_ - start).toNat, x (start + (i : Int)))
            / ((end_ - start : Int) : ℝ))
        * (x (start + (i : Int))
          - (∑ i in Finset.range (end_ - start).toNat, x (start + (i : Int)))
            / ((end_ - start : Int) : ℝ)) ≠ 0 := by
    intro h0
    rw [Finset.sum_eq_zero_iff_of_nonneg (fun i _ => mul_self_nonneg _)] at h0
    obtain ⟨j, k, hj1, hj2, hk1, hk2, hjk⟩ := hx
    have hj := h0 (j - start).toNat (Finset.mem_range.mpr (by omega))
    have hk := h0 (k - start).toNat (Finset.mem_range.mpr (by omega))
    rw [Int.toNat_of_nonneg (by omega), mul_self_eq_zero, sub_eq_zero] at hj hk
    apply hjk
    have a1 : start + (j - start) = j := by ring
    have a2 : start + (k - start) = k := by ring
    rw [a1] at hj
    rw [a2] at hk
    rw [hj, hk]
  have hsq : Real.sqrt (∑ i in Finset.range (end_ - start).toNat,
      (x (start + (i : Int))
          - (∑ i in Finset.range (end_ - start).toNat, x (start + (i : Int)))
            / ((end_ - start : Int) : ℝ))
        * (x (start + (i : Int))
          - (∑ i in Finset.range (end_ - start).toNat, x (start + (i : Int)))
            / ((end_ - start : Int) : ℝ))) ≠ 0 := by
    intro h0
    rw [Real.sqrt_eq_zero hnn] at h0
    exact hne h0
  rw [if_neg (by simp only [or_self]; exact hsq), Real.mul_self_sqrt hnn, neg_div, div_self hne]

theorem pearson_neg_witness :
    (∃ j k : Int, (0 : Int) ≤ j ∧ j < 3 ∧ (0 : Int) ≤ k ∧ k < 3
      ∧ (fun j : Int => (j : ℝ)) j ≠ (fun j : Int => (j : ℝ)) k)
    ∧ pearson_correlation Real.sqrt (fun j : Int => (j : ℝ))
        (fun j => -(fun j : Int => (j : ℝ)) j) 0 3 = -1 :=
  ⟨⟨0, 1, by norm_num⟩,
    pearson_neg (fun j : Int => (j : ℝ)) 0 3 ⟨0, 1, by norm_num⟩⟩

/-- In exact arithmetic, when `x` or `y` is constant on the sub-range (zero variance),
also when the other sequence varies, `pearson_correlation` returns exactly 1; `sqrt` is
any function with `sqrt 0 = 0`, in particular the real square root. -/
theorem pearson_zero_variance {K : Type} [LinearOrderedField K] (sqrt : K → K)
    (h0 : sqrt 0 = 0) (x y : Int → K) (start end_ : Int)
    (h : (∃ c : K, ∀ j : Int, start ≤ j → j < end_ → x j = c)
      ∨ (∃ c : K, ∀ j : Int, start ≤ j → j < end_ → y j = c)) :
    pearson_correlation sqrt x y start end_ = 1 := by
  rcases h with ⟨c, hc⟩ | ⟨c, hc⟩
  · exact pearson_of_const_left sqrt h0 x y start end_ c hc
  · exact pearson_of_const_right sqrt h0 x y start end_ c hc

theorem pearson_zero_variance_witness :
    Real.sqrt 0 = 0
    ∧ ((∃ c : ℝ, ∀ j : Int, (0 : Int) ≤ j → j < 3 → (fun _ : Int => (2 : ℝ)) j = c)
      ∨ (∃ c : ℝ, ∀ j : Int, (0 : Int) ≤ j → j < 3 → (fun j : Int => (j : ℝ)) j = c))
    ∧ pearson_correlation Real.sqrt (fun _ : Int => (2 : ℝ)) (fun j : Int => (j : ℝ)) 0 3 = 1 :=
  ⟨Real.sqrt_zero, Or.inl ⟨2, fun _ _ _ => rfl⟩,
    pearson_zero_variance Real.sqrt Real.sqrt_zero (fun _ : Int => (2 : ℝ))
      (fun j : Int => (j : ℝ)) 0 3 (Or.inl ⟨2, fun _ _ _ => rfl⟩)⟩

/-- C19: when the tissue height is 1, `ant_sync` returns 1 for every gene, time step
and concentration store. -/
theorem ant_sync_single_row (sqrt : ℚ → ℚ) (sd : sim_data) (cl : con_levels)
    (con time : Int) (h : sd.height = 1) :
    ant_sync sqrt sd cl con time = 1 := by
  unfold ant_sync
  rw [if_pos h]

theorem ant_sync_single_row_witness :
    demo_sd.height = 1 ∧ ant_sync demo_sqrt demo_sd demo_cl 3 5 = 1 :=
  ⟨by decide, ant_sync_single_row demo_sqrt demo_sd demo_cl 3 5 (by decide)⟩

/-- C20: for a height `H >= 2`, `ant_sync(con, time)` is `1 / (H - 1)` times the sum
over the rows `x = 1 .. H - 1` of the Pearson correlation of the profile of row 0 with
the profile of row `x` over `[lo, width_total)`. For the genes 3 and 4 (and a valid
active start `p`), `lo = floor(0.6 * width_total)` and the profile at `y` reads the
column `(p - y) mod width_total`; for every other gene `lo = 0` and the profile at `y`
reads the column `y`. -/
theorem ant_sync_mean (sqrt : ℚ → ℚ) (sd : sim_data) (cl : con_levels) (con time : Int)
    (hH : 2 ≤ sd.height) :
    (con = 3 ∨ con = 4 → 0 ≤ cl.active_start_record time →
      cl.active_start_record time < sd.width_total →
      ant_sync sqrt sd cl con time
        = 1 / ((sd.height : ℚ) - 1)
          * ∑ x in Finset.Ico (1 : Int) sd.height,
              pearson_correlation sqrt
                (fun y => cl.cons con time ((cl.active_start_record time - y) % sd.width_total))
                (fun y => cl.cons con time
                  (x * sd.width_total + (cl.active_start_record time - y) % sd.width_total))
                ⌊0.6 * (sd.width_total : ℚ)⌋ sd.width_total)
    ∧ (¬ (con = 3 ∨ con = 4) →
      ant_sync sqrt sd cl con time
        = 1 / ((sd.height : ℚ) - 1)
          * ∑ x in Finset.Ico (1 : Int) sd.height,
              pearson_correlation sqrt
                (fun y => cl.cons con time y)
                (fun y => cl.cons con time (x * sd.width_total + y))
                0 sd.width_total) := by
  have hcast : ((sd.height - 1 : Int) : ℚ) = (sd.height : ℚ) - 1 := by push_cast; rfl
  have hne : sd.height ≠ 1 := by omega
  constructor
  · intro hc hp0 hp1
    have hW : (0 : ℚ) ≤ 0.6 * (sd.width_total : ℚ) := by
      have : (0 : ℚ) ≤ (sd.width_total : ℚ) := by
        have : (0 : Int) ≤ sd.width_total := by omega
        exact_mod_cast this
      nlinarith
    rw [ant_sync_eq_sum sqrt sd cl con time hne, if_pos hc, double_to_int_of_nonneg hW, hcast,
      div_eq_mul_inv, mul_comm, one_div]
    congr 1
    apply Finset.sum_congr rfl
    intro x _
    apply pearson_congr
    · intro y hy0 hy1
      have hy : 0 ≤ y := le_trans (Int.floor_nonneg.mpr hW) hy0
      unfold ant_sync_first_row ant_sync_offset
      rw [if_pos hc, doubled_offset_eq_mod sd _ y hp0 hp1 hy hy1]
    · intro y hy0 hy1
      have hy : 0 ≤ y := le_trans (Int.floor_nonneg.mpr hW) hy0
      unfold ant_sync_cur_row ant_sync_cell ant_sync_offset
      rw [if_pos hc, add_assoc, doubled_offset_eq_mod sd _ y hp0 hp1 hy hy1]
  · intro hc
    rw [ant_sync_eq_sum sqrt sd cl con time hne, if_neg hc, hcast, div_eq_mul_inv, mul_comm,
      one_div]
    congr 1
    apply Finset.sum_congr rfl
    intro x _
    apply pearson_congr
    · intro y _ _
      unfold ant_sync_first_row ant_sync_offset
      rw [if_neg hc, add_zero]
    · intro y _ _
      unfold ant_sync_cur_row ant_sync_cell ant_sync_offset
      rw [if_neg hc, add_zero]

theorem ant_sync_mean_witness :
    2 ≤ curve_sd.height
    ∧ (¬ ((1 : Int) = 3 ∨ (1 : Int) = 4) →
      ant_sync demo_sqrt curve_sd demo_cl 1 5
        = 1 / ((curve_sd.height : ℚ) - 1)
          * ∑ x in Finset.Ico (1 : Int) curve_sd.height,
              pearson_correlation demo_sqrt
                (fun y => demo_cl.cons 1 5 y)
                (fun y => demo_cl.cons 1 5 (x * curve_sd.width_total + y))
                0 curve_sd.width_total) :=
  ⟨by decide, (ant_sync_mean demo_sqrt curve_sd demo_cl 1 5 (by decide)).2⟩

/-! ## The wave scan -/

theorem wave_start_not_end (conc : Int → ℚ) (thresh : ℚ) (x : Int)
    (h : wave_start_cond conc thresh x) : ¬ wave_end_cond conc thresh x := by
  intro h2
  exact absurd h.1 (not_le.mpr h2.1)

theorem wave_body_start (conc : Int → ℚ) (thresh : ℚ) (x : Int) (s : wave_state)
    (h : wave_start_cond conc thresh x) (h3 : s.num_waves ≠ 3) :
    wave_body conc thresh x s =
      ({ s with waves := set_first s.waves s.num_waves (if x = 0 then 0 else x - 1) }, false) := by
  unfold wave_body
  simp only [if_pos h, if_neg h3, if_neg (wave_start_not_end conc thresh x h)]
  simp

theorem wave_body_end (conc : Int → ℚ) (thresh : ℚ) (x : Int) (s : wave_state)
    (h : wave_end_cond conc thresh x) (h3 : s.num_waves ≠ 3) :
    wave_body conc thresh x s =
      ({ num_waves := s.num_waves + 1, waves := set_second s.waves s.num_waves x }, false) := by
  have hs : ¬ wave_start_cond conc thresh x := fun hs => wave_start_not_end conc thresh x hs h
  unfold wave_body
  simp only [if_neg hs, if_pos h, if_neg h3]
  simp

theorem wave_body_overflow (conc : Int → ℚ) (thresh : ℚ) (x : Int) (s : wave_state)
    (h : wave_start_cond conc thresh x ∨ wave_end_cond conc thresh x) (h3 : s.num_waves = 3) :
    wave_body conc thresh x s = ({ s with num_waves := 4 }, true) := by
  unfold wave_body
  rcases h with h | h
  · simp [if_pos h, h3]
  · have hs : ¬ wave_start_cond conc thresh x := fun hs => wave_start_not_end conc thresh x hs h
    simp [if_neg hs, if_pos h, h3]

theorem wave_body_none (conc : Int → ℚ) (thresh : ℚ) (x : Int) (s : wave_state)
    (hs : ¬ wave_start_cond conc thresh x) (he : ¬ wave_end_cond conc thresh x) :
    wave_body conc thresh x s = (s, false) := by
  unfold wave_body
  simp [if_neg hs, if_neg he]

theorem wave_scan_upto_zero (conc : Int → ℚ) (thresh : ℚ) (init : wave_state) :
    wave_scan_upto conc thresh init 0 = (init, false) := rfl

theorem wave_scan_upto_succ (conc : Int → ℚ) (thresh : ℚ) (init : wave_state) (n : Nat) :
    wave_scan_upto conc thresh init (n + 1) =
      if (wave_scan_upto conc thresh init n).2 then wave_scan_upto conc thresh init n
      else wave_body conc thresh (n : Int) (wave_scan_upto conc thresh init n).1 := by
  unfold wave_scan_upto
  rw [List.range_succ, List.foldl_append]
  rfl

/-- A position without a threshold crossing leaves the scan as it is. -/
theorem wave_scan_upto_skip (conc : Int → ℚ) (thresh : ℚ) (init : wave_state) (n m : Nat)
    (hnm : n ≤ m)
    (h : ∀ x : Nat, n ≤ x → x < m →
      ¬ wave_start_cond conc thresh (x : Int) ∧ ¬ wave_end_cond conc thresh (x : Int)) :
    wave_scan_upto conc thresh init m = wave_scan_upto conc thresh init n := by
  induction m with
  | zero =>
    have : n = 0 := by omega
    rw [this]
  | succ k ih =>
    by_cases hk : n ≤ k
    · rw [wave_scan_upto_succ, ih hk (fun x h1 h2 => h x h1 (by omega))]
      by_cases hb : (wave_scan_upto conc thresh init n).2 = true
      · rw [if_pos hb]
      · rw [if_neg hb, wave_body_none conc thresh _ _ (h k hk (by omega)).1 (h k hk (by omega)).2]
        have hb2 : (wave_scan_upto conc thresh init n).2 = false := by simpa using hb
        exact Prod.ext rfl hb2.symm
    · have : n = k + 1 := by omega
      rw [this]

/-- The running maximum of the threshold loop is the largest value of the profile,
when that value is not negative. -/
theorem wave_thresh_eq (sd : sim_data) (conc : Int → ℚ) (m : ℚ) (hm0 : 0 ≤ m)
    (hmax : ∀ x : Int, 0 ≤ x → x < sd.width_total → conc x ≤ m)
    (hatt : ∃ x : Int, 0 ≤ x ∧ x < sd.width_total ∧ conc x = m) :
    wave_thresh sd conc = m / 2 := by
  unfold wave_thresh
  have key : ∀ n : Nat,
      (∀ x : Nat, x < n → conc (x : Int) ≤
        (List.range n).foldl (fun thresh (x : Nat) => if conc x > thresh then conc x else thresh)
          (0 : ℚ)) ∧
      ((List.range n).foldl (fun thresh (x : Nat) => if conc x > thresh then conc x else thresh)
          (0 : ℚ) = 0 ∨
        ∃ x : Nat, x < n ∧
          (List.range n).foldl (fun thresh (x : Nat) => if conc x > thresh then conc x else thresh)
            (0 : ℚ) = conc (x : Int)) := by
    intro n
    induction n with
    | zero => simp
    | succ k ih =>
      rw [List.range_succ, List.foldl_append]
      simp only [List.foldl_cons, List.foldl_nil]
      generalize (List.range k).foldl
        (fun thresh (x : Nat) => if conc x > thresh then conc x else thresh) (0 : ℚ) = F at ih
      obtain ⟨ih1, ih2⟩ := ih
      by_cases hc : conc (k : Int) > F
      · rw [if_pos hc]
        refine ⟨fun x hx => ?_, Or.inr ⟨k, by omega, rfl⟩⟩
        by_cases hxk : x = k
        · rw [hxk]
        · exact le_trans (ih1 x (by omega)) (le_of_lt hc)
      · rw [if_neg hc]
        refine ⟨fun x hx => ?_, ?_⟩
        · by_cases hxk : x = k
          · rw [hxk]; exact not_lt.mp hc
          · exact ih1 x (by omega)
        · rcases ih2 with h | ⟨x, hx, h⟩
          · exact Or.inl h
          · exact Or.inr ⟨x, by omega, h⟩
  obtain ⟨k1, k2⟩ := key sd.width_total.toNat
  generalize (List.range sd.width_total.toNat).foldl
    (fun thresh (x : Nat) => if conc x > thresh then conc x else thresh) (0 : ℚ) = F at k1 k2
  obtain ⟨x0, hx0, hx1, hx2⟩ := hatt
  have hF1 : m ≤ F := by
    have := k1 x0.toNat (by omega)
    rw [Int.toNat_of_nonneg hx0, hx2] at this
    exact this
  have hF2 : F ≤ m := by
    rcases k2 with h | ⟨x, hx, h⟩
    · rw [h]; exact hm0
    · rw [h]; exact hmax x (by omega) (by omega)
  rw [le_antisymm hF2 hF1]

/-- The scan of a profile whose positions at or above the threshold are the two runs
`a1..b1` and `a2..b2`, both ended before the last position. -/
theorem wave_scan_upto_two_runs (conc : Int → ℚ) (t : ℚ) (init : wave_state) (W a1 b1 a2 b2 : Nat)
    (hn : init.num_waves = 0)
    (h2 : a1 ≤ b1) (h3 : b1 + 1 < a2) (h4 : a2 ≤ b2) (h5 : b2 + 1 < W)
    (hruns : ∀ x : Nat, x < W →
      (t ≤ conc (x : Int) ↔ (a1 ≤ x ∧ x ≤ b1) ∨ (a2 ≤ x ∧ x ≤ b2))) :
    (wave_scan_upto conc t init W).1.num_waves = 2 ∧
    (wave_scan_upto conc t init W).1.waves 0 =
      (if a1 = 0 then 0 else (a1 : Int) - 1, (b1 : Int) + 1) ∧
    (wave_scan_upto conc t init W).1.waves 1 = ((a2 : Int) - 1, (b2 : Int) + 1) := by
  -- the conditions of the body at each position
  have hprev : ∀ x : Nat, 0 < x → ((x : Int) - 1) = ((x - 1 : Nat) : Int) := by
    intro x hx; omega
  have hin : ∀ x : Nat, x < W → ((a1 ≤ x ∧ x ≤ b1) ∨ (a2 ≤ x ∧ x ≤ b2)) → t ≤ conc (x : Int) :=
    fun x hx h => (hruns x hx).mpr h
  have hout : ∀ x : Nat, x < W → ¬ ((a1 ≤ x ∧ x ≤ b1) ∨ (a2 ≤ x ∧ x ≤ b2)) →
      conc (x : Int) < t := fun x hx h => not_le.mp (fun h2 => h ((hruns x hx).mp h2))
  have hquiet_out : ∀ x : Nat, x < W → ¬ ((a1 ≤ x ∧ x ≤ b1) ∨ (a2 ≤ x ∧ x ≤ b2)) →
      (x = 0 ∨ ¬ ((a1 ≤ x - 1 ∧ x - 1 ≤ b1) ∨ (a2 ≤ x - 1 ∧ x - 1 ≤ b2))) →
      ¬ wave_start_cond conc t (x : Int) ∧ ¬ wave_end_cond conc t (x : Int) := by
    intro x hx h1 h2'
    refine ⟨fun hs => absurd hs.1 (not_le.mpr (hout x hx h1)), fun he => ?_⟩
    rcases h2' with h0 | hp
    · have := he.2.1
      omega
    · have hx0 : 0 < x := by have := he.2.1; omega
      have := he.2.2
      rw [hprev x hx0] at this
      exact absurd this (not_le.mpr (hout (x - 1) (by omega) hp))
  have hquiet_in : ∀ x : Nat, x < W → 0 < x → ((a1 ≤ x ∧ x ≤ b1) ∨ (a2 ≤ x ∧ x ≤ b2)) →
      ((a1 ≤ x - 1 ∧ x - 1 ≤ b1) ∨ (a2 ≤ x - 1 ∧ x - 1 ≤ b2)) →
      ¬ wave_start_cond conc t (x : Int) ∧ ¬ wave_end_cond conc t (x : Int) := by
    intro x hx hx0 h1 hp
    refine ⟨fun hs => ?_, fun he => absurd (hin x hx h1) (not_le.mpr he.1)⟩
    rcases hs.2 with h0 | hlt
    · omega
    · rw [hprev x hx0] at hlt
      exact absurd (hin (x - 1) (by omega) hp) (not_le.mpr hlt)
  have hstart : ∀ x : Nat, x < W → ((a1 ≤ x ∧ x ≤ b1) ∨ (a2 ≤ x ∧ x ≤ b2)) →
      (x = 0 ∨ ¬ ((a1 ≤ x - 1 ∧ x - 1 ≤ b1) ∨ (a2 ≤ x - 1 ∧ x - 1 ≤ b2))) →
      wave_start_cond conc t (x : Int) := by
    intro x hx h1 h2'
    refine ⟨hin x hx h1, ?_⟩
    rcases Nat.eq_zero_or_pos x with h0 | hx0
    · left; omega
    · right
      rw [hprev x hx0]
      rcases h2' with h0 | hp
      · omega
      · exact hout (x - 1) (by omega) hp
  have hend : ∀ x : Nat, x < W → 0 < x → ¬ ((a1 ≤ x ∧ x ≤ b1) ∨ (a2 ≤ x ∧ x ≤ b2)) →
      ((a1 ≤ x - 1 ∧ x - 1 ≤ b1) ∨ (a2 ≤ x - 1 ∧ x - 1 ≤ b2)) →
      wave_end_cond conc t (x : Int) := by
    intro x hx hx0 h1 hp
    refine ⟨hout x hx h1, by omega, ?_⟩
    rw [hprev x hx0]
    exact hin (x - 1) (by omega) hp
  -- the nine phases of the scan
  have p1 : wave_scan_upto conc t init a1 = (init, false) := by
    rw [wave_scan_upto_skip conc t init 0 a1 (by omega)
      (fun x _ hx => hquiet_out x (by omega) (by omega) (by omega)), wave_scan_upto_zero]
  have p2 : wave_scan_upto conc t init (a1 + 1) =
      ({ init with waves := set_first init.waves 0 (if a1 = 0 then 0 else (a1 : Int) - 1) },
        false) := by
    rw [wave_scan_upto_succ, p1]
    simp only [Bool.false_eq_true, if_false]
    rw [wave_body_start conc t _ _ (hstart a1 (by omega) (by omega) (by omega)) (by omega), hn]
    simp only [Nat.cast_eq_zero]
  have p3 : wave_scan_upto conc t init (b1 + 1) = wave_scan_upto conc t init (a1 + 1) :=
    wave_scan_upto_skip conc t init (a1 + 1) (b1 + 1) (by omega)
      (fun x h1 hx => hquiet_in x (by omega) (by omega) (by omega) (by omega))
  have p4 : wave_scan_upto conc t init (b1 + 1 + 1) =
      ({ num_waves := 1
         waves := set_second
          (set_first init.waves 0 (if a1 = 0 then 0 else (a1 : Int) - 1)) 0 ((b1 : Int) + 1) },
        false) := by
    rw [wave_scan_upto_succ, p3, p2]
    simp only [Bool.false_eq_true, if_false]
    rw [wave_body_end conc t _ _ (hend (b1 + 1) (by omega) (by omega) (by omega) (by omega))
      (by simp only; omega)]
    simp only [hn, Nat.cast_add, Nat.cast_one]
  have p5 : wave_scan_upto conc t init a2 = wave_scan_upto conc t init (b1 + 1 + 1) :=
    wave_scan_upto_skip conc t init (b1 + 1 + 1) a2 (by omega)
      (fun x h1 hx => hquiet_out x (by omega) (by omega) (by omega))
  have p6 : wave_scan_upto conc t init (a2 + 1) =
      ({ num_waves := 1
         waves := set_first (set_second
          (set_first init.waves 0 (if a1 = 0 then 0 else (a1 : Int) - 1)) 0 ((b1 : Int) + 1))
            1 ((a2 : Int) - 1) },
        false) := by
    rw [wave_scan_upto_succ, p5, p4]
    simp only [Bool.false_eq_true, if_false]
    rw [wave_body_start conc t _ _ (hstart a2 (by omega) (by omega) (by omega))
      (by simp only; omega)]
    have : ¬ ((a2 : Int) = 0) := by omega
    simp only [if_neg this]
  have p7 : wave_scan_upto conc t init (b2 + 1) = wave_scan_upto conc t init (a2 + 1) :=
    wave_scan_upto_skip conc t init (a2 + 1) (b2 + 1) (by omega)
      (fun x h1 hx => hquiet_in x (by omega) (by omega) (by omega) (by omega))
  have p8 : wave_scan_upto conc t init (b2 + 1 + 1) =
      ({ num_waves := 2
         waves := set_second (set_first (set_second
          (set_first init.waves 0 (if a1 = 0 then 0 else (a1 : Int) - 1)) 0 ((b1 : Int) + 1))
            1 ((a2 : Int) - 1)) 1 ((b2 : Int) + 1) },
        false) := by
    rw [wave_scan_upto_succ, p7, p6]
    simp only [Bool.false_eq_true, if_false]
    rw [wave_body_end conc t _ _ (hend (b2 + 1) (by omega) (by omega) (by omega) (by omega))
      (by simp only; omega)]
    simp only [Nat.cast_add, Nat.cast_one]
  have p9 : wave_scan_upto conc t init W = wave_scan_upto conc t init (b2 + 1 + 1) :=
    wave_scan_upto_skip conc t init (b2 + 1 + 1) W (by omega)
      (fun x h1 hx => hquiet_out x (by omega) (by omega) (by omega))
  rw [p9, p8]
  refine ⟨rfl, ?_, ?_⟩
  · simp [set_first, set_second]
  · simp [set_first, set_second]

theorem wave_testing_mesp_eq (CMMESPA CMMESPB : Int) (sd : sim_data) (cl : con_levels)
    (time active_start : Int) (md : ant_conds) :
    wave_testing_mesp CMMESPA CMMESPB sd cl time active_start md =
      mesp_pass CMMESPA CMMESPB sd cl time active_start
        (mesp_pass CMMESPA CMMESPB sd cl time active_start md 0) 1 := rfl

theorem wave_testing_mesp_c6 (CMMESPA CMMESPB : Int) (sd : sim_data) (cl : con_levels)
    (time active_start : Int) (md : ant_conds) :
    (wave_testing_mesp CMMESPA CMMESPB sd cl time active_start md).c6 =
      (md.c6 && decide
        (1 ≤ (wave_scan sd (wave_profile sd cl CMMESPA time active_start)
            (wave_thresh sd (wave_profile sd cl CMMESPA time active_start))).num_waves ∧
          (wave_scan sd (wave_profile sd cl CMMESPA time active_start)
            (wave_thresh sd (wave_profile sd cl CMMESPA time active_start))).num_waves ≤ 2)) := by
  rw [wave_testing_mesp_eq]
  simp [mesp_pass]

theorem wave_testing_mesp_c7 (CMMESPA CMMESPB : Int) (sd : sim_data) (cl : con_levels)
    (time active_start : Int) (md : ant_conds) :
    (wave_testing_mesp CMMESPA CMMESPB sd cl time active_start md).c7 =
      (md.c7 && decide
        (2 ≤ (wave_scan sd (wave_profile sd cl CMMESPB time active_start)
            (wave_thresh sd (wave_profile sd cl CMMESPB time active_start))).num_waves ∧
          (wave_scan sd (wave_profile sd cl CMMESPB time active_start)
            (wave_thresh sd (wave_profile sd cl CMMESPB time active_start))).num_waves ≤ 3)) := by
  rw [wave_testing_mesp_eq]
  simp [mesp_pass]

theorem wave_testing_mesp_calls_false (CMMESPA CMMESPB : Int) (sd : sim_data)
    (calls : List (con_levels × Int × Int)) (md : ant_conds) :
    (md.c6 = false → (wave_testing_mesp_calls CMMESPA CMMESPB sd calls md).c6 = false) ∧
    (md.c7 = false → (wave_testing_mesp_calls CMMESPA CMMESPB sd calls md).c7 = false) := by
  unfold wave_testing_mesp_calls
  induction calls generalizing md with
  | nil => exact ⟨fun h => h, fun h => h⟩
  | cons c cs ih =>
    rw [List.foldl_cons]
    refine ⟨fun h => (ih _).1 ?_, fun h => (ih _).2 ?_⟩
    · rw [wave_testing_mesp_c6, h]; rfl
    · rw [wave_testing_mesp_c7, h]; rfl

/-! ## The properties of the wave counter -/

/-- C21, as stated, fails: the profile 0,1,0,0,1,1 of the store `edge_cl` has the
maximum 1, and its positions with a value of at least 1/2 are the two disjoint maximal
runs 1..1 and 4..5; the second run reaches the last position, is never closed, and the
scan of `wave_testing` ends with `num_waves = 1`. -/
theorem wave_run_at_edge_not_counted :
    (∀ x : Int, 0 ≤ x → x < edge_sd.width_total →
      (1 / 2 ≤ wave_profile edge_sd edge_cl 1 0 0 x ↔ (x = 1 ∨ (4 ≤ x ∧ x ≤ 5)))) ∧
    wave_thresh edge_sd (wave_profile edge_sd edge_cl 1 0 0) = 1 / 2 ∧
    (wave_scan edge_sd (wave_profile edge_sd edge_cl 1 0 0)
      (wave_thresh edge_sd (wave_profile edge_sd edge_cl 1 0 0))).num_waves = 1 := by
  refine ⟨?_, by decide!, by decide!⟩
  intro x h0 h6
  have h6 : x < 6 := h6
  interval_cases x <;> decide!

/-- C21, amended: for a profile whose maximum `m` is not negative and whose positions
with a value of at least `m / 2` are exactly the two runs `a1..b1` and `a2..b2`, with
at least one position below `m / 2` between them and after the second run, the scan
of `wave_testing` ends with `num_waves = 2`; the first record is `(a1 - 1, b1 + 1)`
(with 0 for `a1 - 1` when `a1 = 0`) and the second record is `(a2 - 1, b2 + 1)`. -/
theorem wave_scan_two_runs (sd : sim_data) (conc : Int → ℚ) (m : ℚ) (a1 b1 a2 b2 : Int)
    (hm0 : 0 ≤ m)
    (hmax : ∀ x : Int, 0 ≤ x → x < sd.width_total → conc x ≤ m)
    (hatt : ∃ x : Int, 0 ≤ x ∧ x < sd.width_total ∧ conc x = m)
    (h1 : 0 ≤ a1) (h2 : a1 ≤ b1) (h3 : b1 + 1 < a2) (h4 : a2 ≤ b2)
    (h5 : b2 + 1 < sd.width_total)
    (hruns : ∀ x : Int, 0 ≤ x → x < sd.width_total →
      (m / 2 ≤ conc x ↔ (a1 ≤ x ∧ x ≤ b1) ∨ (a2 ≤ x ∧ x ≤ b2))) :
    (wave_scan sd conc (wave_thresh sd conc)).num_waves = 2 ∧
    (wave_scan sd conc (wave_thresh sd conc)).waves 0 =
      (if a1 = 0 then 0 else a1 - 1, b1 + 1) ∧
    (wave_scan sd conc (wave_thresh sd conc)).waves 1 = (a2 - 1, b2 + 1) := by
  rw [wave_thresh_eq sd conc m hm0 hmax hatt]
  lift a1 to Nat using h1
  lift b1 to Nat using (by omega)
  lift a2 to Nat using (by omega)
  lift b2 to Nat using (by omega)
  have key := wave_scan_upto_two_runs conc (m / 2) (wave_init sd) sd.width_total.toNat
    a1 b1 a2 b2 rfl (by omega) (by omega) (by omega) (by omega)
    (fun x hx => by
      have := hruns (x : Int) (by omega) (by omega)
      rw [this]
      omega)
  simp only [Nat.cast_eq_zero] at key
  simp only [Nat.cast_eq_zero]
  exact key

theorem wave_scan_two_runs_witness :
    (wave_scan inner_sd inner_conc (wave_thresh inner_sd inner_conc)).num_waves = 2 ∧
    (wave_scan inner_sd inner_conc (wave_thresh inner_sd inner_conc)).waves 0 =
      (if (1 : Int) = 0 then 0 else 1 - 1, 1 + 1) ∧
    (wave_scan inner_sd inner_conc (wave_thresh inner_sd inner_conc)).waves 1 =
      (4 - 1, 5 + 1) :=
  wave_scan_two_runs inner_sd inner_conc 1 1 1 4 5 (by decide)
    (fun x _ _ => by unfold inner_conc; split_ifs <;> norm_num)
    ⟨1, by decide, by decide, by decide!⟩
    (by decide) (by decide) (by decide) (by decide) (by decide)
    (fun x h0 h7 => by
      have h7 : x < 7 := h7
      interval_cases x <;> simp [inner_conc] <;> norm_num)

/-- C23 fails on the code: for the store `mid_cl` the scan of `wave_testing` closes the one
segment with the start 6 and the end 9; its midpoint `(6 + 9) / 2 = 7` is greater than
`width_initial = 2` and less than `0.8 * width_total = 8`, yet `wave_testing` hands the
default posterior length 5 (not `9 - 6 + 1 = 4`) to `md.wave_test`, because the value it
tests is `(9 - 6) / 2 = 1`. -/
theorem wave_testing_tests_half_length :
    (wave_scan mid_sd (wave_profile mid_sd mid_cl 1 0 0)
      (wave_thresh mid_sd (wave_profile mid_sd mid_cl 1 0 0))).num_waves = 1 ∧
    (wave_scan mid_sd (wave_profile mid_sd mid_cl 1 0 0)
      (wave_thresh mid_sd (wave_profile mid_sd mid_cl 1 0 0))).waves 0 = (6, 9) ∧
    (Int.tdiv (6 + 9) 2 > mid_sd.width_initial ∧
      ((Int.tdiv (6 + 9) 2 : Int) : ℚ) < 0.8 * (mid_sd.width_total : ℚ)) ∧
    wave_testing (fun _ _ wlength_post _ => wlength_post) mid_sd mid_cl 0 1 0 = 5 ∧
    wave_testing (fun _ _ _ wlength_ant => wlength_ant) mid_sd mid_cl 0 1 0 = 2 := by
  decide!

/-- C24: after a call of `wave_testing_mesp` the flag 6 is its value before the call
AND `1 ≤ n ≤ 2` for the wave count `n` of the `CMMESPA` profile, and the flag 7 is its
value before the call AND `2 ≤ n ≤ 3` for the wave count `n` of the `CMMESPB` profile;
a count of 4 makes the flag false, and a flag that is false stays false over any list
of calls. -/
theorem wave_testing_mesp_count_flags (CMMESPA CMMESPB : Int) (sd : sim_data) (cl : con_levels)
    (time active_start : Int) (md : ant_conds) :
    (wave_testing_mesp CMMESPA CMMESPB sd cl time active_start md).c6 =
      (md.c6 && decide
        (1 ≤ (wave_scan sd (wave_profile sd cl CMMESPA time active_start)
            (wave_thresh sd (wave_profile sd cl CMMESPA time active_start))).num_waves ∧
          (wave_scan sd (wave_profile sd cl CMMESPA time active_start)
            (wave_thresh sd (wave_profile sd cl CMMESPA time active_start))).num_waves ≤ 2)) ∧
    (wave_testing_mesp CMMESPA CMMESPB sd cl time active_start md).c7 =
      (md.c7 && decide
        (2 ≤ (wave_scan sd (wave_profile sd cl CMMESPB time active_start)
            (wave_thresh sd (wave_profile sd cl CMMESPB time active_start))).num_waves ∧
          (wave_scan sd (wave_profile sd cl CMMESPB time active_start)
            (wave_thresh sd (wave_profile sd cl CMMESPB time active_start))).num_waves ≤ 3)) ∧
    ((wave_scan sd (wave_profile sd cl CMMESPA time active_start)
        (wave_thresh sd (wave_profile sd cl CMMESPA time active_start))).num_waves = 4 →
      (wave_testing_mesp CMMESPA CMMESPB sd cl time active_start md).c6 = false) ∧
    ((wave_scan sd (wave_profile sd cl CMMESPB time active_start)
        (wave_thresh sd (wave_profile sd cl CMMESPB time active_start))).num_waves = 4 →
      (wave_testing_mesp CMMESPA CMMESPB sd cl time active_start md).c7 = false) ∧
    (∀ calls : List (con_levels × Int × Int), md.c6 = false →
      (wave_testing_mesp_calls CMMESPA CMMESPB sd calls md).c6 = false) ∧
    (∀ calls : List (con_levels × Int × Int), md.c7 = false →
      (wave_testing_mesp_calls CMMESPA CMMESPB sd calls md).c7 = false) := by
  refine ⟨wave_testing_mesp_c6 _ _ _ _ _ _ _, wave_testing_mesp_c7 _ _ _ _ _ _ _, ?_, ?_,
    fun calls => (wave_testing_mesp_calls_false _ _ _ calls md).1,
    fun calls => (wave_testing_mesp_calls_false _ _ _ calls md).2⟩
  · intro h
    rw [wave_testing_mesp_c6, h]
    simp
  · intro h
    rw [wave_testing_mesp_c7, h]
    simp

/-- C25 fails on the code: the flag 8 is assigned 1 in each pass of `wave_testing_mesp`
before the segments are tested, so its value after a call depends neither on its value
before the call nor on the `CMMESPA` pass. On the store `flat_cl` a flag 8 that is false
before the call is true after it; on the store `long_cl` the `CMMESPA` pass finds a
posterior segment of the length 7 and leaves the flag 8 false, and the flag is true
after the `CMMESPB` pass. -/
theorem mesp_length_flag_is_reset :
    (∀ (CMMESPA CMMESPB : Int) (sd : sim_data) (cl : con_levels) (time active_start : Int)
      (md md2 : ant_conds),
      (wave_testing_mesp CMMESPA CMMESPB sd cl time active_start md).c8
        = (mesp_pass CMMESPA CMMESPB sd cl time active_start md2 1).c8) ∧
    (wave_testing_mesp 2 3 long_sd flat_cl 0 0 { c6 := true, c7 := true, c8 := false }).c8
      = true ∧
    (mesp_pass 2 3 long_sd long_cl 0 0 { c6 := true, c7 := true, c8 := true } 0).c8 = false ∧
    (wave_testing_mesp 2 3 long_sd long_cl 0 0 { c6 := true, c7 := true, c8 := true }).c8
      = true := by
  refine ⟨?_, by decide!, by decide!, by decide!⟩
  intro CMMESPA CMMESPB sd cl time active_start md md2
  rw [wave_testing_mesp_eq]
  simp [mesp_pass]

/-! ## The properties of the window and of the complementary score -/

/-- When neither bound is clamped the window loops run from `j - ⌈w⌉` to `j + ⌊w⌋`
for the half width `w`. -/
theorem window_unclamped (sd : sim_data) (time_start bound j : Int) (hts : 0 ≤ time_start)
    (h1 : (time_start : ℚ) ≤ (j : ℚ) - half_width sd)
    (h2 : (j : ℚ) + half_width sd ≤ (bound : ℚ)) :
    window_first sd time_start j = j - ⌈half_width sd⌉ ∧
    ∀ k : Int, (k : ℚ) ≤ window_bound sd j bound ↔ k ≤ j + ⌊half_width sd⌋ := by
  constructor
  · unfold window_first
    rw [MAX_eq_max, max_eq_left h1]
    have h0 : (0 : ℚ) ≤ (j : ℚ) - half_width sd :=
      le_trans (by exact_mod_cast hts) h1
    rw [double_to_int_of_nonneg h0, sub_eq_add_neg, Int.floor_int_add, Int.floor_neg]
    ring
  · intro k
    unfold window_bound
    rw [MIN_eq_min, min_eq_left h2, ← Int.floor_int_add, Int.le_floor]

/-- C27 fails on the code: when neither bound is clamped the first step examined is
`⌈w⌉` steps before `j` and the last step examined is `⌊w⌋` steps after `j`, for the
half width `w`. With the half width `3/2` (`step_size = 4/3`, `big_gran = 1`) and
neither bound clamped at the step 5, the first step examined is `5 - 2` and the last
step examined is `5 + 1`. On two series that are mirror images of each other about the
step 5 the step 5 is classified differently: it is no peak when the larger value is
two steps before it, and a peak when the larger value is two steps after it. -/
theorem window_not_symmetric :
    (∀ (sd : sim_data) (time_start j : Int), 0 ≤ time_start →
      (time_start : ℚ) ≤ (j : ℚ) - half_width sd →
      (j : ℚ) + half_width sd ≤ (sd.time_end : ℚ) →
      window_first sd time_start j = j - ⌈half_width sd⌉ ∧
      ∀ k : Int, (k : ℚ) ≤ window_bound sd j sd.time_end ↔ k ≤ j + ⌊half_width sd⌋) ∧
    half_width frac_sd = 3 / 2 ∧
    ((0 : ℚ) < 5 - half_width frac_sd ∧ 5 + half_width frac_sd < (frac_sd.time_end : ℚ)) ∧
    window_first frac_sd 0 5 = 5 - 2 ∧
    (∀ k : Int, (k : ℚ) ≤ window_bound frac_sd 5 frac_sd.time_end ↔ k ≤ 5 + 1) ∧
    (∀ t : Int, frac_cl.cons 1 (5 - t) 0 = frac_cl.cons 2 (5 + t) 0) ∧
    (get_peaks_and_troughs1 0 frac_sd frac_cl 0 0 zero_array zero_array zero_array 1).rows
      = [(3, 1, 0)] ∧
    (get_peaks_and_troughs1 0 frac_sd frac_cl 0 0 zero_array zero_array zero_array 2).rows
      = [(5, 1, 0), (7, 1, 0)] := by
  refine ⟨fun sd time_start j hts h1 h2 => window_unclamped sd time_start sd.time_end j hts h1 h2,
    by decide!, by decide!, by decide!, ?_, ?_, by decide!, by decide!⟩
  · intro k
    have hb : window_bound frac_sd 5 frac_sd.time_end = 13 / 2 := by decide!
    rw [hb]
    constructor
    · intro h
      by_contra hk
      have h7 : (7 : ℚ) ≤ (k : ℚ) := by
        have : (7 : Int) ≤ k := by omega
        exact_mod_cast this
      linarith
    · intro h
      have h6 : (k : ℚ) ≤ 6 := by
        have : k ≤ (6 : Int) := by omega
        exact_mod_cast this
      linarith
  · intro t
    simp only [frac_cl]
    have e1 : (5 - t = 5) ↔ (5 + t = 5) := by omega
    have e2 : (5 - t = 3) ↔ (5 + t = 7) := by omega
    simp [e1, e2]

/-- C28 fails on the code: on the stores `seg_cl 0` and `seg_cl 9` the birth time of the
cell changes from the step 4 to the step 5; the two stores differ only in the
concentration at the step 5, after the end of the segment. The window of the visited
step 3 runs from the step 1 to the step 5, and the step 3 is reported as a peak on the
first store and is not reported on the second. -/
theorem window_reads_past_segment :
    (seg_cl 0).cons 0 5 0 ≠ (seg_cl 0).cons 0 3 0 ∧
    (∀ s t c : Int, t ≠ 5 → (seg_cl 0).cons s t c = (seg_cl 9).cons s t c) ∧
    (∀ t c : Int, (seg_cl 0).cons 0 t c = (seg_cl 9).cons 0 t c) ∧
    window_first seg_sd 0 3 = 1 ∧ window_bound seg_sd 3 seg_sd.time_end = 5 ∧
    (get_peaks_and_troughs1 0 seg_sd (seg_cl 0) 0 0 zero_array zero_array zero_array 1).rows
      = [(3, 1, 0)] ∧
    (get_peaks_and_troughs1 0 seg_sd (seg_cl 9) 0 0 zero_array zero_array zero_array 1).rows
      = [] := by
  refine ⟨by decide!, ?_, ?_, by decide!, by decide!, by decide!, by decide!⟩
  · intro s t c ht
    simp only [seg_cl, if_neg ht]
  · intro t c
    simp only [seg_cl, if_true]

theorem stale_test_compl (sqrt : ℚ → ℚ) (con1 con2 : Nat → ℚ) :
    test_compl sqrt stale_sd con1 con2
      = pearson_correlation sqrt (fun j => con1 j.toNat) (fun j => con2 j.toNat) 3 6 := by
  have h1 : (stale_sd.width_total * stale_sd.steps_split - 2 : Int) = 6 := by decide
  have h2 : double_to_int (0.6 * ((6 : Int) : ℚ)) = 3 := by decide!
  unfold test_compl
  simp only [h1, h2]

/-- The correlation of 0, 1, 2 with 3, 0, 3 is 0 for every square root function that
does not vanish at the sums of squares 2 and 6. -/
theorem pearson_zero_covariance (sqrt : ℚ → ℚ) (h2 : sqrt 2 ≠ 0) (h6 : sqrt 6 ≠ 0)
    (x y : Int → ℚ) (hx : x 3 = 0 ∧ x 4 = 1 ∧ x 5 = 2) (hy : y 3 = 3 ∧ y 4 = 0 ∧ y 5 = 3) :
    pearson_correlation sqrt x y 3 6 = 0 := by
  rw [pearson_correlation_eq sqrt x y 3 6 1 2
    (by simp [Finset.sum_range_succ, hx.1, hx.2.1, hx.2.2]; norm_num)
    (by simp [Finset.sum_range_succ, hy.1, hy.2.1, hy.2.2]; norm_num)]
  have e1 : (∑ i in Finset.range (6 - 3 : Int).toNat,
      (x (3 + (i : Int)) - 1) * (x (3 + (i : Int)) - 1)) = 2 := by
    simp [Finset.sum_range_succ, hx.1, hx.2.1, hx.2.2]; norm_num
  have e2 : (∑ i in Finset.range (6 - 3 : Int).toNat,
      (y (3 + (i : Int)) - 2) * (y (3 + (i : Int)) - 2)) = 6 := by
    simp [Finset.sum_range_succ, hy.1, hy.2.1, hy.2.2]; norm_num
  have e3 : (∑ i in Finset.range (6 - 3 : Int).toNat,
      (x (3 + (i : Int)) - 1) * (y (3 + (i : Int)) - 2)) = 0 := by
    simp [Finset.sum_range_succ, hx.1, hx.2.1, hx.2.2, hy.1, hy.2.1, hy.2.2]; norm_num
  rw [e1, e2, e3]
  simp [h2, h6]

/-- C29 fails on the code: the stores `stale_cl 0 0` and `stale_cl 1 2` differ only in the
`CMH1` concentration of the cell 0, which is analysed first, at the steps 5 and 6. The
cell 1, analysed second, is visited at the four steps 3 to 6, so it fills the entries 0
to 3 of the buffers and the entries 4 and 5 still hold the values of the cell 0; the
score that `test_compl` computes over the entries 3 to 5 for the cell 1 is 1 on the
first store and 0 on the second, for the square root of the concrete run and for every
square root function that is 0 at 0 and not 0 at 2 and 6. -/
theorem comp_score_reads_previous_cell :
    (∀ s t c : Int, ¬ (s = 1 ∧ c = 0) →
      (stale_cl 0 0).cons s t c = (stale_cl 1 2).cons s t c) ∧
    (∀ t : Int, (stale_cl 0 0).active_start_record t = (stale_cl 1 2).active_start_record t) ∧
    (stale_cl 0 0).active_start_record 0 = 0 ∧ (stale_cl 0 0).active_start_record 2 = 1 ∧
    (List.range 6).map (stale_run (stale_cl 0 0) 2).mh1_comp = [0, 0, 0, 0, 0, 0] ∧
    (List.range 6).map (stale_run (stale_cl 1 2) 2).mh1_comp = [0, 0, 0, 0, 1, 2] ∧
    (List.range 6).map (stale_run (stale_cl 0 0) 2).mespa_comp = [0, 0, 0, 3, 0, 3] ∧
    (List.range 6).map (stale_run (stale_cl 1 2) 2).mespa_comp = [0, 0, 0, 3, 0, 3] ∧
    (stale_run (stale_cl 0 0) 2).comp_score_a - (stale_run (stale_cl 0 0) 1).comp_score_a
      = 1 ∧
    (stale_run (stale_cl 1 2) 2).comp_score_a - (stale_run (stale_cl 1 2) 1).comp_score_a
      = 0 ∧
    (∀ sqrt : ℚ → ℚ, sqrt 0 = 0 →
      test_compl sqrt stale_sd (stale_run (stale_cl 0 0) 2).mh1_comp
        (stale_run (stale_cl 0 0) 2).mespa_comp = 1) ∧
    (∀ sqrt : ℚ → ℚ, sqrt 2 ≠ 0 → sqrt 6 ≠ 0 →
      test_compl sqrt stale_sd (stale_run (stale_cl 1 2) 2).mh1_comp
        (stale_run (stale_cl 1 2) 2).mespa_comp = 0) := by
  refine ⟨?_, fun t => rfl, by decide!, by decide!, by decide!, by decide!, by decide!,
    by decide!, by decide!, by decide!, ?_, ?_⟩
  · intro s t c h
    simp only [stale_cl]
    have h1 : ¬ (s = 1 ∧ c = 0 ∧ t = 5) := fun h2 => h ⟨h2.1, h2.2.1⟩
    have h2 : ¬ (s = 1 ∧ c = 0 ∧ t = 6) := fun h2 => h ⟨h2.1, h2.2.1⟩
    rw [if_neg h1, if_neg h2, if_neg h1, if_neg h2]
  · intro sqrt h0
    rw [stale_test_compl]
    apply pearson_of_const_left sqrt h0 _ _ 3 6 0
    intro j h3 h6
    interval_cases j <;> decide!
  · intro sqrt h2 h6
    rw [stale_test_compl]
    exact pearson_zero_covariance sqrt h2 h6 _ _
      ⟨by decide!, by decide!, by decide!⟩ ⟨by decide!, by decide!, by decide!⟩

/-! ## The posterior features -/

theorem post_body_break (sd : sim_data) (conc : Int → ℚ) (wt_amp : ℚ) (j : Int)
    (s : post_state) (h : (post_body sd conc wt_amp j s).2 = true) :
    (post_body sd conc wt_amp j s).1.num_peaks = 0 := by
  unfold post_body at h ⊢
  by_cases hc : (s.num_peaks - s.num_troughs).natAbs > 1
  · rw [if_pos hc]
  · rw [if_neg hc] at h
    simp at h

theorem post_fold_break (sd : sim_data) (conc : Int → ℚ) (wt_amp : ℚ) (start : Int)
    (l : List Nat) (init : post_state × Bool) (h0 : init.2 = true → init.1.num_peaks = 0) :
    (l.foldl (fun r (i : Nat) =>
        if r.2 then r else post_body sd conc wt_amp (start + 1 + (i : Int)) r.1) init).2 = true →
    (l.foldl (fun r (i : Nat) =>
        if r.2 then r else post_body sd conc wt_amp (start + 1 + (i : Int)) r.1) init).1.num_peaks
      = 0 := by
  induction l generalizing init with
  | nil => exact h0
  | cons a t ih =>
    rw [List.foldl_cons]
    apply ih
    by_cases hb : init.2 = true
    · rw [if_pos hb]; exact h0
    · rw [if_neg hb]; exact post_body_break sd conc wt_amp _ _

/-- A scan that was left by `break` ends with `num_peaks = 0`. -/
theorem post_scan_break (sd : sim_data) (conc : Int → ℚ) (wt_amp : ℚ) (start end_ : Int)
    (peaks0 troughs0 : growin_array)
    (h : (post_scan sd conc wt_amp start end_ peaks0 troughs0).2 = true) :
    (post_scan sd conc wt_amp start end_ peaks0 troughs0).1.num_peaks = 0 :=
  post_fold_break sd conc wt_amp start _ _ (by simp) h

theorem post_add_few (conc : Int → ℚ) (s : post_state) (acc : post_sums)
    (h : s.num_peaks < 3) :
    (post_add conc s acc).amplitude = acc.amplitude + 1 ∧
    (post_add conc s acc).peaktotrough_end = acc.peaktotrough_end + 1 ∧
    (post_add conc s acc).peaktotrough_mid = acc.peaktotrough_mid + 1 := by
  have h3 : ¬ s.num_peaks ≥ 3 := by omega
  simp [post_add, h3]

/-- The sums over a column range of cells that all have fewer than 3 peaks. -/
theorem post_fold_few (f : Nat → post_sums → post_sums) (n : Nat) (acc : post_sums)
    (h : ∀ y : Nat, y < n → ∀ a : post_sums,
      (f y a).amplitude = a.amplitude + 1 ∧ (f y a).peaktotrough_end = a.peaktotrough_end + 1 ∧
      (f y a).peaktotrough_mid = a.peaktotrough_mid + 1) :
    ((List.range n).foldl (fun a (y : Nat) => f y a) acc).amplitude = acc.amplitude + n ∧
    ((List.range n).foldl (fun a (y : Nat) => f y a) acc).peaktotrough_end
      = acc.peaktotrough_end + n ∧
    ((List.range n).foldl (fun a (y : Nat) => f y a) acc).peaktotrough_mid
      = acc.peaktotrough_mid + n := by
  induction n with
  | zero => simp
  | succ k ih =>
    rw [List.range_succ, List.foldl_append]
    simp only [List.foldl_cons, List.foldl_nil]
    obtain ⟨i1, i2, i3⟩ := ih (fun y hy => h y (by omega))
    obtain ⟨j1, j2, j3⟩ := h k (by omega) ((List.range k).foldl (fun a (y : Nat) => f y a) acc)
    rw [j1, j2, j3, i1, i2, i3]
    push_cast
    exact ⟨by ring, by ring, by ring⟩

/-- The sums over the rows, when every row adds the same number `w` to each sum. -/
theorem post_fold_rows (g : Nat → post_sums → post_sums) (w : ℚ) (n : Nat) (acc : post_sums)
    (h : ∀ x : Nat, x < n → ∀ a : post_sums,
      (g x a).amplitude = a.amplitude + w ∧ (g x a).peaktotrough_end = a.peaktotrough_end + w ∧
      (g x a).peaktotrough_mid = a.peaktotrough_mid + w) :
    ((List.range n).foldl (fun a (x : Nat) => g x a) acc).amplitude = acc.amplitude + n * w ∧
    ((List.range n).foldl (fun a (x : Nat) => g x a) acc).peaktotrough_end
      = acc.peaktotrough_end + n * w ∧
    ((List.range n).foldl (fun a (x : Nat) => g x a) acc).peaktotrough_mid
      = acc.peaktotrough_mid + n * w := by
  induction n with
  | zero => simp
  | succ k ih =>
    rw [List.range_succ, List.foldl_append]
    simp only [List.foldl_cons, List.foldl_nil]
    obtain ⟨i1, i2, i3⟩ := ih (fun y hy => h y (by omega))
    obtain ⟨j1, j2, j3⟩ := h k (by omega) ((List.range k).foldl (fun a (x : Nat) => g x a) acc)
    rw [j1, j2, j3, i1, i2, i3]
    push_cast
    exact ⟨by ring, by ring, by ring⟩

/-- C30: in `osc_features_post` a scan that was left by `break` ends with
`num_peaks = 0`; a cell whose scan ends with fewer than 3 peaks adds exactly 1 to the
amplitude sum, to the end peak to trough sum and to the mid peak to trough sum; and
when there is at least one cell and every cell of the tissue is such a cell, the
stored `amplitude_post`, `peaktotrough_end` and `peaktotrough_mid` are all 1. -/
theorem post_few_peaks_default (sd : sim_data) (cl : con_levels) (mr : Int) (wt_amp : ℚ)
    (start end_ : Int) (peaks0 troughs0 : growin_array) :
    (∀ conc : Int → ℚ, (post_scan sd conc wt_amp start end_ peaks0 troughs0).2 = true →
      (post_scan sd conc wt_amp start end_ peaks0 troughs0).1.num_peaks = 0) ∧
    (∀ (x y : Int) (acc : post_sums),
      (post_scan sd (fun t => cl.cons mr t (x * sd.width_total + y)) wt_amp start end_
        peaks0 troughs0).1.num_peaks < 3 →
      (post_cell sd cl mr wt_amp start end_ peaks0 troughs0 x y acc).amplitude
        = acc.amplitude + 1 ∧
      (post_cell sd cl mr wt_amp start end_ peaks0 troughs0 x y acc).peaktotrough_end
        = acc.peaktotrough_end + 1 ∧
      (post_cell sd cl mr wt_amp start end_ peaks0 troughs0 x y acc).peaktotrough_mid
        = acc.peaktotrough_mid + 1) ∧
    (1 ≤ sd.height → 1 ≤ sd.width_current →
      (∀ x y : Int, 0 ≤ x → x < sd.height → 0 ≤ y → y < sd.width_current →
        (post_scan sd (fun t => cl.cons mr t (x * sd.width_total + y)) wt_amp start end_
          peaks0 troughs0).1.num_peaks < 3) →
      (osc_features_post_gene sd cl mr wt_amp start end_ peaks0 troughs0).amplitude = 1 ∧
      (osc_features_post_gene sd cl mr wt_amp start end_ peaks0 troughs0).peaktotrough_end = 1 ∧
      (osc_features_post_gene sd cl mr wt_amp start end_ peaks0 troughs0).peaktotrough_mid
        = 1) := by
  have hcell : ∀ (x y : Int) (acc : post_sums),
      (post_scan sd (fun t => cl.cons mr t (x * sd.width_total + y)) wt_amp start end_
        peaks0 troughs0).1.num_peaks < 3 →
      (post_cell sd cl mr wt_amp start end_ peaks0 troughs0 x y acc).amplitude
        = acc.amplitude + 1 ∧
      (post_cell sd cl mr wt_amp start end_ peaks0 troughs0 x y acc).peaktotrough_end
        = acc.peaktotrough_end + 1 ∧
      (post_cell sd cl mr wt_amp start end_ peaks0 troughs0 x y acc).peaktotrough_mid
        = acc.peaktotrough_mid + 1 :=
    fun x y acc h => post_add_few _ _ acc h
  refine ⟨fun conc h => post_scan_break sd conc wt_amp start end_ peaks0 troughs0 h, hcell, ?_⟩
  intro hh hw hfew
  have hrows := post_fold_rows
    (fun (x : Nat) acc => (List.range sd.width_current.toNat).foldl
      (fun acc (y : Nat) =>
        post_cell sd cl mr wt_amp start end_ peaks0 troughs0 (x : Int) (y : Int) acc) acc)
    (sd.width_current.toNat : ℚ) sd.height.toNat
    { amplitude := 0, peaktotrough_end := 0, peaktotrough_mid := 0, num_good_somites := 0 }
    (fun x hx a => post_fold_few
      (fun (y : Nat) acc =>
        post_cell sd cl mr wt_amp start end_ peaks0 troughs0 (x : Int) (y : Int) acc)
      sd.width_current.toNat a
      (fun y hy a2 => hcell x y a2 (hfew x y (by omega) (by omega) (by omega) (by omega))))
  have hcells : ((sd.height * sd.width_current : Int) : ℚ)
      = (sd.height.toNat : ℚ) * (sd.width_current.toNat : ℚ) := by
    have e1 : ((sd.height.toNat : Int) : ℚ) = (sd.height : ℚ) := by
      rw [Int.toNat_of_nonneg (by omega)]
    have e2 : ((sd.width_current.toNat : Int) : ℚ) = (sd.width_current : ℚ) := by
      rw [Int.toNat_of_nonneg (by omega)]
    rw [Int.cast_natCast] at e1 e2
    rw [Int.cast_mul, e1, e2]
  have hne : (sd.height.toNat : ℚ) * (sd.width_current.toNat : ℚ) ≠ 0 := by
    have p1 : (0 : ℚ) < (sd.height.toNat : ℚ) := by
      have : 0 < sd.height.toNat := by omega
      exact_mod_cast this
    have p2 : (0 : ℚ) < (sd.width_current.toNat : ℚ) := by
      have : 0 < sd.width_current.toNat := by omega
      exact_mod_cast this
    exact ne_of_gt (mul_pos p1 p2)
  unfold osc_features_post_gene
  simp only
  rw [hrows.1, hrows.2.1, hrows.2.2, hcells, zero_add]
  exact ⟨div_self hne, div_self hne, div_self hne⟩

theorem post_few_peaks_default_witness :
    ((post_scan demo_sd dip_conc 0 0 12 zero_array zero_array).2 = true ∧
      (post_scan demo_sd dip_conc 0 0 12 zero_array zero_array).1.num_peaks = 0) ∧
    (osc_features_post_gene demo_sd hump_cl 1 0 0 9 zero_array zero_array).amplitude = 1 ∧
    (osc_features_post_gene demo_sd hump_cl 1 0 0 9 zero_array zero_array).peaktotrough_end
      = 1 ∧
    (osc_features_post_gene demo_sd hump_cl 1 0 0 9 zero_array zero_array).peaktotrough_mid
      = 1 :=
  ⟨⟨by decide!,
    (post_few_peaks_default demo_sd hump_cl 1 0 0 12 zero_array zero_array).1 dip_conc
      (by decide!)⟩,
   (post_few_peaks_default demo_sd hump_cl 1 0 0 9 zero_array zero_array).2.2
    (by decide) (by decide)
    (fun x y _ _ _ _ => by
      have e : (fun t => hump_cl.cons 1 t (x * demo_sd.width_total + y))
          = (fun t => hump_cl.cons 1 t 0) := rfl
      rw [e]
      decide!)⟩

/-! ## The samples of a sinusoid -/

/-- A sample of a sinusoid that is larger than both samples at the distance `ω`
(with `0 < ω < π`) lies within `ω / 2` of a crest `π / 2 + 2 π m`. -/
theorem sin_peak_near_crest (ω θ : ℝ) (h0 : 0 < ω) (hπ : ω < Real.pi)
    (h1 : Real.sin (θ - ω) < Real.sin θ) (h2 : Real.sin (θ + ω) < Real.sin θ) :
    ∃ m : Int, |θ - (Real.pi / 2 + 2 * Real.pi * m)| < ω / 2 := by
  have hpi := Real.pi_pos
  refine ⟨round ((θ - Real.pi / 2) / (2 * Real.pi)), ?_⟩
  set m : Int := round ((θ - Real.pi / 2) / (2 * Real.pi)) with hm
  set v : ℝ := θ - (Real.pi / 2 + 2 * Real.pi * m) with hv
  have hround : |(θ - Real.pi / 2) / (2 * Real.pi) - m| ≤ 1 / 2 := abs_sub_round _
  have hvabs : |v| ≤ Real.pi := by
    have e : v = ((θ - Real.pi / 2) / (2 * Real.pi) - m) * (2 * Real.pi) := by
      rw [hv]; field_simp; ring
    rw [e, abs_mul, abs_of_pos (by positivity : (0 : ℝ) < 2 * Real.pi)]
    nlinarith
  have hv1 := abs_le.mp hvabs
  -- the three samples as cosines of `v`
  have c0 : Real.sin θ = Real.cos v := by
    have : θ = v + Real.pi / 2 + (m : ℝ) * (2 * Real.pi) := by rw [hv]; ring
    rw [this, Real.sin_add_int_mul_two_pi, Real.sin_add_pi_div_two]
  have c1 : Real.sin (θ - ω) = Real.cos (v - ω) := by
    have : θ - ω = (v - ω) + Real.pi / 2 + (m : ℝ) * (2 * Real.pi) := by rw [hv]; ring
    rw [this, Real.sin_add_int_mul_two_pi, Real.sin_add_pi_div_two]
  have c2 : Real.sin (θ + ω) = Real.cos (v + ω) := by
    have : θ + ω = (v + ω) + Real.pi / 2 + (m : ℝ) * (2 * Real.pi) := by rw [hv]; ring
    rw [this, Real.sin_add_int_mul_two_pi, Real.sin_add_pi_div_two]
  rw [c0, c1] at h1
  rw [c0, c2] at h2
  clear_value v
  rw [abs_lt]
  constructor
  · by_contra hc
    have hc : v ≤ -(ω / 2) := not_lt.mp hc
    have habs : |v + ω| ≤ -v := by
      rw [abs_le]; constructor <;> linarith
    have : Real.cos (-v) ≤ Real.cos |v + ω| :=
      Real.cos_le_cos_of_nonneg_of_le_pi (abs_nonneg _) (by linarith) habs
    rw [Real.cos_abs, Real.cos_neg] at this
    linarith
  · by_contra hc
    have hc : ω / 2 ≤ v := not_lt.mp hc
    have habs : |v - ω| ≤ v := by
      rw [abs_le]; constructor <;> linarith
    have : Real.cos v ≤ Real.cos |v - ω| :=
      Real.cos_le_cos_of_nonneg_of_le_pi (abs_nonneg _) (by linarith) habs
    rw [Real.cos_abs] at this
    linarith

/-- Two samples of a sinusoid of period `P > 2` that are both larger than their two
neighbours are apart by a positive multiple of the period, within one step. -/
theorem sin_peaks_spacing (P φ : ℝ) (hP : 2 < P) (j1 j2 : Int) (hlt : j1 < j2)
    (a1 : Real.sin (2 * Real.pi * ((j1 - 1 : Int) : ℝ) / P + φ)
      < Real.sin (2 * Real.pi * (j1 : ℝ) / P + φ))
    (b1 : Real.sin (2 * Real.pi * ((j1 + 1 : Int) : ℝ) / P + φ)
      < Real.sin (2 * Real.pi * (j1 : ℝ) / P + φ))
    (a2 : Real.sin (2 * Real.pi * ((j2 - 1 : Int) : ℝ) / P + φ)
      < Real.sin (2 * Real.pi * (j2 : ℝ) / P + φ))
    (b2 : Real.sin (2 * Real.pi * ((j2 + 1 : Int) : ℝ) / P + φ)
      < Real.sin (2 * Real.pi * (j2 : ℝ) / P + φ)) :
    ∃ M : Int, 1 ≤ M ∧ |((j2 - j1 : Int) : ℝ) - (M : ℝ) * P| < 1 := by
  have hpi := Real.pi_pos
  have hP0 : 0 < P := by linarith
  set ω : ℝ := 2 * Real.pi / P with hω
  have hω0 : 0 < ω := by positivity
  have hωπ : ω < Real.pi := by
    rw [hω, div_lt_iff₀ hP0]
    nlinarith
  have e : ∀ (j : Int) (d : ℝ), 2 * Real.pi * ((j : ℝ) + d) / P + φ
      = (2 * Real.pi * (j : ℝ) / P + φ) + d * ω := by
    intro j d; rw [hω]; field_simp; ring
  have key : ∀ j : Int,
      Real.sin (2 * Real.pi * ((j - 1 : Int) : ℝ) / P + φ)
        < Real.sin (2 * Real.pi * (j : ℝ) / P + φ) →
      Real.sin (2 * Real.pi * ((j + 1 : Int) : ℝ) / P + φ)
        < Real.sin (2 * Real.pi * (j : ℝ) / P + φ) →
      ∃ m : Int, |(2 * Real.pi * (j : ℝ) / P + φ) - (Real.pi / 2 + 2 * Real.pi * m)| < ω / 2 := by
    intro j ha hb
    apply sin_peak_near_crest ω _ hω0 hωπ
    · have : 2 * Real.pi * ((j - 1 : Int) : ℝ) / P + φ
          = (2 * Real.pi * (j : ℝ) / P + φ) - ω := by
        have := e j (-1)
        push_cast
        rw [show (j : ℝ) - 1 = (j : ℝ) + (-1) by ring, this]; ring
      rw [← this]; exact ha
    · have : 2 * Real.pi * ((j + 1 : Int) : ℝ) / P + φ
          = (2 * Real.pi * (j : ℝ) / P + φ) + ω := by
        have := e j 1
        push_cast
        rw [this]; ring
      rw [← this]; exact hb
  obtain ⟨m1, hm1⟩ := key j1 a1 b1
  obtain ⟨m2, hm2⟩ := key j2 a2 b2
  have hd : |((j2 - j1 : Int) : ℝ) - ((m2 - m1 : Int) : ℝ) * P| < 1 := by
    have e3 : ((j2 - j1 : Int) : ℝ) - ((m2 - m1 : Int) : ℝ) * P
        = (((2 * Real.pi * (j2 : ℝ) / P + φ) - (Real.pi / 2 + 2 * Real.pi * m2))
          - ((2 * Real.pi * (j1 : ℝ) / P + φ) - (Real.pi / 2 + 2 * Real.pi * m1))) / ω := by
      rw [hω]; push_cast; field_simp; ring
    rw [e3, abs_div, abs_of_pos hω0, div_lt_one hω0]
    have h1 := abs_lt.mp hm1
    have h2 := abs_lt.mp hm2
    rw [abs_lt]
    constructor <;> linarith
  refine ⟨m2 - m1, ?_, hd⟩
  by_contra hM
  have hM : m2 - m1 ≤ 0 := by omega
  have hMr : ((m2 - m1 : Int) : ℝ) ≤ 0 := by exact_mod_cast hM
  have hdr : (1 : ℝ) ≤ ((j2 - j1 : Int) : ℝ) := by
    have : (1 : Int) ≤ j2 - j1 := by omega
    exact_mod_cast this
  have := (abs_lt.mp hd).2
  nlinarith

/-- The samples of the sinusoid of period 5/2 and phase `π / 10` take three values. -/
theorem sine_sample (k : Int) :
    Real.sin (2 * Real.pi * (k : ℝ) / (5 / 2) + Real.pi / 10) =
      if k % 5 = 3 then 1
      else if k % 5 = 0 ∨ k % 5 = 1 then Real.sin (Real.pi / 10)
      else -Real.sin (3 * Real.pi / 10) := by
  have hk : k = 5 * (k / 5) + k % 5 := (Int.ediv_add_emod k 5).symm
  have h0 : 0 ≤ k % 5 := Int.emod_nonneg k (by norm_num)
  have h5 : k % 5 < 5 := Int.emod_lt_of_pos k (by norm_num)
  have e : 2 * Real.pi * (k : ℝ) / (5 / 2) + Real.pi / 10
      = (4 * Real.pi * ((k % 5 : Int) : ℝ) / 5 + Real.pi / 10)
        + ((2 * (k / 5) : Int) : ℝ) * (2 * Real.pi) := by
    have : (k : ℝ) = 5 * ((k / 5 : Int) : ℝ) + ((k % 5 : Int) : ℝ) := by exact_mod_cast hk
    rw [this]; push_cast; ring
  rw [e, Real.sin_add_int_mul_two_pi]
  generalize k % 5 = r at h0 h5
  interval_cases r
  · simp
  · have : 4 * Real.pi * ((1 : Int) : ℝ) / 5 + Real.pi / 10 = Real.pi - Real.pi / 10 := by
      push_cast; ring
    rw [this, Real.sin_pi_sub]
    simp
  · have : 4 * Real.pi * ((2 : Int) : ℝ) / 5 + Real.pi / 10
        = -(3 * Real.pi / 10) + 2 * Real.pi := by push_cast; ring
    rw [this, Real.sin_add_two_pi, Real.sin_neg]
    simp
  · have : 4 * Real.pi * ((3 : Int) : ℝ) / 5 + Real.pi / 10
        = Real.pi / 2 + 2 * Real.pi := by push_cast; ring
    rw [this, Real.sin_add_two_pi, Real.sin_pi_div_two]
    simp
  · have : 4 * Real.pi * ((4 : Int) : ℝ) / 5 + Real.pi / 10
        = 3 * Real.pi / 10 + Real.pi + 2 * Real.pi := by push_cast; ring
    rw [this, Real.sin_add_two_pi, Real.sin_add_pi]
    simp

/-- The values of the store `sine_cl` are ordered as the samples of the sinusoid of
amplitude 1, period 5/2 and phase `π / 10`. -/
theorem sine_cl_order (j k : Int) :
    sine_cl.cons 1 j 0 ≤ sine_cl.cons 1 k 0 ↔
      1 * Real.sin (2 * Real.pi * (j : ℝ) / (5 / 2) + Real.pi / 10)
        ≤ 1 * Real.sin (2 * Real.pi * (k : ℝ) / (5 / 2) + Real.pi / 10) := by
  have hpi := Real.pi_pos
  have ha0 : 0 < Real.sin (Real.pi / 10) :=
    Real.sin_pos_of_pos_of_lt_pi (by positivity) (by linarith)
  have ha1 : Real.sin (Real.pi / 10) < 1 := by
    have := Real.sin_lt_sin_of_lt_of_le_pi_div_two (x := Real.pi / 10) (y := Real.pi / 2)
      (by linarith) le_rfl (by linarith)
    rwa [Real.sin_pi_div_two] at this
  have hb0 : 0 < Real.sin (3 * Real.pi / 10) :=
    Real.sin_pos_of_pos_of_lt_pi (by positivity) (by linarith)
  rw [one_mul, one_mul, sine_sample j, sine_sample k]
  simp only [sine_cl, one_ne_zero, if_false]
  by_cases j3 : j % 5 = 3
  · by_cases k3 : k % 5 = 3
    · simp only [j3, k3, if_true]
      exact ⟨fun _ => le_rfl, fun _ => le_rfl⟩
    · by_cases k01 : k % 5 = 0 ∨ k % 5 = 1
      · simp only [j3, k3, k01, if_true, if_false]
        constructor <;> intro h
        · norm_num at h
        · linarith
      · simp only [j3, k3, k01, if_true, if_false]
        constructor <;> intro h
        · norm_num at h
        · linarith
  · by_cases j01 : j % 5 = 0 ∨ j % 5 = 1
    · by_cases k3 : k % 5 = 3
      · simp only [j3, j01, k3, if_true, if_false]
        constructor <;> intro h
        · linarith
        · norm_num
      · by_cases k01 : k % 5 = 0 ∨ k % 5 = 1
        · simp only [j3, j01, k3, k01, if_true, if_false]
          exact ⟨fun _ => le_rfl, fun _ => le_rfl⟩
        · simp only [j3, j01, k3, k01, if_true, if_false]
          constructor <;> intro h
          · norm_num at h
          · linarith
    · by_cases k3 : k % 5 = 3
      · simp only [j3, j01, k3, if_true, if_false]
        constructor <;> intro h
        · linarith
        · norm_num
      · by_cases k01 : k % 5 = 0 ∨ k % 5 = 1
        · simp only [j3, j01, k3, k01, if_true, if_false]
          constructor <;> intro h
          · linarith
          · norm_num
        · simp only [j3, j01, k3, k01, if_true, if_false]
          exact ⟨fun _ => le_rfl, fun _ => le_rfl⟩

/-- A sample of a sinusoid at the offset `d` from the angle `θ`, as the cosine of its
offset from the crest `π / 2 + 2 π m`. -/
theorem sin_as_cos_of_crest (θ d : ℝ) (m : Int) :
    Real.sin (θ + d) = Real.cos (θ - (Real.pi / 2 + 2 * Real.pi * m) + d) := by
  have : θ + d = (θ - (Real.pi / 2 + 2 * Real.pi * m) + d) + Real.pi / 2
      + (m : ℝ) * (2 * Real.pi) := by ring
  rw [this, Real.sin_add_int_mul_two_pi, Real.sin_add_pi_div_two]

/-- A sample within half a step `ω / 2` of a crest is larger than every other sample
at most `w` steps away, when `w + 1` steps do not exceed a period. -/
theorem cos_near_crest_lt (ω v : ℝ) (n w : Int) (hω : 0 < ω) (hv : |v| < ω / 2)
    (hn : n ≠ 0) (hnw : |n| ≤ w) (hwω : ((w : ℝ) + 1) * ω ≤ 2 * Real.pi) :
    Real.cos (v + (n : ℝ) * ω) < Real.cos v := by
  have hv1 := abs_lt.mp hv
  have key : Real.cos v - Real.cos (v + (n : ℝ) * ω)
      = 2 * Real.sin (v + (n : ℝ) * ω / 2) * Real.sin ((n : ℝ) * ω / 2) := by
    rw [Real.cos_sub_cos]
    have e1 : (v + (v + (n : ℝ) * ω)) / 2 = v + (n : ℝ) * ω / 2 := by ring
    have e2 : (v - (v + (n : ℝ) * ω)) / 2 = -((n : ℝ) * ω / 2) := by ring
    rw [e1, e2, Real.sin_neg]
    ring
  have hnw1 := abs_le.mp hnw
  have hwr1 : -(w : ℝ) ≤ (n : ℝ) := by exact_mod_cast hnw1.1
  have hwr2 : (n : ℝ) ≤ (w : ℝ) := by exact_mod_cast hnw1.2
  suffices h : 0 < Real.sin (v + (n : ℝ) * ω / 2) * Real.sin ((n : ℝ) * ω / 2) by linarith
  rcases lt_or_gt_of_ne hn with hneg | hpos
  · have hn1 : (n : ℝ) ≤ -1 := by
      have : n ≤ -1 := by omega
      exact_mod_cast this
    have p1 : (n : ℝ) * ω ≤ -ω := by nlinarith
    have p2 : -(w : ℝ) * ω ≤ (n : ℝ) * ω := by nlinarith
    apply mul_pos_of_neg_of_neg
    · apply Real.sin_neg_of_neg_of_neg_pi_lt <;> nlinarith
    · apply Real.sin_neg_of_neg_of_neg_pi_lt <;> nlinarith
  · have hn1 : (1 : ℝ) ≤ (n : ℝ) := by
      have : 1 ≤ n := by omega
      exact_mod_cast this
    have p1 : ω ≤ (n : ℝ) * ω := by nlinarith
    have p2 : (n : ℝ) * ω ≤ (w : ℝ) * ω := by nlinarith
    apply mul_pos
    · apply Real.sin_pos_of_pos_of_lt_pi <;> nlinarith
    · apply Real.sin_pos_of_pos_of_lt_pi <;> nlinarith

/-- The angle of the step `j + d` of a sinusoid of period `P`, for the angular step
`ω = 2 π / P`. -/
theorem sinusoid_angle (P φ ω : ℝ) (hP : 0 < P) (hω : ω = 2 * Real.pi / P) (j : Int) (d : ℝ) :
    2 * Real.pi * ((j : ℝ) + d) / P + φ = ((j : ℝ) * ω + φ) + d * ω := by
  rw [hω]; field_simp; ring

/-- A sample of a sinusoid of period `P > 2` that is larger than both its neighbours
lies within half a step of a crest. -/
theorem sin_peak_crest (P φ ω : ℝ) (hP : 2 < P) (hω : ω = 2 * Real.pi / P) (j : Int)
    (ha : Real.sin (2 * Real.pi * ((j - 1 : Int) : ℝ) / P + φ)
      < Real.sin (2 * Real.pi * (j : ℝ) / P + φ))
    (hb : Real.sin (2 * Real.pi * ((j + 1 : Int) : ℝ) / P + φ)
      < Real.sin (2 * Real.pi * (j : ℝ) / P + φ)) :
    ∃ m : Int, |(j : ℝ) * ω + φ - (Real.pi / 2 + 2 * Real.pi * m)| < ω / 2 := by
  have hpi := Real.pi_pos
  have hP0 : 0 < P := by linarith
  have hω0 : 0 < ω := by rw [hω]; positivity
  have hωP : ω * P = 2 * Real.pi := by rw [hω]; field_simp
  have hωπ : ω < Real.pi := by
    have : ω * 2 < ω * P := mul_lt_mul_of_pos_left hP hω0
    linarith
  have e0 := sinusoid_angle P φ ω hP0 hω j 0
  have e1 := sinusoid_angle P φ ω hP0 hω j (-1)
  have e2 := sinusoid_angle P φ ω hP0 hω j 1
  rw [add_zero, zero_mul, add_zero] at e0
  rw [e0] at ha hb
  have c1 : (((j - 1 : Int) : ℝ)) = (j : ℝ) + (-1) := by push_cast; ring
  have c2 : (((j + 1 : Int) : ℝ)) = (j : ℝ) + 1 := by push_cast; ring
  rw [c1, e1] at ha
  rw [c2, e2] at hb
  apply sin_peak_near_crest ω _ hω0 hωπ
  · have : (j : ℝ) * ω + φ - ω = (j : ℝ) * ω + φ + -1 * ω := by ring
    rw [this]; exact ha
  · have : (j : ℝ) * ω + φ + ω = (j : ℝ) * ω + φ + 1 * ω := by ring
    rw [this]; exact hb

/-- Between two steps that lie within half a step of two crests that are not
neighbours, there is a step at most half a step from the crest after the first one,
at least two steps away from both. -/
theorem sample_at_next_crest (ω φ : ℝ) (hω0 : 0 < ω) (hωπ : ω < Real.pi) (j1 j2 m1 m2 : Int)
    (hM : m1 + 2 ≤ m2)
    (h1 : |(j1 : ℝ) * ω + φ - (Real.pi / 2 + 2 * Real.pi * m1)| < ω / 2)
    (h2 : |(j2 : ℝ) * ω + φ - (Real.pi / 2 + 2 * Real.pi * m2)| < ω / 2) :
    ∃ j : Int, j1 + 2 ≤ j ∧ j + 2 ≤ j2 ∧
      |(j : ℝ) * ω + φ - (Real.pi / 2 + 2 * Real.pi * ((m1 + 1 : Int) : ℝ))| ≤ ω / 2 := by
  have hpi := Real.pi_pos
  have h1 := abs_lt.mp h1
  have h2 := abs_lt.mp h2
  have hM2 : (m1 : ℝ) + 2 ≤ (m2 : ℝ) := by exact_mod_cast hM
  obtain ⟨c, hc⟩ : ∃ c : ℝ, c = (Real.pi / 2 + 2 * Real.pi * ((m1 : ℝ) + 1) - φ) / ω :=
    ⟨_, rfl⟩
  obtain ⟨j, hj⟩ : ∃ j : Int, j = round c := ⟨_, rfl⟩
  have hround : |c - (j : ℝ)| ≤ 1 / 2 := by rw [hj]; exact abs_sub_round c
  have hr := abs_le.mp hround
  have hcω : c * ω = Real.pi / 2 + 2 * Real.pi * ((m1 : ℝ) + 1) - φ := by
    rw [hc, div_mul_cancel₀ _ (ne_of_gt hω0)]
  obtain ⟨v, hv⟩ : ∃ v : ℝ,
      v = (j : ℝ) * ω + φ - (Real.pi / 2 + 2 * Real.pi * ((m1 + 1 : Int) : ℝ)) := ⟨_, rfl⟩
  have hvc : v = ((j : ℝ) - c) * ω := by
    rw [hv]; push_cast; linarith
  have hv1 : -(ω / 2) ≤ v := by
    have := mul_le_mul_of_nonneg_right (show -(1 / 2 : ℝ) ≤ (j : ℝ) - c by linarith [hr.2])
      hω0.le
    rw [hvc]; linarith
  have hv2 : v ≤ ω / 2 := by
    have := mul_le_mul_of_nonneg_right (show (j : ℝ) - c ≤ 1 / 2 by linarith [hr.1])
      hω0.le
    rw [hvc]; linarith
  refine ⟨j, ?_, ?_, ?_⟩
  · have : (j1 : ℝ) + 1 < (j : ℝ) := by
      have : ((j : ℝ) - (j1 : ℝ)) * ω > ω := by
        have e1 : ((j : ℝ) - (j1 : ℝ)) * ω
            = v + 2 * Real.pi
              - ((j1 : ℝ) * ω + φ - (Real.pi / 2 + 2 * Real.pi * (m1 : ℝ))) := by
          rw [hv]; push_cast; ring
        rw [e1]
        linarith [h1.2, hv1, hωπ]
      have := lt_of_mul_lt_mul_right
        (show 1 * ω < ((j : ℝ) - (j1 : ℝ)) * ω by linarith) hω0.le
      linarith
    have : j1 + 1 < j := by exact_mod_cast this
    omega
  · have : (j : ℝ) + 1 < (j2 : ℝ) := by
      have : ((j2 : ℝ) - (j : ℝ)) * ω > ω := by
        have e1 : ((j2 : ℝ) - (j : ℝ)) * ω
            = ((j2 : ℝ) * ω + φ - (Real.pi / 2 + 2 * Real.pi * (m2 : ℝ)))
              + 2 * Real.pi * ((m2 : ℝ) - (m1 : ℝ) - 1) - v := by
          rw [hv]; push_cast; ring
        rw [e1]
        have : 2 * Real.pi * 1 ≤ 2 * Real.pi * ((m2 : ℝ) - (m1 : ℝ) - 1) :=
          mul_le_mul_of_nonneg_left (by linarith) (by positivity)
        linarith [h2.1, hv2, hωπ]
      have := lt_of_mul_lt_mul_right
        (show 1 * ω < ((j2 : ℝ) - (j : ℝ)) * ω by linarith) hω0.le
      linarith
    have : j + 1 < j2 := by exact_mod_cast this
    omega
  · rw [← hv]
    exact abs_le.mpr ⟨hv1, hv2⟩

/-- Two samples of a sinusoid of period `P`, at the steps `j1 < j2`, that are both
larger than their two neighbours are apart by `P` within one step, unless a crest lies
between them whose nearest sample either equals its neighbour across the crest or is
larger than every other sample at most `w` steps away (`1 ≤ w < P / 2`). -/
theorem sin_consecutive_crests (P φ : ℝ) (w : Int) (hw1 : 1 ≤ w) (hwP : (w : ℝ) < P / 2)
    (j1 j2 : Int) (hlt : j1 < j2)
    (a1 : Real.sin (2 * Real.pi * ((j1 - 1 : Int) : ℝ) / P + φ)
      < Real.sin (2 * Real.pi * (j1 : ℝ) / P + φ))
    (b1 : Real.sin (2 * Real.pi * ((j1 + 1 : Int) : ℝ) / P + φ)
      < Real.sin (2 * Real.pi * (j1 : ℝ) / P + φ))
    (a2 : Real.sin (2 * Real.pi * ((j2 - 1 : Int) : ℝ) / P + φ)
      < Real.sin (2 * Real.pi * (j2 : ℝ) / P + φ))
    (b2 : Real.sin (2 * Real.pi * ((j2 + 1 : Int) : ℝ) / P + φ)
      < Real.sin (2 * Real.pi * (j2 : ℝ) / P + φ)) :
    |((j2 - j1 : Int) : ℝ) - P| < 1
    ∨ (∃ k : Int, j1 < k ∧ k + 1 < j2 ∧
        Real.sin (2 * Real.pi * (k : ℝ) / P + φ)
          = Real.sin (2 * Real.pi * ((k + 1 : Int) : ℝ) / P + φ))
    ∨ (∃ j : Int, j1 < j ∧ j < j2 ∧ ∀ k : Int, k ≠ j → j - w ≤ k → k ≤ j + w →
        Real.sin (2 * Real.pi * (k : ℝ) / P + φ)
          < Real.sin (2 * Real.pi * (j : ℝ) / P + φ)) := by
  have hpi := Real.pi_pos
  have hw1r : (1 : ℝ) ≤ (w : ℝ) := by exact_mod_cast hw1
  have hP : 2 < P := by linarith
  have hP0 : 0 < P := by linarith
  obtain ⟨ω, hω⟩ : ∃ ω : ℝ, ω = 2 * Real.pi / P := ⟨_, rfl⟩
  have hω0 : 0 < ω := by rw [hω]; positivity
  have hωP : ω * P = 2 * Real.pi := by rw [hω]; field_simp
  have hωπ : ω < Real.pi := by
    have : ω * 2 < ω * P := mul_lt_mul_of_pos_left hP hω0
    linarith
  have hwω : ((w : ℝ) + 1) * ω ≤ 2 * Real.pi := by
    have : ((w : ℝ) + 1) * ω ≤ P * ω := mul_le_mul_of_nonneg_right (by linarith) hω0.le
    linarith
  obtain ⟨m1, hm1⟩ := sin_peak_crest P φ ω hP hω j1 a1 b1
  obtain ⟨m2, hm2⟩ := sin_peak_crest P φ ω hP hω j2 a2 b2
  have h1 := abs_lt.mp hm1
  have h2 := abs_lt.mp hm2
  -- the samples as cosines of the offset from a crest
  have hs : ∀ (j n m : Int), Real.sin (2 * Real.pi * ((j + n : Int) : ℝ) / P + φ)
      = Real.cos ((j : ℝ) * ω + φ - (Real.pi / 2 + 2 * Real.pi * (m : ℝ)) + (n : ℝ) * ω) := by
    intro j n m
    have : 2 * Real.pi * ((j + n : Int) : ℝ) / P + φ = ((j : ℝ) * ω + φ) + (n : ℝ) * ω := by
      push_cast
      exact sinusoid_angle P φ ω hP0 hω j (n : ℝ)
    rw [this, sin_as_cos_of_crest _ _ m]
  have hM1 : 1 ≤ m2 - m1 := by
    by_contra hM
    have hM : m2 ≤ m1 := by omega
    have hMr : (m2 : ℝ) ≤ (m1 : ℝ) := by exact_mod_cast hM
    have hdr : (j1 : ℝ) + 1 ≤ (j2 : ℝ) := by exact_mod_cast hlt
    have p1 : 2 * Real.pi * (m2 : ℝ) ≤ 2 * Real.pi * (m1 : ℝ) :=
      mul_le_mul_of_nonneg_left hMr (by positivity)
    have p2 : ((j1 : ℝ) + 1) * ω ≤ (j2 : ℝ) * ω := mul_le_mul_of_nonneg_right hdr hω0.le
    linarith [h1.1, h2.2]
  by_cases hM : m2 - m1 = 1
  · left
    have hMr : (m2 : ℝ) = (m1 : ℝ) + 1 := by
      have : m2 = m1 + 1 := by omega
      exact_mod_cast this
    rw [hMr] at h2
    have e1 : (((j2 - j1 : Int) : ℝ) - P) * ω
        = ((j2 : ℝ) * ω + φ - (Real.pi / 2 + 2 * Real.pi * ((m1 : ℝ) + 1)))
          - ((j1 : ℝ) * ω + φ - (Real.pi / 2 + 2 * Real.pi * (m1 : ℝ))) := by
      push_cast; linarith
    rw [abs_lt]
    constructor
    · have : -(1 : ℝ) * ω < (((j2 - j1 : Int) : ℝ) - P) * ω := by rw [e1]; linarith [h1.2, h2.1]
      exact lt_of_mul_lt_mul_right this hω0.le
    · have : (((j2 - j1 : Int) : ℝ) - P) * ω < 1 * ω := by rw [e1]; linarith [h1.1, h2.2]
      exact lt_of_mul_lt_mul_right this hω0.le
  · right
    obtain ⟨j, hjlo, hjhi, hjv⟩ := sample_at_next_crest ω φ hω0 hωπ j1 j2 m1 m2 (by omega)
      hm1 hm2
    obtain ⟨v, hv⟩ : ∃ v : ℝ,
        v = (j : ℝ) * ω + φ - (Real.pi / 2 + 2 * Real.pi * ((m1 + 1 : Int) : ℝ)) := ⟨_, rfl⟩
    rw [← hv] at hjv
    have hvv := abs_le.mp hjv
    have hsv : ∀ n : Int, Real.sin (2 * Real.pi * ((j + n : Int) : ℝ) / P + φ)
        = Real.cos (v + (n : ℝ) * ω) := by
      intro n; rw [hv]; exact hs j n (m1 + 1)
    have hs0 : Real.sin (2 * Real.pi * (j : ℝ) / P + φ) = Real.cos v := by
      have := hsv 0
      simpa using this
    rcases eq_or_lt_of_le hvv.1 with hlo | hlo
    · -- the crest is midway between `j` and `j + 1`
      left
      refine ⟨j, by omega, by omega, ?_⟩
      rw [hs0, hsv 1, ← hlo]
      have : -(ω / 2) + ((1 : Int) : ℝ) * ω = ω / 2 := by push_cast; ring
      rw [this, Real.cos_neg]
    · rcases eq_or_lt_of_le hvv.2 with hhi | hhi
      · -- the crest is midway between `j - 1` and `j`
        left
        refine ⟨j - 1, by omega, by omega, ?_⟩
        have e1 : ((j - 1 + 1 : Int) : ℝ) = (j : ℝ) := by push_cast; ring
        have e2 := hsv (-1)
        rw [e1, hs0]
        have e3 : ((j - 1 : Int) : ℝ) = ((j + -1 : Int) : ℝ) := by push_cast; ring
        rw [e3, e2, hhi]
        have : ω / 2 + ((-1 : Int) : ℝ) * ω = -(ω / 2) := by push_cast; ring
        rw [this, Real.cos_neg]
      · right
        refine ⟨j, by omega, by omega, fun k hk hk1 hk2 => ?_⟩
        have hkn : k = j + (k - j) := by omega
        rw [hs0]
        have := hsv (k - j)
        rw [← hkn] at this
        rw [this]
        exact cos_near_crest_lt ω v (k - j) w hω0 (abs_lt.mpr ⟨hlo, hhi⟩) (by omega)
          (abs_le.mpr ⟨by omega, by omega⟩) hwω

/-- The store `quad_cl` holds the samples of the sinusoid of amplitude 1, period 4 and
phase 0. -/
theorem quad_cl_sample (k : Int) :
    ((quad_cl.cons 1 k 0 : ℚ) : ℝ) = Real.sin (2 * Real.pi * (k : ℝ) / 4 + 0) := by
  have hk : k = 4 * (k / 4) + k % 4 := (Int.ediv_add_emod k 4).symm
  have h0 : 0 ≤ k % 4 := Int.emod_nonneg k (by norm_num)
  have h4 : k % 4 < 4 := Int.emod_lt_of_pos k (by norm_num)
  have e : 2 * Real.pi * (k : ℝ) / 4 + 0
      = (Real.pi * ((k % 4 : Int) : ℝ) / 2) + ((k / 4 : Int) : ℝ) * (2 * Real.pi) := by
    have : (k : ℝ) = 4 * ((k / 4 : Int) : ℝ) + ((k % 4 : Int) : ℝ) := by exact_mod_cast hk
    rw [this]; ring
  rw [e, Real.sin_add_int_mul_two_pi]
  simp only [quad_cl, one_ne_zero, if_false]
  generalize k % 4 = r at h0 h4
  interval_cases r
  · simp
  · simp
  · have : Real.pi * ((2 : Int) : ℝ) / 2 = Real.pi := by push_cast; ring
    rw [this, Real.sin_pi]
    simp
  · have : Real.pi * ((3 : Int) : ℝ) / 2 = Real.pi / 2 + Real.pi := by push_cast; ring
    rw [this, Real.sin_add_pi, Real.sin_pi_div_two]
    simp

/-- For a whole half width `w` the window loops of the step `j` examine the steps from
`max (j - w) time_start` to `min (j + w) bound`. -/
theorem window_whole_iff (sd : sim_data) (time_start bound j w k : Int)
    (hw : half_width sd = (w : ℚ)) :
    (window_first sd time_start j ≤ k ∧ (k : ℚ) ≤ window_bound sd j bound) ↔
      (j - w ≤ k ∧ time_start ≤ k) ∧ (k ≤ j + w ∧ k ≤ bound) := by
  rw [window_first_whole sd time_start j w hw, window_bound_whole sd j bound w hw,
    Int.cast_le, max_le_iff, le_min_iff]

/-- For a half width of at least one step, the step after `j` is examined by the
window loops of step `j`. -/
theorem next_in_window (sd : sim_data) (time_start bound j : Int)
    (hw : 1 ≤ half_width sd) (hts : 0 ≤ time_start) (h1 : time_start < j)
    (h2 : j + 1 ≤ bound) :
    window_first sd time_start j ≤ j + 1
      ∧ ((j + 1 : Int) : ℚ) ≤ window_bound sd j bound := by
  constructor
  · have := (prev_in_window sd time_start bound j (by linarith) hts h1 (by omega)).1
    omega
  · unfold window_bound
    rw [MIN_eq_min]
    refine le_min ?_ (by exact_mod_cast h2)
    push_cast
    linarith

/-- A step that the first detector reports as a peak holds a value above the values
of the step before it and of the step after it. -/
theorem gpt1_peak_above_neighbours (BIRTH : Int) (sd : sim_data) (cl : con_levels)
    (actual_cell time_start : Int) (crit_points type position : growin_array) (mr : Int)
    (hw : 1 ≤ half_width sd) (hts : 0 ≤ time_start) (j : Int)
    (h : recorded (get_peaks_and_troughs1 BIRTH sd cl actual_cell time_start
        crit_points type position mr) j 1) :
    cl.cons mr (j - 1) actual_cell < cl.cons mr j actual_cell ∧
    cl.cons mr (j + 1) actual_cell < cl.cons mr j actual_cell := by
  obtain ⟨hv, hk⟩ := (recorded_gpt1_iff _ _ _ _ _ _ _ _ _ _ _).mp h
  have hp : is_peak_at sd (fun t => cl.cons mr t actual_cell) time_start sd.time_end j = true := by
    rcases hk with ⟨_, hp⟩ | ⟨hk, _⟩
    · exact hp
    · omega
  have hte := visited_lt_time_end _ _ _ _ _ _ hv
  have hall := (is_peak_at_eq_true _ _ _ _ _).mp hp
  obtain ⟨p1, p2⟩ := prev_in_window sd time_start sd.time_end j (by linarith) hts hv.1 (by omega)
  obtain ⟨n1, n2⟩ := next_in_window sd time_start sd.time_end j hw hts hv.1 (by omega)
  have a := hall (j - 1) p1 p2
  have b := hall (j + 1) n1 n2
  constructor
  · by_contra hc
    exact a ⟨not_lt.mp hc, by omega⟩
  · by_contra hc
    exact b ⟨not_lt.mp hc, by omega⟩

/-! ## The properties of the detector on a sinusoid -/

/-- C26, as stated, fails: the values of the store `sine_cl` are ordered as the
samples `1 * sin (2 π k / (5/2) + π / 10)` of a sinusoid of the period `P = 5/2`, and
the window half width is `w = 1`, so that `1 ≤ w < P / 2`. The crests at the steps 1/2
and 11/2 fall midway between two samples, which are equal (the samples of the steps 5
and 6 are the same real number), so no peak is reported there: the rows of the detector
are the peaks 3 and 8 with troughs only between them, and the difference 5 of these two
consecutive peaks is not within one step of `P`. -/
theorem sinusoid_tie_skips_crest :
    (1 ≤ half_width sine_sd ∧ ((half_width sine_sd : ℚ) : ℝ) < (5 / 2 : ℝ) / 2) ∧
    (∀ j k : Int, sine_cl.cons 1 j 0 ≤ sine_cl.cons 1 k 0 ↔
      1 * Real.sin (2 * Real.pi * (j : ℝ) / (5 / 2) + Real.pi / 10)
        ≤ 1 * Real.sin (2 * Real.pi * (k : ℝ) / (5 / 2) + Real.pi / 10)) ∧
    Real.sin (2 * Real.pi * ((5 : Int) : ℝ) / (5 / 2) + Real.pi / 10)
      = Real.sin (2 * Real.pi * ((6 : Int) : ℝ) / (5 / 2) + Real.pi / 10) ∧
    (get_peaks_and_troughs1 0 sine_sd sine_cl 0 0 zero_array zero_array zero_array 1).rows
      = [(2, -1, 0), (3, 1, 0), (4, -1, 0), (7, -1, 0), (8, 1, 0), (9, -1, 0)] ∧
    ¬ (|(((8 : Int) - 3 : Int) : ℝ) - 5 / 2| ≤ 1) := by
  have hw : half_width sine_sd = 1 := by decide!
  refine ⟨⟨by decide!, ?_⟩, sine_cl_order, ?_, by decide!, ?_⟩
  · rw [hw]; norm_num
  · rw [sine_sample 5, sine_sample 6]
    norm_num
  · norm_num [abs_le]

/-- C26, amended: for a cell whose concentrations at the steps of the run are ordered as
the samples `A * sin (2 π k / P + φ)` of a sinusoid with `A > 0`, and a window half
width `w` that is a whole number with `1 ≤ w < P / 2`, the times of two consecutive
peaks reported by `get_peaks_and_troughs1` differ by `d` with `|d - P| < 1`, provided
that no two adjacent steps between the two peaks hold equal concentrations. -/
theorem gpt1_sinusoid_consecutive_peaks (BIRTH : Int) (sd : sim_data) (cl : con_levels)
    (actual_cell time_start : Int) (crit_points type position : growin_array) (mr : Int)
    (A P φ : ℝ) (w : Int) (hA : 0 < A) (hw : half_width sd = (w : ℚ)) (hw1 : 1 ≤ w)
    (hwP : (w : ℝ) < P / 2)
    (hord : ∀ j k : Int, time_start ≤ j → j ≤ sd.time_end → time_start ≤ k →
      k ≤ sd.time_end →
      (cl.cons mr j actual_cell ≤ cl.cons mr k actual_cell ↔
        A * Real.sin (2 * Real.pi * (j : ℝ) / P + φ)
          ≤ A * Real.sin (2 * Real.pi * (k : ℝ) / P + φ)))
    (j1 j2 : Int)
    (h1 : recorded (get_peaks_and_troughs1 BIRTH sd cl actual_cell time_start
        crit_points type position mr) j1 1)
    (h2 : recorded (get_peaks_and_troughs1 BIRTH sd cl actual_cell time_start
        crit_points type position mr) j2 1)
    (hlt : j1 < j2)
    (hnext : ∀ j : Int, j1 < j → j < j2 →
      ¬ recorded (get_peaks_and_troughs1 BIRTH sd cl actual_cell time_start
        crit_points type position mr) j 1)
    (hno : ∀ k : Int, j1 < k → k + 1 < j2 →
      cl.cons mr k actual_cell ≠ cl.cons mr (k + 1) actual_cell) :
    |((j2 - j1 : Int) : ℝ) - P| < 1 := by
  obtain ⟨hv1, hk1⟩ := (recorded_gpt1_iff _ _ _ _ _ _ _ _ _ _ _).mp h1
  obtain ⟨hv2, hk2⟩ := (recorded_gpt1_iff _ _ _ _ _ _ _ _ _ _ _).mp h2
  have hp1 : is_peak_at sd (fun t => cl.cons mr t actual_cell) time_start sd.time_end j1
      = true := by
    rcases hk1 with ⟨_, hp⟩ | ⟨hk, _⟩
    · exact hp
    · omega
  have hp2 : is_peak_at sd (fun t => cl.cons mr t actual_cell) time_start sd.time_end j2
      = true := by
    rcases hk2 with ⟨_, hp⟩ | ⟨hk, _⟩
    · exact hp
    · omega
  have hte1 := visited_lt_time_end _ _ _ _ _ _ hv1
  have hte2 := visited_lt_time_end _ _ _ _ _ _ hv2
  have hts1 := hv1.1
  -- a strict comparison of two concentrations of the run is one of the samples
  have hlt_iff : ∀ j k : Int, time_start ≤ j → j ≤ sd.time_end → time_start ≤ k →
      k ≤ sd.time_end → cl.cons mr j actual_cell < cl.cons mr k actual_cell →
      Real.sin (2 * Real.pi * (j : ℝ) / P + φ) < Real.sin (2 * Real.pi * (k : ℝ) / P + φ) := by
    intro j k hj1 hj2 hk1 hk2 h
    by_contra hc
    have : A * Real.sin (2 * Real.pi * (k : ℝ) / P + φ)
        ≤ A * Real.sin (2 * Real.pi * (j : ℝ) / P + φ) :=
      mul_le_mul_of_nonneg_left (not_lt.mp hc) (le_of_lt hA)
    exact absurd ((hord k j hk1 hk2 hj1 hj2).mpr this) (not_le.mpr h)
  -- a reported peak is above the step before it and the step after it
  have habove : ∀ j : Int, time_start < j → j < sd.time_end - 1 →
      is_peak_at sd (fun t => cl.cons mr t actual_cell) time_start sd.time_end j = true →
      cl.cons mr (j - 1) actual_cell < cl.cons mr j actual_cell ∧
      cl.cons mr (j + 1) actual_cell < cl.cons mr j actual_cell := by
    intro j hj1 hj2 hp
    have hall := (is_peak_at_eq_true _ _ _ _ _).mp hp
    have a := hall (j - 1) ((window_whole_iff sd time_start sd.time_end j w (j - 1) hw).mpr
      ⟨⟨by omega, by omega⟩, by omega, by omega⟩).1
      ((window_whole_iff sd time_start sd.time_end j w (j - 1) hw).mpr
      ⟨⟨by omega, by omega⟩, by omega, by omega⟩).2
    have b := hall (j + 1) ((window_whole_iff sd time_start sd.time_end j w (j + 1) hw).mpr
      ⟨⟨by omega, by omega⟩, by omega, by omega⟩).1
      ((window_whole_iff sd time_start sd.time_end j w (j + 1) hw).mpr
      ⟨⟨by omega, by omega⟩, by omega, by omega⟩).2
    constructor
    · by_contra hc
      exact a ⟨not_lt.mp hc, by omega⟩
    · by_contra hc
      exact b ⟨not_lt.mp hc, by omega⟩
  obtain ⟨a1, b1⟩ := habove j1 hts1 hte1 hp1
  obtain ⟨a2, b2⟩ := habove j2 hv2.1 hte2 hp2
  rcases sin_consecutive_crests P φ w hw1 hwP j1 j2 hlt
    (hlt_iff _ _ (by omega) (by omega) (by omega) (by omega) a1)
    (hlt_iff _ _ (by omega) (by omega) (by omega) (by omega) b1)
    (hlt_iff _ _ (by omega) (by omega) (by omega) (by omega) a2)
    (hlt_iff _ _ (by omega) (by omega) (by omega) (by omega) b2) with h | h | h
  · exact h
  · -- a crest midway between two steps: the two steps hold equal concentrations
    exfalso
    obtain ⟨k, hk1, hk2, hs⟩ := h
    apply hno k hk1 hk2
    apply le_antisymm
    · exact (hord k (k + 1) (by omega) (by omega) (by omega) (by omega)).mpr (by rw [hs])
    · exact (hord (k + 1) k (by omega) (by omega) (by omega) (by omega)).mpr (by rw [hs])
  · -- the sample nearest to the crest is reported as a peak
    exfalso
    obtain ⟨j, hj1, hj2, hs⟩ := h
    apply hnext j hj1 hj2
    rw [recorded_gpt1_iff]
    refine ⟨⟨by omega, fun t ht1 ht2 => hv2.2 t ht1 (by omega)⟩, Or.inl ⟨rfl, ?_⟩⟩
    rw [is_peak_at_eq_true]
    rintro k hk1 hk2 ⟨hle, hne⟩
    obtain ⟨⟨q1, q2⟩, q3, q4⟩ :=
      (window_whole_iff sd time_start sd.time_end j w k hw).mp ⟨hk1, hk2⟩
    have h3 := (hord j k (by omega) (by omega) q2 q4).mp hle
    have h4 := hs k (Ne.symm hne) q1 q3
    have h5 : A * Real.sin (2 * Real.pi * (k : ℝ) / P + φ)
        < A * Real.sin (2 * Real.pi * (j : ℝ) / P + φ) := mul_lt_mul_of_pos_left h4 hA
    linarith

theorem gpt1_sinusoid_consecutive_peaks_witness :
    (get_peaks_and_troughs1 0 sine_sd quad_cl 0 0 zero_array zero_array zero_array 1).rows
      = [(1, 1, 0), (3, -1, 0), (5, 1, 0), (7, -1, 0), (9, 1, 0)] ∧
    |(((5 : Int) - 1 : Int) : ℝ) - 4| < 1 :=
  ⟨by decide!,
    gpt1_sinusoid_consecutive_peaks 0 sine_sd quad_cl 0 0 zero_array zero_array zero_array 1
      1 4 0 1 one_pos (by decide!) (by decide) (by norm_num)
      (fun j k _ _ _ _ => by
        rw [one_mul, one_mul, ← quad_cl_sample j, ← quad_cl_sample k, Rat.cast_le])
      1 5 ⟨0, by decide!, by decide!, by decide!⟩ ⟨2, by decide!, by decide!, by decide!⟩
      (by decide)
      (fun j hj1 hj2 h => by
        obtain ⟨_, hk⟩ := (recorded_gpt1_iff _ _ _ _ _ _ _ _ _ _ _).mp h
        rcases hk with ⟨_, hp⟩ | ⟨hk, _⟩
        · interval_cases j <;> revert hp <;> decide!
        · omega)
      (fun k hk1 hk2 => by
        have hk3 : k < 4 := by omega
        interval_cases k <;> decide!)⟩

/-- For a cell whose concentrations are ordered as the samples `A * sin (2 π k / P + φ)`
of a sinusoid with `A > 0` and `1 ≤ w < P / 2` for the window half width `w`, whole or
not, the times of any two peaks reported by `get_peaks_and_troughs1` differ by a
positive whole multiple `M` of the period, within one step: `|d - M * P| < 1`. -/
theorem gpt1_sinusoid_peak_spacing (BIRTH : Int) (sd : sim_data) (cl : con_levels)
    (actual_cell time_start : Int) (crit_points type position : growin_array) (mr : Int)
    (A P φ : ℝ) (hts : 0 ≤ time_start) (hA : 0 < A) (hw1 : 1 ≤ half_width sd)
    (hwP : ((half_width sd : ℚ) : ℝ) < P / 2)
    (hord : ∀ j k : Int, cl.cons mr j actual_cell ≤ cl.cons mr k actual_cell ↔
      A * Real.sin (2 * Real.pi * (j : ℝ) / P + φ)
        ≤ A * Real.sin (2 * Real.pi * (k : ℝ) / P + φ))
    (j1 j2 : Int)
    (h1 : recorded (get_peaks_and_troughs1 BIRTH sd cl actual_cell time_start
        crit_points type position mr) j1 1)
    (h2 : recorded (get_peaks_and_troughs1 BIRTH sd cl actual_cell time_start
        crit_points type position mr) j2 1)
    (hlt : j1 < j2) :
    ∃ M : Int, 1 ≤ M ∧ |((j2 - j1 : Int) : ℝ) - (M : ℝ) * P| < 1 := by
  have hP : 2 < P := by
    have : (1 : ℝ) ≤ ((half_width sd : ℚ) : ℝ) := by exact_mod_cast hw1
    linarith
  have hlt_iff : ∀ j k : Int, cl.cons mr j actual_cell < cl.cons mr k actual_cell →
      Real.sin (2 * Real.pi * (j : ℝ) / P + φ) < Real.sin (2 * Real.pi * (k : ℝ) / P + φ) := by
    intro j k h
    by_contra hc
    have : A * Real.sin (2 * Real.pi * (k : ℝ) / P + φ)
        ≤ A * Real.sin (2 * Real.pi * (j : ℝ) / P + φ) :=
      mul_le_mul_of_nonneg_left (not_lt.mp hc) (le_of_lt hA)
    exact absurd ((hord k j).mpr this) (not_le.mpr h)
  obtain ⟨a1, b1⟩ := gpt1_peak_above_neighbours BIRTH sd cl actual_cell time_start
    crit_points type position mr hw1 hts j1 h1
  obtain ⟨a2, b2⟩ := gpt1_peak_above_neighbours BIRTH sd cl actual_cell time_start
    crit_points type position mr hw1 hts j2 h2
  exact sin_peaks_spacing P φ hP j1 j2 hlt (hlt_iff _ _ a1) (hlt_iff _ _ b1)
    (hlt_iff _ _ a2) (hlt_iff _ _ b2)

theorem gpt1_sinusoid_peak_spacing_witness :
    ∃ M : Int, 1 ≤ M ∧ |(((8 : Int) - 3 : Int) : ℝ) - (M : ℝ) * (5 / 2)| < 1 :=
  gpt1_sinusoid_peak_spacing 0 sine_sd sine_cl 0 0 zero_array zero_array zero_array 1
    1 (5 / 2) (Real.pi / 10) (by decide) one_pos (by decide!)
    (by
      have hw : half_width sine_sd = 1 := by decide!
      rw [hw]; norm_num)
    sine_cl_order 3 8 ⟨1, by decide!, by decide!, by decide!⟩
    ⟨4, by decide!, by decide!, by decide!⟩ (by decide)

/-! ## The range of the Pearson correlation -/

/-- C31: over the reals, with the real square root, the value returned by
`pearson_correlation` lies in the closed interval from -1 to 1, for all sequences `x`
and `y` and every sub-range (an empty sub-range and a sequence without variance give
the value 1). -/
theorem pearson_range (x y : Int → ℝ) (start end_ : Int) :
    -1 ≤ pearson_correlation Real.sqrt x y start end_ ∧
    pearson_correlation Real.sqrt x y start end_ ≤ 1 := by
  rw [pearson_correlation_eq Real.sqrt x y start end_ _ _ rfl rfl]
  set xa : ℝ := (∑ i in Finset.range (end_ - start).toNat, x (start + (i : Int)))
    / ((end_ - start : Int) : ℝ) with hxa
  set ya : ℝ := (∑ i in Finset.range (end_ - start).toNat, y (start + (i : Int)))
    / ((end_ - start : Int) : ℝ) with hya
  set Sxx : ℝ := ∑ i in Finset.range (end_ - start).toNat,
    (x (start + (i : Int)) - xa) * (x (start + (i : Int)) - xa) with hSxx
  set Syy : ℝ := ∑ i in Finset.range (end_ - start).toNat,
    (y (start + (i : Int)) - ya) * (y (start + (i : Int)) - ya) with hSyy
  set Sxy : ℝ := ∑ i in Finset.range (end_ - start).toNat,
    (x (start + (i : Int)) - xa) * (y (start + (i : Int)) - ya) with hSxy
  by_cases h0 : Real.sqrt Sxx = 0 ∨ Real.sqrt Syy = 0
  · rw [if_pos h0]
    constructor <;> norm_num
  · rw [if_neg h0]
    push_neg at h0
    have hx0 : 0 ≤ Sxx := Finset.sum_nonneg (fun i _ => mul_self_nonneg _)
    have hy0 : 0 ≤ Syy := Finset.sum_nonneg (fun i _ => mul_self_nonneg _)
    have hpos : 0 < Real.sqrt Sxx * Real.sqrt Syy :=
      mul_pos (lt_of_le_of_ne (Real.sqrt_nonneg _) (Ne.symm h0.1))
        (lt_of_le_of_ne (Real.sqrt_nonneg _) (Ne.symm h0.2))
    have hcs : Sxy ^ 2 ≤ Sxx * Syy := by
      have := Finset.sum_mul_sq_le_sq_mul_sq (Finset.range (end_ - start).toNat)
        (fun i => x (start + (i : Int)) - xa) (fun i => y (start + (i : Int)) - ya)
      simp only [pow_two] at this ⊢
      exact this
    have habs : |Sxy| ≤ Real.sqrt Sxx * Real.sqrt Syy := by
      rw [← Real.sqrt_mul hx0]
      exact Real.abs_le_sqrt hcs
    have h1 := abs_le.mp habs
    constructor
    · rw [le_div_iff₀ hpos]
      linarith
    · rw [div_le_one hpos]
      exact h1.2

/-! ## The records of the wave scan -/

/-- The invariant of the scan on the closed records: they are well formed, ordered,
and end before the scanned position; inside a run the record of the open wave has
its start, after the end of the last closed record. -/
theorem wave_scan_upto_closed (conc : Int → ℚ) (thresh : ℚ) (init : wave_state)
    (h0 : init.num_waves = 0) (n : Nat) :
    (∀ i, i < min (wave_scan_upto conc thresh init n).1.num_waves 3 →
      0 ≤ ((wave_scan_upto conc thresh init n).1.waves i).1
      ∧ ((wave_scan_upto conc thresh init n).1.waves i).1
          < ((wave_scan_upto conc thresh init n).1.waves i).2
      ∧ ((wave_scan_upto conc thresh init n).1.waves i).2 ≤ (n : Int) - 1) ∧
    (∀ i, i + 1 < min (wave_scan_upto conc thresh init n).1.num_waves 3 →
      ((wave_scan_upto conc thresh init n).1.waves i).2
        ≤ ((wave_scan_upto conc thresh init n).1.waves (i + 1)).1) ∧
    ((wave_scan_upto conc thresh init n).2 = false →
      (wave_scan_upto conc thresh init n).1.num_waves ≤ 3 ∧
      (1 ≤ n → conc ((n : Int) - 1) ≥ thresh →
        0 ≤ ((wave_scan_upto conc thresh init n).1.waves
            (wave_scan_upto conc thresh init n).1.num_waves).1
        ∧ ((wave_scan_upto conc thresh init n).1.waves
            (wave_scan_upto conc thresh init n).1.num_waves).1 ≤ (n : Int) - 1
        ∧ (1 ≤ (wave_scan_upto conc thresh init n).1.num_waves →
          ((wave_scan_upto conc thresh init n).1.waves
              ((wave_scan_upto conc thresh init n).1.num_waves - 1)).2
            ≤ ((wave_scan_upto conc thresh init n).1.waves
              (wave_scan_upto conc thresh init n).1.num_waves).1))) := by
  induction n with
  | zero =>
    rw [wave_scan_upto_zero]
    simp [h0]
  | succ k ih =>
    rw [wave_scan_upto_succ]
    by_cases hb : (wave_scan_upto conc thresh init k).2 = true
    · rw [if_pos hb]
      obtain ⟨i1, i2, _⟩ := ih
      refine ⟨fun i hi => ?_, i2, fun h => ?_⟩
      · obtain ⟨a, b, c⟩ := i1 i hi
        exact ⟨a, b, by push_cast; omega⟩
      · rw [hb] at h; exact absurd h (by simp)
    · rw [if_neg hb]
      have hb2 : (wave_scan_upto conc thresh init k).2 = false := by simpa using hb
      obtain ⟨i1, i2, i3⟩ := ih
      obtain ⟨hle, hopen⟩ := i3 hb2
      generalize wave_scan_upto conc thresh init k = r at *
      have hmin : min r.1.num_waves 3 = r.1.num_waves := min_eq_left hle
      rw [hmin] at i1 i2
      by_cases hs : wave_start_cond conc thresh (k : Int)
      · by_cases h3 : r.1.num_waves = 3
        · rw [wave_body_overflow conc thresh _ _ (Or.inl hs) h3]
          simp only
          refine ⟨fun i hi => ?_, fun i hi => ?_, fun h => absurd h (by simp)⟩
          · obtain ⟨a, b, c⟩ := i1 i (by omega)
            exact ⟨a, b, by push_cast; omega⟩
          · exact i2 i (by omega)
        · rw [wave_body_start conc thresh _ _ hs h3]
          simp only
          have hlt : r.1.num_waves < 3 := by omega
          rw [min_eq_left hle]
          -- the last closed record ends before the new start
          have hprev : 1 ≤ r.1.num_waves →
              (r.1.waves (r.1.num_waves - 1)).2
                ≤ (if (k : Int) = 0 then 0 else (k : Int) - 1) := by
            intro h1
            obtain ⟨a, b, c⟩ := i1 (r.1.num_waves - 1) (by omega)
            have : ¬ ((k : Int) = 0) := by omega
            rw [if_neg this]
            rcases hs.2 with hk0 | hlt2
            · omega
            · omega
          refine ⟨fun i hi => ?_, fun i hi => ?_, fun _ => ⟨hle, fun _ _ => ?_⟩⟩
          · have hne : i ≠ r.1.num_waves := by omega
            simp only [set_first, if_neg hne]
            obtain ⟨a, b, c⟩ := i1 i hi
            exact ⟨a, b, by push_cast; omega⟩
          · have hne : i ≠ r.1.num_waves := by omega
            have hne2 : i + 1 ≠ r.1.num_waves := by omega
            simp only [set_first, if_neg hne, if_neg hne2]
            exact i2 i hi
          · simp only [set_first, if_true]
            refine ⟨by split_ifs <;> omega, by push_cast; split_ifs <;> omega, fun h1 => ?_⟩
            have hne : r.1.num_waves - 1 ≠ r.1.num_waves := by omega
            rw [if_neg hne]
            exact hprev h1
      · by_cases he : wave_end_cond conc thresh (k : Int)
        · by_cases h3 : r.1.num_waves = 3
          · rw [wave_body_overflow conc thresh _ _ (Or.inr he) h3]
            simp only
            refine ⟨fun i hi => ?_, fun i hi => ?_, fun h => absurd h (by simp)⟩
            · obtain ⟨a, b, c⟩ := i1 i (by omega)
              exact ⟨a, b, by push_cast; omega⟩
            · exact i2 i (by omega)
          · rw [wave_body_end conc thresh _ _ he h3]
            simp only
            have hlt : r.1.num_waves < 3 := by omega
            have hk1 : 1 ≤ k := by have := he.2.1; omega
            obtain ⟨o1, o2, o3⟩ := hopen hk1 he.2.2
            have hmin2 : min (r.1.num_waves + 1) 3 = r.1.num_waves + 1 := min_eq_left (by omega)
            rw [hmin2]
            refine ⟨fun i hi => ?_, fun i hi => ?_, fun _ => ⟨by omega, fun _ hc => ?_⟩⟩
            · by_cases hik : i = r.1.num_waves
              · simp only [set_second, if_pos hik]
                rw [hik]
                exact ⟨o1, by omega, by push_cast; omega⟩
              · simp only [set_second, if_neg hik]
                obtain ⟨a, b, c⟩ := i1 i (by omega)
                exact ⟨a, b, by push_cast; omega⟩
            · have hne : i ≠ r.1.num_waves := by omega
              by_cases hik : i + 1 = r.1.num_waves
              · simp only [set_second, if_neg hne, if_pos hik]
                have := o3 (by omega)
                have e : r.1.num_waves - 1 = i := by omega
                rw [e] at this
                rw [hik]
                exact this
              · simp only [set_second, if_neg hne, if_neg hik]
                exact i2 i (by omega)
            · exfalso
              have : ((k + 1 : Nat) : Int) - 1 = (k : Int) := by push_cast; omega
              rw [this] at hc
              exact absurd hc (not_le.mpr he.1)
        · rw [wave_body_none conc thresh _ _ hs he]
          simp only
          rw [hmin]
          refine ⟨fun i hi => ?_, i2, fun _ => ⟨hle, fun _ hc => ?_⟩⟩
          · obtain ⟨a, b, c⟩ := i1 i hi
            exact ⟨a, b, by push_cast; omega⟩
          · have e : ((k + 1 : Nat) : Int) - 1 = (k : Int) := by push_cast; omega
            rw [e] at hc
            have hk1 : 1 ≤ k := by
              by_contra hk
              have : (k : Int) = 0 := by omega
              exact hs ⟨hc, Or.inl this⟩
            have hprev : conc ((k : Int) - 1) ≥ thresh := by
              by_contra hp
              exact hs ⟨hc, Or.inr (not_le.mp hp)⟩
            obtain ⟨o1, o2, o3⟩ := hopen hk1 hprev
            exact ⟨o1, by push_cast; omega, o3⟩

/-- The segment loop of `wave_testing_mesp` over at most three records reads only the
records 0, 1 and 2. -/
theorem mesp_length_loop_congr (sd : sim_data) (w1 w2 : Nat → Int × Int) (n : Nat)
    (st : length_state) (h : ∀ i, i < n → w1 i = w2 i) :
    mesp_length_loop sd w1 n st = mesp_length_loop sd w2 n st := by
  unfold mesp_length_loop
  congr 1
  apply List.foldl_ext
  intro r k hk
  have hk2 := List.mem_range.mp hk
  unfold mesp_length_body
  rw [h k hk2]

/-! ## The properties of the wave records -/

/-- C35 fails on the code: the segment loop of `wave_testing_mesp` runs over the records
`0` to `num_waves - 1` without the test `num_waves <= 3` of `wave_testing`. When the
count is at most 3 it reads the records 0 to 2 only. On the profile 1,0,1,0,1,0,1,0,1,0
the scan ends with the count 4 and the records (0,1), (1,3), (3,5); none of them is in
a band, so the loop goes on to the index 3, and the flag that it leaves depends on
what is read there: it is false for the content (0, 10) and true for the content
(0, 4). -/
theorem mesp_length_loop_reads_fourth_record :
    (∀ (sd : sim_data) (w1 w2 : Nat → Int × Int) (n : Nat) (st : length_state), n ≤ 3 →
      (∀ i, i < 3 → w1 i = w2 i) →
      mesp_length_loop sd w1 n st = mesp_length_loop sd w2 n st) ∧
    over_scan.num_waves = 4 ∧
    (List.range 3).map over_scan.waves = [(0, 1), (1, 3), (3, 5)] ∧
    (∀ i, i < 3 → (set_second over_scan.waves 3 4) i = over_scan.waves i) ∧
    (mesp_length_loop mid_sd over_scan.waves over_scan.num_waves
      { wlength_post := 5, wlength_ant := 3, c8 := true }).c8 = false ∧
    (mesp_length_loop mid_sd (set_second over_scan.waves 3 4) over_scan.num_waves
      { wlength_post := 5, wlength_ant := 3, c8 := true }).c8 = true := by
  refine ⟨fun sd w1 w2 n st hn h => mesp_length_loop_congr sd w1 w2 n st
    (fun i hi => h i (by omega)), by decide!, by decide!, ?_, by decide!, by decide!⟩
  intro i hi
  have : i ≠ 3 := by omega
  simp only [set_second, if_neg this]

/-- C38: for every profile and threshold, each record `i < min(num_waves, 3)` closed
by the scan has `0 ≤ first < second ≤ width_total - 1`, and consecutive closed records
do not overlap: `second_i ≤ first_(i+1)`. -/
theorem wave_scan_closed_segments (sd : sim_data) (conc : Int → ℚ) (thresh : ℚ) :
    (∀ i : Nat, i < min (wave_scan sd conc thresh).num_waves 3 →
      0 ≤ ((wave_scan sd conc thresh).waves i).1
      ∧ ((wave_scan sd conc thresh).waves i).1 < ((wave_scan sd conc thresh).waves i).2
      ∧ ((wave_scan sd conc thresh).waves i).2 ≤ sd.width_total - 1) ∧
    (∀ i : Nat, i + 1 < min (wave_scan sd conc thresh).num_waves 3 →
      ((wave_scan sd conc thresh).waves i).2 ≤ ((wave_scan sd conc thresh).waves (i + 1)).1) := by
  obtain ⟨h1, h2, _⟩ := wave_scan_upto_closed conc thresh (wave_init sd) rfl
    sd.width_total.toNat
  unfold wave_scan
  refine ⟨fun i hi => ?_, h2⟩
  obtain ⟨a, b, c⟩ := h1 i hi
  refine ⟨a, b, ?_⟩
  rcases le_or_lt 0 sd.width_total with hW | hW
  · rw [Int.toNat_of_nonneg hW] at c
    exact c
  · omega

/-! ## The samples of one cell of `osc_features_ant` -/

/-- What one cell adds to the sums and to the counter of passed cells. -/
theorem ant_cell_sums (BIRTH CMH1 CMMESPA CMMESPB : Int) (sqrt : ℚ → ℚ) (sd : sim_data)
    (cl : con_levels) (mr time_start : Int) (per_time0 : Nat → ℚ) (st : ant_state)
    (line : Int) :
    (ant_cell BIRTH CMH1 CMMESPA CMMESPB sqrt sd cl mr time_start per_time0 st line).period_avg
      = st.period_avg
        + cell_period (ant_cell_crit BIRTH CMH1 CMMESPA CMMESPB sd cl mr time_start st
            line).num_points
          (ant_cell_osc BIRTH CMH1 CMMESPA CMMESPB sd cl mr time_start per_time0 st line) ∧
    (ant_cell BIRTH CMH1 CMMESPA CMMESPB sqrt sd cl mr time_start per_time0 st line).amp_avg
      = st.amp_avg
        + cell_amp (ant_cell_crit BIRTH CMH1 CMMESPA CMMESPB sd cl mr time_start st
            line).num_points
          (ant_cell_osc BIRTH CMH1 CMMESPA CMMESPB sd cl mr time_start per_time0 st line) ∧
    (ant_cell BIRTH CMH1 CMMESPA CMMESPB sqrt sd cl mr time_start per_time0 st
        line).num_cells_passed
      = if (decide ((ant_cell_crit BIRTH CMH1 CMMESPA CMMESPB sd cl mr time_start st
              line).num_points ≥ 3)
            && giudicelli_test sd
              (ant_cell_osc BIRTH CMH1 CMMESPA CMMESPB sd cl mr time_start per_time0 st
                line)) = true ∧ mr = CMH1
        then st.num_cells_passed + 1 else st.num_cells_passed := by
  unfold ant_cell ant_cell_osc ant_cell_crit
  by_cases hm : mr ≠ CMMESPA
  · simp only [if_pos hm]
    exact ⟨trivial, trivial, trivial⟩
  · simp only [if_neg hm]
    exact ⟨trivial, trivial, trivial⟩

/-- Each period sample of `osc_samples` is the spacing of two critical points that are
two indices apart, in minutes. -/
theorem osc_samples_period_mem (sd : sim_data) (conc : Int → ℚ)
    (crit_points type position : growin_array) (n : Nat) (per_time0 : Nat → ℚ) (i : Nat)
    (hi : i < (osc_samples sd conc crit_points type position n per_time0).pers) :
    ∃ k : Nat, 2 ≤ k ∧ k < n ∧
      (osc_samples sd conc crit_points type position n per_time0).periods i
        = ((crit_points k - crit_points (k - 2) : Int) : ℚ) * sd.step_size
          * (sd.big_gran : ℚ) := by
  have hmem : ((osc_samples sd conc crit_points type position n per_time0).periods i,
      (osc_samples sd conc crit_points type position n per_time0).per_pos i)
      ∈ (osc_samples sd conc crit_points type position n per_time0).period_samples := by
    unfold osc_state.period_samples
    exact List.mem_map.mpr ⟨i, List.mem_range.mpr hi, rfl⟩
  unfold osc_samples at hmem hi
  by_cases hn : n ≥ 3
  · simp only [hn, if_true] at hmem
    rw [osc_fold_period_samples] at hmem
    simp only [osc_state.period_samples, List.range_zero, List.map_nil, List.nil_append,
      List.mem_map, List.mem_filter, List.mem_range, decide_eq_true_eq] at hmem
    obtain ⟨k, ⟨hk1, hk2⟩, hk3⟩ := hmem
    refine ⟨k, hk2.2, hk1, ?_⟩
    have := congrArg Prod.fst hk3
    simp only at this
    unfold osc_samples
    simp only [hn, if_true]
    exact this.symm
  · simp only [hn, if_false] at hi
    exact absurd hi (by simp)

theorem period_step_untouched (sd : sim_data) (crit_points type position : growin_array)
    (cur_point : Nat) (s : osc_state) (h : ∀ i, s.pers ≤ i → s.periods i = 0) :
    ∀ i, (period_step sd crit_points type position cur_point s).pers ≤ i →
      (period_step sd crit_points type position cur_point s).periods i = 0 := by
  unfold period_step
  split_ifs with hc
  · intro i hi
    simp only at hi
    have hne : i ≠ s.pers := by omega
    simp only [dwrite, if_neg hne]
    exact h i (by omega)
  · exact h

theorem amplitude_step_untouched (conc : Int → ℚ) (crit_points type position : growin_array)
    (num_points cur_point : Nat) (s : osc_state) (h : ∀ i, s.pers ≤ i → s.periods i = 0) :
    ∀ i, (amplitude_step conc crit_points type position num_points cur_point s).pers ≤ i →
      (amplitude_step conc crit_points type position num_points cur_point s).periods i = 0 := by
  unfold amplitude_step
  split_ifs with hc
  · exact h
  · exact h

/-- The entries of `periods` at and above the index `pers` still hold the 0 of the
`memset` of line 282. -/
theorem osc_samples_untouched (sd : sim_data) (conc : Int → ℚ)
    (crit_points type position : growin_array) (n : Nat) (per_time0 : Nat → ℚ) :
    ∀ i, (osc_samples sd conc crit_points type position n per_time0).pers ≤ i →
      (osc_samples sd conc crit_points type position n per_time0).periods i = 0 := by
  unfold osc_samples
  have key : ∀ (l : List Nat) (s : osc_state), (∀ i, s.pers ≤ i → s.periods i = 0) →
      ∀ i, (l.foldl
          (fun s cur_point =>
            amplitude_step conc crit_points type position n cur_point
              (period_step sd crit_points type position cur_point s)) s).pers ≤ i →
        (l.foldl
          (fun s cur_point =>
            amplitude_step conc crit_points type position n cur_point
              (period_step sd crit_points type position cur_point s)) s).periods i = 0 := by
    intro l
    induction l with
    | nil => intro s h; exact h
    | cons a t ih =>
      intro s h
      rw [List.foldl_cons]
      exact ih _ (amplitude_step_untouched conc crit_points type position n a _
        (period_step_untouched sd crit_points type position a s h))
  by_cases hn : n ≥ 3
  · simp only [hn, if_true]
    exact key _ _ (fun i _ => rfl)
  · simp only [hn, if_false]
    exact fun i _ => trivial

/-- The rows of one step: the peak row comes before the trough row. -/
theorem detect_rows_lex (sd : sim_data) (cl : con_levels)
    (actual_cell time_start mr bound j : Int) :
    List.Pairwise (fun a b : Int × Int × Int => a.1 < b.1 ∨ (a.1 = b.1 ∧ b.2.1 < a.2.1))
      (detect_rows sd cl actual_cell time_start mr bound j) := by
  unfold detect_rows
  split_ifs with h1 h2 h2 <;> simp

/-- Rows in the order of the steps, with at most a peak row and then a trough row for
each step: two rows that are two indices apart have different, increasing times. -/
theorem rows_two_apart (s : crit_state)
    (hlex : List.Pairwise
      (fun a b : Int × Int × Int => a.1 < b.1 ∨ (a.1 = b.1 ∧ b.2.1 < a.2.1)) s.rows)
    (hkind : ∀ r ∈ s.rows, r.2.1 = 1 ∨ r.2.1 = -1)
    (k : Nat) (hk2 : 2 ≤ k) (hk : k < s.num_points) :
    s.crit_points (k - 2) < s.crit_points k := by
  rw [List.pairwise_iff_getElem] at hlex
  have hlen := rows_length s
  have r1 := hlex (k - 2) (k - 1) (by omega) (by omega) (by omega)
  have r2 := hlex (k - 1) k (by omega) (by omega) (by omega)
  have k0 := hkind _ (row_mem_rows s (k - 2) (by omega))
  have k1 := hkind _ (row_mem_rows s (k - 1) (by omega))
  have k2 := hkind _ (row_mem_rows s k (by omega))
  simp only [crit_state.rows, List.getElem_map, List.getElem_range] at r1 r2
  simp only at k0 k1 k2
  omega

/-- Two critical points of one cell of `osc_features_ant` that are two indices apart
have increasing times. -/
theorem ant_cell_crit_two_apart (BIRTH CMH1 CMMESPA CMMESPB : Int) (sd : sim_data)
    (cl : con_levels) (mr time_start : Int) (st : ant_state) (line : Int)
    (k : Nat) (hk2 : 2 ≤ k)
    (hk : k < (ant_cell_crit BIRTH CMH1 CMMESPA CMMESPB sd cl mr time_start st
      line).num_points) :
    (ant_cell_crit BIRTH CMH1 CMMESPA CMMESPB sd cl mr time_start st line).crit_points (k - 2)
      < (ant_cell_crit BIRTH CMH1 CMMESPA CMMESPB sd cl mr time_start st line).crit_points k := by
  have hflat : ∀ (bound : Int) (l : List Int), List.Pairwise (fun a b : Int => a < b) l →
      List.Pairwise (fun a b : Int × Int × Int => a.1 < b.1 ∨ (a.1 = b.1 ∧ b.2.1 < a.2.1))
        (l.flatMap (detect_rows sd cl
          (line * sd.width_total + cl.active_start_record time_start) time_start mr bound))
      ∧ ∀ r ∈ l.flatMap (detect_rows sd cl
          (line * sd.width_total + cl.active_start_record time_start) time_start mr bound),
        r.2.1 = 1 ∨ r.2.1 = -1 := by
    intro bound l hl
    constructor
    · rw [List.pairwise_flatMap]
      refine ⟨fun j _ => detect_rows_lex _ _ _ _ _ _ _, List.Pairwise.imp ?_ hl⟩
      intro a b hab x hx y hy
      rw [((mem_detect_rows _ _ _ _ _ _ _ _).mp hx).1, ((mem_detect_rows _ _ _ _ _ _ _ _).mp hy).1]
      exact Or.inl hab
    · intro r hr
      obtain ⟨j, _, hj⟩ := List.mem_flatMap.mp hr
      rcases ((mem_detect_rows _ _ _ _ _ _ _ _).mp hj).2.2 with h | h
      · exact Or.inl h.1
      · exact Or.inr h.1
  apply rows_two_apart _ _ _ k hk2 hk
  · unfold ant_cell_crit
    split_ifs
    · rw [gpt1_rows]
      exact (hflat _ _ (visited_steps_sorted BIRTH sd cl _ _ _)).1
    · rw [gpt2_rows]
      exact (hflat _ _ (visited_steps_sorted BIRTH sd cl _ _ _)).1
  · unfold ant_cell_crit
    split_ifs
    · rw [gpt1_rows]
      exact (hflat _ _ (visited_steps_sorted BIRTH sd cl _ _ _)).2
    · rw [gpt2_rows]
      exact (hflat _ _ (visited_steps_sorted BIRTH sd cl _ _ _)).2

/-! ## The properties of the cell loop -/

/-- C33: in `osc_features_ant` a cell with at least 3 critical points adds to the
period sum the entry `periods[0]`, which is its first period sample when it has one
and 0 (not the sentinel 1) when it has no period sample, as for the critical points
trough, peak, trough; and it adds 0 to the amplitude sum when it has no amplitude
sample. -/
theorem ant_cell_first_period (BIRTH CMH1 CMMESPA CMMESPB : Int) (sqrt : ℚ → ℚ)
    (sd : sim_data) (cl : con_levels) (mr time_start : Int) (per_time0 : Nat → ℚ)
    (st : ant_state) (line : Int)
    (h3 : 3 ≤ (ant_cell_crit BIRTH CMH1 CMMESPA CMMESPB sd cl mr time_start st
      line).num_points) :
    (∀ p : ℚ × ℚ,
      (ant_cell_osc BIRTH CMH1 CMMESPA CMMESPB sd cl mr time_start per_time0 st
        line).period_samples.head? = some p →
      (ant_cell BIRTH CMH1 CMMESPA CMMESPB sqrt sd cl mr time_start per_time0 st
        line).period_avg = st.period_avg + p.1) ∧
    ((ant_cell_osc BIRTH CMH1 CMMESPA CMMESPB sd cl mr time_start per_time0 st
        line).period_samples = [] →
      (ant_cell BIRTH CMH1 CMMESPA CMMESPB sqrt sd cl mr time_start per_time0 st
        line).period_avg = st.period_avg + 0) ∧
    ((ant_cell_osc BIRTH CMH1 CMMESPA CMMESPB sd cl mr time_start per_time0 st
        line).amplitude_samples = [] →
      (ant_cell BIRTH CMH1 CMMESPA CMMESPB sqrt sd cl mr time_start per_time0 st
        line).amp_avg = st.amp_avg + 0) := by
  obtain ⟨e1, e2, _⟩ := ant_cell_sums BIRTH CMH1 CMMESPA CMMESPB sqrt sd cl mr time_start
    per_time0 st line
  have hp : cell_period (ant_cell_crit BIRTH CMH1 CMMESPA CMMESPB sd cl mr time_start st
        line).num_points
      (ant_cell_osc BIRTH CMH1 CMMESPA CMMESPB sd cl mr time_start per_time0 st line)
      = (ant_cell_osc BIRTH CMH1 CMMESPA CMMESPB sd cl mr time_start per_time0 st
        line).periods 0 := by
    unfold cell_period
    rw [if_pos h3]
  rw [e1, e2, hp]
  generalize hs : ant_cell_osc BIRTH CMH1 CMMESPA CMMESPB sd cl mr time_start per_time0 st
    line = s
  have hunt : ∀ i, s.pers ≤ i → s.periods i = 0 := by
    rw [← hs]
    exact osc_samples_untouched _ _ _ _ _ _ _
  refine ⟨fun p hp1 => ?_, fun hnil => ?_, fun hnil => ?_⟩
  · unfold osc_state.period_samples at hp1
    rcases Nat.eq_zero_or_pos s.pers with h0 | h0
    · rw [h0] at hp1
      simp at hp1
    · obtain ⟨k, hk⟩ : ∃ k, s.pers = k + 1 := ⟨s.pers - 1, by omega⟩
      rw [hk, List.range_succ_eq_map] at hp1
      simp only [List.map_cons, List.head?_cons, Option.some.injEq] at hp1
      rw [← hp1]
  · have h0 : s.pers = 0 := by
      unfold osc_state.period_samples at hnil
      simpa using hnil
    rw [hunt 0 (by omega)]
  · have h0 : s.amps = 0 := by
      unfold osc_state.amplitude_samples at hnil
      simpa using hnil
    unfold cell_amp
    rw [if_pos h3, if_pos h0]

theorem ant_cell_first_period_witness :
    (ant_cell_crit 0 1 2 3 demo_sd vee_cl 1 0 ant_state0 0).rows
      = [(2, -1, 0), (4, 1, 0), (6, -1, 0)] ∧
    (ant_cell 0 1 2 3 demo_sqrt demo_sd vee_cl 1 0 (fun _ => 0) ant_state0 0).period_avg
      = ant_state0.period_avg + 0 :=
  ⟨by decide!,
    (ant_cell_first_period 0 1 2 3 demo_sqrt demo_sd vee_cl 1 0 (fun _ => 0) ant_state0 0
      (by decide!)).2.1 (by decide!)⟩

/-- C34: a cell with at least 3 period samples whose second period sample has a
position above `0.85 * (width_total - 1)` passes the oscillation quality test, whatever
its periods are: the loop is left at its first sample, before any ratio is tested. -/
theorem giudicelli_untested_passes (sd : sim_data) (s : osc_state) (h3 : 3 ≤ s.pers)
    (hpos : s.per_pos 1 > 0.85 * ((sd.width_total - 1 : Int) : ℚ)) :
    giudicelli_test sd s = true ∧
    (∀ periods : Nat → ℚ, giudicelli_test sd { s with periods := periods } = true) ∧
    (∀ (BIRTH CMH1 CMMESPA CMMESPB : Int) (sqrt : ℚ → ℚ) (cl : con_levels) (time_start : Int)
      (per_time0 : Nat → ℚ) (st : ant_state) (line : Int),
      s = ant_cell_osc BIRTH CMH1 CMMESPA CMMESPB sd cl CMH1 time_start per_time0 st line →
      (ant_cell BIRTH CMH1 CMMESPA CMMESPB sqrt sd cl CMH1 time_start per_time0 st
        line).num_cells_passed = st.num_cells_passed + 1) := by
  have key : ∀ s2 : osc_state, 3 ≤ s2.pers →
      s2.per_pos 1 > 0.85 * ((sd.width_total - 1 : Int) : ℚ) → giudicelli_test sd s2 = true := by
    intro s2 h32 hp2
    rw [giudicelli_test_eq_true]
    refine ⟨h32, fun k hk1 _ hno => ?_⟩
    exact absurd hp2 (hno 1 le_rfl hk1)
  refine ⟨key s h3 hpos, fun periods => key _ h3 hpos, ?_⟩
  intro BIRTH CMH1 CMMESPA CMMESPB sqrt cl time_start per_time0 st line hs
  obtain ⟨_, _, e3⟩ := ant_cell_sums BIRTH CMH1 CMMESPA CMMESPB sqrt sd cl CMH1 time_start
    per_time0 st line
  rw [e3, ← hs, key s h3 hpos]
  have hn : (ant_cell_crit BIRTH CMH1 CMMESPA CMMESPB sd cl CMH1 time_start st
      line).num_points ≥ 3 := by
    by_contra hc
    have : s.pers = 0 := by
      rw [hs]
      unfold ant_cell_osc osc_samples
      rw [if_neg hc]
    omega
  simp [hn]

theorem giudicelli_untested_passes_witness :
    giudicelli_test curve_sd late_state = true :=
  (giudicelli_untested_passes curve_sd late_state (by decide) (by decide!)).1

/-- C36: for positive `step_size` and `big_gran`, each period sample that
`osc_features_ant` computes for a cell is strictly positive; so the divisor
`periods[0]` of the oscillation quality test, which is a period sample when the ratios
are computed, is not zero. -/
theorem ant_periods_positive (BIRTH CMH1 CMMESPA CMMESPB : Int) (sd : sim_data)
    (cl : con_levels) (mr time_start : Int) (per_time0 : Nat → ℚ) (st : ant_state)
    (line : Int) (hs : 0 < sd.step_size) (hg : 0 < sd.big_gran) :
    (∀ i : Nat,
      i < (ant_cell_osc BIRTH CMH1 CMMESPA CMMESPB sd cl mr time_start per_time0 st line).pers →
      0 < (ant_cell_osc BIRTH CMH1 CMMESPA CMMESPB sd cl mr time_start per_time0 st
        line).periods i) ∧
    (3 ≤ (ant_cell_osc BIRTH CMH1 CMMESPA CMMESPB sd cl mr time_start per_time0 st line).pers →
      (ant_cell_osc BIRTH CMH1 CMMESPA CMMESPB sd cl mr time_start per_time0 st
        line).periods 0 ≠ 0) := by
  have hall : ∀ i : Nat,
      i < (ant_cell_osc BIRTH CMH1 CMMESPA CMMESPB sd cl mr time_start per_time0 st line).pers →
      0 < (ant_cell_osc BIRTH CMH1 CMMESPA CMMESPB sd cl mr time_start per_time0 st
        line).periods i := by
    intro i hi
    unfold ant_cell_osc at hi ⊢
    obtain ⟨k, hk2, hkn, hk⟩ := osc_samples_period_mem _ _ _ _ _ _ _ i hi
    rw [hk]
    have hlt := ant_cell_crit_two_apart BIRTH CMH1 CMMESPA CMMESPB sd cl mr time_start st line
      k hk2 hkn
    have h1 : (0 : ℚ) < (((ant_cell_crit BIRTH CMH1 CMMESPA CMMESPB sd cl mr time_start st
        line).crit_points k - (ant_cell_crit BIRTH CMH1 CMMESPA CMMESPB sd cl mr time_start st
        line).crit_points (k - 2) : Int) : ℚ) := by
      have : (0 : Int) < (ant_cell_crit BIRTH CMH1 CMMESPA CMMESPB sd cl mr time_start st
        line).crit_points k - (ant_cell_crit BIRTH CMH1 CMMESPA CMMESPB sd cl mr time_start st
        line).crit_points (k - 2) := by omega
      exact_mod_cast this
    have h2 : (0 : ℚ) < (sd.big_gran : ℚ) := by exact_mod_cast hg
    exact mul_pos (mul_pos h1 hs) h2
  exact ⟨hall, fun h3 => ne_of_gt (hall 0 (by omega))⟩

theorem ant_periods_positive_witness :
    0 < (ant_cell_osc 0 1 2 3 demo_sd demo_cl 1 0 (fun _ => 0) ant_state0 0).periods 0 :=
  (ant_periods_positive 0 1 2 3 demo_sd demo_cl 1 0 (fun _ => 0) ant_state0 0
    (by decide!) (by decide)).1 0 (by decide!)

/-- C37: for a gene `con` other than 3 and 4 the value of `ant_sync` does not depend on
the active start record: two stores with the same concentrations give the same
score. -/
theorem ant_sync_ignores_active_start (sqrt : ℚ → ℚ) (sd : sim_data) (cl cl2 : con_levels)
    (con time : Int) (h3 : con ≠ 3) (h4 : con ≠ 4) (hcons : cl.cons = cl2.cons) :
    ant_sync sqrt sd cl con time = ant_sync sqrt sd cl2 con time := by
  have hc : ¬ (con = 3 ∨ con = 4) := by
    rintro (h | h)
    · exact h3 h
    · exact h4 h
  have e1 : ant_sync_first_row sd cl con time = ant_sync_first_row sd cl2 con time := by
    funext y
    unfold ant_sync_first_row ant_sync_offset
    rw [if_neg hc, if_neg hc, hcons]
  have e2 : ∀ x, ant_sync_cur_row sd cl con time x = ant_sync_cur_row sd cl2 con time x := by
    intro x
    funext y
    unfold ant_sync_cur_row ant_sync_cell ant_sync_offset
    rw [if_neg hc, if_neg hc, hcons]
  unfold ant_sync
  simp only [e1, e2]

theorem ant_sync_ignores_active_start_witness :
    ant_sync demo_sqrt sync_sd (sync_cl (fun _ => 0)) 1 0
      = ant_sync demo_sqrt sync_sd (sync_cl (fun t => t + 1)) 1 0 :=
  ant_sync_ignores_active_start demo_sqrt sync_sd (sync_cl (fun _ => 0))
    (sync_cl (fun t => t + 1)) 1 0 (by decide) (by decide) rfl

/-! ## The Pearson correlation in `double` arithmetic -/

theorem pow2_eq_zpow (e : Int) : pow2 e = (2 : ℚ) ^ e := by
  unfold pow2
  split_ifs with h
  · obtain ⟨n, rfl⟩ := Int.eq_ofNat_of_zero_le h
    simp
  · obtain ⟨n, hn⟩ := Int.eq_ofNat_of_zero_le (show 0 ≤ -e by omega)
    have he : e = -(n : Int) := by omega
    rw [hn, he]
    simp

theorem pow2_pos (e : Int) : 0 < pow2 e := by
  rw [pow2_eq_zpow]
  positivity

theorem bit_length_zero (fuel : Nat) : bit_length fuel 0 = 0 := by
  cases fuel <;> simp [bit_length]

/-- With enough fuel, `bit_length` is the number of binary digits:
`2 ^ (bit_length n - 1) ≤ n < 2 ^ bit_length n`. -/
theorem bit_length_spec : ∀ (fuel n : Nat), 0 < n → n ≤ fuel →
    1 ≤ bit_length fuel n ∧ 2 ^ (bit_length fuel n - 1) ≤ n ∧ n < 2 ^ bit_length fuel n := by
  intro fuel
  induction fuel with
  | zero => intro n h1 h2; omega
  | succ fuel ih =>
    intro n h1 h2
    have hn : n ≠ 0 := by omega
    simp only [bit_length, if_neg hn]
    rcases Nat.eq_zero_or_pos (n / 2) with h0 | hpos
    · rw [h0, bit_length_zero]
      have : n = 1 := by omega
      subst this
      simp
    · obtain ⟨b1, b2, b3⟩ := ih (n / 2) hpos (by omega)
      refine ⟨by omega, ?_, ?_⟩
      · have e : bit_length fuel (n / 2) + 1 - 1 = (bit_length fuel (n / 2) - 1) + 1 := by omega
        rw [e, pow_succ]
        omega
      · rw [pow_succ]
        omega

/-- The value `binary_exponent q` is the binary exponent of `q`. -/
theorem binary_exponent_spec (q : ℚ) (hq : q ≠ 0) :
    pow2 (binary_exponent q) ≤ |q| ∧ |q| < pow2 (binary_exponent q + 1) := by
  have hn0 : 0 < q.num.natAbs := Int.natAbs_pos.mpr (Rat.num_ne_zero.mpr hq)
  obtain ⟨a1, a2, a3⟩ := bit_length_spec q.num.natAbs q.num.natAbs hn0 le_rfl
  obtain ⟨b1, b2, b3⟩ := bit_length_spec q.den q.den q.den_pos le_rfl
  have habs : |q| = (q.num.natAbs : ℚ) / (q.den : ℚ) := by
    have h1 : |q| = |(q.num : ℚ)| / (q.den : ℚ) := by
      conv_lhs => rw [← Rat.num_div_den q]
      rw [abs_div, Nat.abs_cast]
    rw [h1, Nat.cast_natAbs, Int.cast_abs]
  have hd : (0 : ℚ) < (q.den : ℚ) := by exact_mod_cast q.den_pos
  set a := bit_length q.num.natAbs q.num.natAbs with ha
  set b := bit_length q.den q.den with hb
  have A2 : ((2 : ℚ) ^ (a - 1 : Nat)) ≤ (q.num.natAbs : ℚ) := by exact_mod_cast a2
  have A3 : (q.num.natAbs : ℚ) < (2 : ℚ) ^ a := by exact_mod_cast a3
  have B2 : ((2 : ℚ) ^ (b - 1 : Nat)) ≤ (q.den : ℚ) := by exact_mod_cast b2
  have B3 : (q.den : ℚ) < (2 : ℚ) ^ b := by exact_mod_cast b3
  -- the two bounds with the difference of the numbers of digits
  have lo : (2 : ℚ) ^ ((a : Int) - (b : Int) - 1) < |q| := by
    rw [habs, lt_div_iff₀ hd]
    have e : (2 : ℚ) ^ ((a : Int) - (b : Int) - 1) * (2 : ℚ) ^ b = (2 : ℚ) ^ (a - 1 : Nat) := by
      rw [← zpow_natCast (2 : ℚ) b, ← zpow_add₀ (by norm_num : (2 : ℚ) ≠ 0),
        ← zpow_natCast (2 : ℚ) (a - 1)]
      congr 1
      omega
    calc (2 : ℚ) ^ ((a : Int) - (b : Int) - 1) * (q.den : ℚ)
        < (2 : ℚ) ^ ((a : Int) - (b : Int) - 1) * (2 : ℚ) ^ b :=
          mul_lt_mul_of_pos_left B3 (by positivity)
      _ = (2 : ℚ) ^ (a - 1 : Nat) := e
      _ ≤ _ := A2
  have hi : |q| < (2 : ℚ) ^ ((a : Int) - (b : Int) + 1) := by
    rw [habs, div_lt_iff₀ hd]
    have e : (2 : ℚ) ^ ((a : Int) - (b : Int) + 1) * (2 : ℚ) ^ (b - 1 : Nat) = (2 : ℚ) ^ a := by
      rw [← zpow_natCast (2 : ℚ) (b - 1), ← zpow_add₀ (by norm_num : (2 : ℚ) ≠ 0),
        ← zpow_natCast (2 : ℚ) a]
      congr 1
      omega
    calc (q.num.natAbs : ℚ) < (2 : ℚ) ^ a := A3
      _ = (2 : ℚ) ^ ((a : Int) - (b : Int) + 1) * (2 : ℚ) ^ (b - 1 : Nat) := e.symm
      _ ≤ (2 : ℚ) ^ ((a : Int) - (b : Int) + 1) * (q.den : ℚ) :=
          mul_le_mul_of_nonneg_left B2 (by positivity)
  unfold binary_exponent
  simp only [← ha, ← hb]
  split_ifs with h
  · exact ⟨h, by rw [pow2_eq_zpow]; exact hi⟩
  · refine ⟨by rw [pow2_eq_zpow]; exact le_of_lt lo, ?_⟩
    have : (a : Int) - (b : Int) - 1 + 1 = (a : Int) - (b : Int) := by ring
    rw [this]
    exact not_le.mp h

/-- The value `round_half_even q` is a whole number nearest to `q`. -/
theorem round_half_even_spec (q : ℚ) : |q - (round_half_even q : ℚ)| ≤ 1 / 2 := by
  have h1 := Int.floor_le q
  have h2 := Int.lt_floor_add_one q
  unfold round_half_even
  split_ifs with a b c
  · rw [abs_le]; constructor <;> linarith
  · rw [abs_le]; push_cast; constructor <;> linarith
  · rw [abs_le]; constructor <;> linarith
  · rw [abs_le]; push_cast; constructor <;> linarith

/-- The value `round_double q` is a whole multiple of the unit in the last place of
the binade of `q` (`2 ^ (e - 52)` for the binary exponent `e` of `q`, and `2 ^ -1074`
below `2 ^ -1022`), and no such multiple is nearer to `q`. -/
theorem round_double_spec (q : ℚ) (hq : q ≠ 0) :
    (∃ n : Int, round_double q = (n : ℚ) * pow2 (max (binary_exponent q) (-1022) - 52)) ∧
    ∀ n : Int, |q - round_double q|
      ≤ |q - (n : ℚ) * pow2 (max (binary_exponent q) (-1022) - 52)| := by
  have hu := pow2_pos (max (binary_exponent q) (-1022) - 52)
  have hr : round_double q = (round_half_even (q / pow2 (max (binary_exponent q) (-1022) - 52)) : ℚ)
      * pow2 (max (binary_exponent q) (-1022) - 52) := by
    unfold round_double
    rw [if_neg hq]
  refine ⟨⟨_, hr⟩, fun n => ?_⟩
  rw [hr]
  set u := pow2 (max (binary_exponent q) (-1022) - 52) with hu'
  set r := round_half_even (q / u) with hr'
  -- distances in units of `u`
  have e1 : ∀ m : Int, |q - (m : ℚ) * u| = |q / u - (m : ℚ)| * u := by
    intro m
    have : q - (m : ℚ) * u = (q / u - (m : ℚ)) * u := by rw [sub_mul, div_mul_cancel₀ _ (ne_of_gt hu)]
    rw [this, abs_mul, abs_of_pos hu]
  rw [e1 r, e1 n]
  apply mul_le_mul_of_nonneg_right _ hu.le
  have hhalf := round_half_even_spec (q / u)
  rw [← hr'] at hhalf
  by_cases hn : n = r
  · rw [hn]
  · have h1 : (1 : ℚ) ≤ |(r : ℚ) - (n : ℚ)| := by
      have : (1 : Int) ≤ |r - n| := Int.one_le_abs (by omega)
      exact_mod_cast this
    have h2 : |(r : ℚ) - (n : ℚ)| ≤ |q / u - (r : ℚ)| + |q / u - (n : ℚ)| := by
      have : (r : ℚ) - (n : ℚ) = -(q / u - (r : ℚ)) + (q / u - (n : ℚ)) := by ring
      rw [this]
      exact le_trans (abs_add _ _) (by rw [abs_neg])
    linarith

/-- Without rounding, the function on values of type `double` is the function over the
rationals. -/
theorem pearson_correlation_rounded_id (sqrt : ℚ → ℚ) (x y : Int → ℚ) (start end_ : Int) :
    pearson_correlation_rounded id sqrt x y start end_
      = pearson_correlation sqrt x y start end_ := rfl

/-- C18 fails on the code: let `x` hold the `double` nearest to 1/10 at every index and
`y` hold 1, 2, 3 at the indices 0, 1, 2. In `double` arithmetic the sum of the three
equal values, divided by 3, is rounded to the next `double` above the value, so each
deviation `x[j] - x_avg` is `-2^-56`, the sum of their squares is `3 * 2^-112` and not
0, and the test `sigma_x2 == 0 || sigma_y2 == 0` does not return 1: the function
returns `sigma_xy / (sigma_x2 * sigma_y2)`, which is 0 here, for every square root
function that is positive at the positive numbers. In exact arithmetic the mean of
`x` is its value and the function returns 1 on the same input. -/
theorem pearson_rounded_mean_misses_guard :
    round_double (1 / 10) = 3602879701896397 / 36028797018963968 ∧
    (∀ v : ℚ, v = 1 ∨ v = 2 ∨ v = 3 → round_double v = v) ∧
    (pearson_means_rounded round_double (fun _ => round_double (1 / 10))
        (fun j => (j : ℚ) + 1) 0 3)
      = (7205759403792795 / 72057594037927936, 2) ∧
    (pearson_sums_rounded round_double (fun _ => round_double (1 / 10))
        (fun j => (j : ℚ) + 1) 0 3)
      = (0, 3 / 2 ^ 112, 2) ∧
    (∀ sqrt : ℚ → ℚ, (∀ v : ℚ, 0 < v → 0 < sqrt v) →
      pearson_correlation_rounded round_double sqrt (fun _ => round_double (1 / 10))
        (fun j => (j : ℚ) + 1) 0 3 = 0) ∧
    (∀ sqrt : ℚ → ℚ, sqrt 0 = 0 →
      pearson_correlation sqrt (fun _ => round_double (1 / 10))
        (fun j => (j : ℚ) + 1) 0 3 = 1) := by
  have hs : (pearson_sums_rounded round_double (fun _ => round_double (1 / 10))
      (fun j => (j : ℚ) + 1) 0 3) = (0, 3 / 2 ^ 112, 2) := by decide!
  refine ⟨by decide!, ?_, by decide!, hs, ?_, ?_⟩
  · rintro v (rfl | rfl | rfl) <;> decide!
  · intro sqrt hpos
    unfold pearson_correlation_rounded
    simp only [hs]
    have h1 : sqrt (3 / 2 ^ 112) ≠ 0 := ne_of_gt (hpos _ (by norm_num))
    have h2 : sqrt 2 ≠ 0 := ne_of_gt (hpos _ (by norm_num))
    rw [if_neg (by simp [h1, h2])]
    simp only [zero_div]
    decide!
  · intro sqrt h0
    exact pearson_of_const_left sqrt h0 _ _ 0 3 (round_double (1 / 10)) (fun _ _ _ => rfl)

end Feats
